import Mathlib

/-!
Shallow embedding of `src/src/socow-vector.h` (template class `socow_vector<T, SMALL_SIZE>`),
a small-buffer-optimized copy-on-write vector.

Modelling conventions:
* The element type `T` is an abstract type `α`; element values are copied by value, and a
  copy *budget* (`fuel : Nat`) models `T`'s copy constructor throwing: every invocation of
  the copy constructor consumes one unit of fuel, and a copy attempted with zero fuel left
  throws (models an arbitrary copy failing mid-operation).  `std::uninitialized_copy`
  destroys the partially-constructed elements itself on throw, so a failed copy never
  leaves observable elements behind.
* The heap of `operator new`-allocated blocks is a list `Heap α`; slot `i` holds the i-th
  ever-allocated `dynamic_buffer`, and becomes `none` when `operator delete` frees it.
* A `dynamic_buffer`'s `data_` field is the list of currently *constructed* elements of the
  block (the prefix `[0, size)` of its storage); `std::destroy_n(data, size)` of all
  constructed elements is modelled by setting `data_ := []`.
* A `socow_vector` value mirrors the C++ fields `size_`, `is_small_vector_` and the
  anonymous union.  Both union members are materialized as fields: `dynamic_data` (a heap
  slot index, meaningful only when `is_small_vector_ = false`) and `static_buffer` (the
  list of constructed elements of the inline array, meaningful only when
  `is_small_vector_ = true`).  Operations set the inactive field to a canonical value
  (`0` / `[]`); the C++ union leaves it as unreadable garbage, which no operation inspects.
* Iterators are modelled as offsets (`Nat`) from the start of the current storage, so
  `pos - const_data()` is just the offset `pos`.
* Each fallible operation returns the heap and vector as they are after the operation
  finished or after its `catch`-rollback ran, the remaining fuel, and `Except Unit ρ`.
-/

namespace Socow

/-- The reference-counted heap block `socow_vector::dynamic_buffer`: a fixed capacity, a
reference count (starting at 1 on allocation), and the constructed elements. -/
structure dynamic_buffer (α : Type) where
  capacity_ : Nat
  refs_count : Nat
  data_ : List α
  deriving Repr, DecidableEq

/-- The heap: slot `i` is the i-th allocated `dynamic_buffer`, `none` once freed. -/
abbrev Heap (α : Type) : Type := List (Option (dynamic_buffer α))

/-- Read heap slot `i`. -/
def hget (h : Heap α) (i : Nat) : Option (dynamic_buffer α) :=
  (h.getD i none)

/-- Overwrite heap slot `i`. -/
def hset (h : Heap α) (i : Nat) (b : Option (dynamic_buffer α)) : Heap α :=
  h.set i b

/-- Dereference the `dynamic_buffer*` at slot `i` (default value only reached from states
that would dereference a dangling pointer in C++). -/
def bufAt (h : Heap α) (i : Nat) : dynamic_buffer α :=
  (hget h i).getD ⟨0, 0, []⟩

/-- Update the buffer at slot `i` in place. -/
def modifyBuf (h : Heap α) (i : Nat) (f : dynamic_buffer α → dynamic_buffer α) : Heap α :=
  match hget h i with
  | none => h
  | some b => hset h i (some (f b))

/-- Models `std::uninitialized_copy` / placement-`new` performing `len` element copy
constructions: consumes `len` fuel, or throws (having destroyed its partial work). -/
def uninitialized_copy (len fuel : Nat) : Except Unit Nat :=
  if len ≤ fuel then .ok (fuel - len) else .error ()

/-- The container `socow_vector<T, SMALL_SIZE>`; `SMALL_SIZE` is the parameter `N` of the
operations below. -/
structure socow_vector (α : Type) where
  size_ : Nat
  is_small_vector_ : Bool
  dynamic_data : Nat
  static_buffer : List α
  deriving Repr, DecidableEq

/-- The default constructor `socow_vector()`: empty, small. -/
def mkEmpty (α : Type) : socow_vector α :=
  ⟨0, true, 0, []⟩

/-- The elements observable through the container: `const_data()[0, size)`. -/
def view (h : Heap α) (v : socow_vector α) : List α :=
  if v.is_small_vector_ then v.static_buffer.take v.size_
  else (bufAt h v.dynamic_data).data_.take v.size_

/-- Member `size()`. -/
def size (v : socow_vector α) : Nat :=
  v.size_

/-- Member `capacity()`: `SMALL_SIZE` when small, else the bound buffer's capacity. -/
def capacity (N : Nat) (h : Heap α) (v : socow_vector α) : Nat :=
  if v.is_small_vector_ then N else (bufAt h v.dynamic_data).capacity_

/-- Member `empty()`. -/
def empty (v : socow_vector α) : Bool :=
  v.size_ == 0

/-- Private `is_only_vector_ref()`. -/
def is_only_vector_ref (h : Heap α) (v : socow_vector α) : Bool :=
  v.is_small_vector_ || (bufAt h v.dynamic_data).refs_count == 1

/-- Private `is_same_vector(other)`: `const_data() == other.const_data()`; two distinct
containers' pointers coincide exactly when both are bound to the same dynamic buffer. -/
def is_same_vector (a b : socow_vector α) : Bool :=
  !a.is_small_vector_ && !b.is_small_vector_ && a.dynamic_data == b.dynamic_data

/-- Private `allocate_dynamic_buffer(capacity)`: a fresh block with `refs_count = 1` and
no constructed elements; returns the new heap and the block's slot index. -/
def allocate_dynamic_buffer (h : Heap α) (cap : Nat) : Heap α × Nat :=
  (h ++ [some ⟨cap, 1, []⟩], h.length)

/-- Private static `release_ref(dynamic_data, count)`: drop one reference; on reaching
zero, destroy the `count` constructed elements and `operator delete` the block. -/
def release_ref (h : Heap α) (i : Nat) (count : Nat) : Heap α :=
  match hget h i with
  | none => h
  | some b =>
    if b.refs_count ≤ 1 then hset h i none
    else hset h i (some { b with refs_count := b.refs_count - 1 })

/-- Private `add_vector_ref()`. -/
def add_vector_ref (h : Heap α) (v : socow_vector α) : Heap α :=
  if v.is_small_vector_ then h
  else modifyBuf h v.dynamic_data (fun b => { b with refs_count := b.refs_count + 1 })

/-- Private `release_vector_ref()`. -/
def release_vector_ref (h : Heap α) (v : socow_vector α) : Heap α :=
  if v.is_small_vector_ then h
  else release_ref h v.dynamic_data v.size_

/-- The destructor `~socow_vector()`: inline elements are destroyed (no heap effect),
a dynamic reference is released. -/
def destruct (h : Heap α) (v : socow_vector α) : Heap α :=
  if v.is_small_vector_ then h
  else release_ref h v.dynamic_data v.size_

/-- Private `noexcept_clear()`: if shared, detach (become small and empty, decrement the
count — it cannot reach zero here); else destroy the own constructed elements in place. -/
def noexcept_clear (h : Heap α) (v : socow_vector α) : Heap α × socow_vector α :=
  if !(is_only_vector_ref h v) then
    (modifyBuf h v.dynamic_data (fun b => { b with refs_count := b.refs_count - 1 }),
     ⟨0, true, 0, []⟩)
  else if v.is_small_vector_ then
    (h, { v with size_ := 0, static_buffer := [] })
  else
    (modifyBuf h v.dynamic_data (fun b => { b with data_ := [] }), { v with size_ := 0 })

/-- Private `from_dynamic_to_static(data_pointer, count)` on a dynamic vector: flip to
small, copy `count` elements from `src` into the inline array, then release the old
buffer (with the *old* size); on throw, restore the dynamic handle. -/
def from_dynamic_to_static (h : Heap α) (v : socow_vector α) (src : List α)
    (count fuel : Nat) : Heap α × socow_vector α × Nat × Except Unit Unit :=
  match uninitialized_copy count fuel with
  | .error _ => (h, v, fuel, .error ())
  | .ok fuel₁ =>
    (release_ref h v.dynamic_data v.size_,
     ⟨count, true, 0, src.take count⟩, fuel₁, .ok ())

/-- The private sized copy constructor `socow_vector(other, new_size, new_capacity)`:
small iff `new_capacity ≤ SMALL_SIZE`, else a fresh dynamic block of `new_capacity`;
copies `other`'s first `new_size` elements; on throw the fresh block is deleted
(`operator delete` without destroying — the failed copy cleaned up after itself). -/
def ctor_sized (N : Nat) (h : Heap α) (other : socow_vector α)
    (new_size new_capacity fuel : Nat) : Heap α × Nat × Except Unit (socow_vector α) :=
  if new_capacity ≤ N then
    match uninitialized_copy new_size fuel with
    | .error _ => (h, fuel, .error ())
    | .ok fuel₁ => (h, fuel₁, .ok ⟨new_size, true, 0, (view h other).take new_size⟩)
  else
    let alloc := allocate_dynamic_buffer h new_capacity
    match uninitialized_copy new_size fuel with
    | .error _ => (hset alloc.1 alloc.2 none, fuel, .error ())
    | .ok fuel₁ =>
      (hset alloc.1 alloc.2 (some ⟨new_capacity, 1, (view h other).take new_size⟩),
       fuel₁, .ok ⟨new_size, false, alloc.2, []⟩)

/-- The copy constructor `socow_vector(const socow_vector&)`: from a small source,
element-wise copy into fresh inline storage; from a dynamic source, adopt the same
buffer and increment its reference count (no element copies, cannot throw). -/
def copy_ctor (h : Heap α) (other : socow_vector α) (fuel : Nat) :
    Heap α × Nat × Except Unit (socow_vector α) :=
  if other.is_small_vector_ then
    match uninitialized_copy other.size_ fuel with
    | .error _ => (h, fuel, .error ())
    | .ok fuel₁ => (h, fuel₁, .ok ⟨other.size_, true, 0, (view h other).take other.size_⟩)
  else
    (add_vector_ref h other, fuel, .ok ⟨other.size_, false, other.dynamic_data, []⟩)

instance {ε ρ : Type} [DecidableEq ε] [DecidableEq ρ] : DecidableEq (Except ε ρ) :=
  fun a b =>
    match a, b with
    | .ok x, .ok y => if h : x = y then .isTrue (by rw [h]) else .isFalse (by simp [h])
    | .error x, .error y => if h : x = y then .isTrue (by rw [h]) else .isFalse (by simp [h])
    | .ok _, .error _ => .isFalse (by simp)
    | .error _, .ok _ => .isFalse (by simp)

/-- Result of a mutating member function: heap, the updated vector, remaining fuel, and
normal return or propagated exception. -/
structure MRes (α : Type) where
  heap : Heap α
  vec : socow_vector α
  fuel : Nat
  out : Except Unit Unit
  deriving Repr, DecidableEq

/-- Result of `swap`: both updated vectors. -/
structure MRes2 (α : Type) where
  heap : Heap α
  fst : socow_vector α
  snd : socow_vector α
  fuel : Nat
  out : Except Unit Unit
  deriving Repr, DecidableEq

/-- Result of `insert`/`erase`: the returned iterator is an offset into the storage. -/
structure IRes (α : Type) where
  heap : Heap α
  vec : socow_vector α
  fuel : Nat
  out : Except Unit Nat
  deriving Repr, DecidableEq

/-- Branch of `swap` for two small vectors with `a.size() ≤ b.size()`: copy `b`'s tail
`[a.size, b.size)` after `a`'s elements (may throw: then both unchanged), pop `b` down to
`a`'s old size (each `pop_back` on a small vector destroys the last element), and
`std::swap` the first `tmp_size` elements pairwise. -/
def swap_small_small (h : Heap α) (a b : socow_vector α) (fuel : Nat) : MRes2 α :=
  match uninitialized_copy (b.size_ - a.size_) fuel with
  | .error _ => ⟨h, a, b, fuel, .error ()⟩
  | .ok fuel₁ =>
    let aExt := a.static_buffer.take a.size_ ++ (view h b).drop a.size_
    let tmp_size := a.size_
    let bShr := (view h b).take tmp_size
    ⟨h, { a with size_ := b.size_, static_buffer := bShr ++ aExt.drop tmp_size },
        { b with size_ := tmp_size, static_buffer := aExt.take tmp_size ++ bShr.drop tmp_size },
        fuel₁, .ok ()⟩

/-- Branch of `swap` where `a` is dynamic and `b` is small: tentatively flip `a` to small
and copy `b`'s elements into `a`'s inline array (on throw, restore `a`'s handle — both
unchanged); then `b` destroys its inline elements (`noexcept_clear`) and adopts `a`'s old
buffer and size.  No reference count changes. -/
def swap_dynamic_small (h : Heap α) (a b : socow_vector α) (fuel : Nat) : MRes2 α :=
  match uninitialized_copy b.size_ fuel with
  | .error _ => ⟨h, a, b, fuel, .error ()⟩
  | .ok fuel₁ =>
    ⟨h, ⟨b.size_, true, 0, (view h b).take b.size_⟩,
        ⟨a.size_, false, a.dynamic_data, []⟩, fuel₁, .ok ()⟩

/-- Member `swap(other)`.  The source's `other.swap(*this)` re-entries are realized by
calling the corresponding branch with the arguments flipped (the re-checked
`is_same_vector` gives the same answer for flipped arguments). -/
def swap (h : Heap α) (a b : socow_vector α) (fuel : Nat) : MRes2 α :=
  if is_same_vector a b then ⟨h, a, b, fuel, .ok ()⟩
  else if a.is_small_vector_ && b.is_small_vector_ then
    if b.size_ < a.size_ then
      let r := swap_small_small h b a fuel
      ⟨r.heap, r.snd, r.fst, r.fuel, r.out⟩
    else swap_small_small h a b fuel
  else if b.is_small_vector_ then swap_dynamic_small h a b fuel
  else if a.is_small_vector_ then
    let r := swap_dynamic_small h b a fuel
    ⟨r.heap, r.snd, r.fst, r.fuel, r.out⟩
  else
    ⟨h, { a with size_ := b.size_, dynamic_data := b.dynamic_data },
        { b with size_ := a.size_, dynamic_data := a.dynamic_data }, fuel, .ok ()⟩

/-- Private `unshare()`: nothing if exclusively owned; else build a private copy of the
same size and capacity, swap it in, and let the temporary release the shared storage. -/
def unshare (N : Nat) (h : Heap α) (v : socow_vector α) (fuel : Nat) : MRes α :=
  if is_only_vector_ref h v then ⟨h, v, fuel, .ok ()⟩
  else
    match ctor_sized N h v v.size_ (capacity N h v) fuel with
    | (h₁, fuel₁, .error _) => ⟨h₁, v, fuel₁, .error ()⟩
    | (h₁, fuel₁, .ok tmp) =>
      let r := swap h₁ v tmp fuel₁
      ⟨destruct r.heap r.snd, r.fst, r.fuel, r.out⟩

/-- Member `data()` (non-const): runs the unshare protocol, then yields mutable storage. -/
def data (N : Nat) (h : Heap α) (v : socow_vector α) (fuel : Nat) : MRes α :=
  unshare N h v fuel

/-- Copy assignment `operator=(other)`; the result's `vec` is the updated left-hand side
(`other` is const and unchanged). -/
def assign (N : Nat) (h : Heap α) (a b : socow_vector α) (fuel : Nat) : MRes α :=
  if is_same_vector a b then ⟨h, a, fuel, .ok ()⟩
  else if a.is_small_vector_ && b.is_small_vector_ then
    let m := min a.size_ b.size_
    match uninitialized_copy m fuel with
    | .error _ => ⟨h, a, fuel, .error ()⟩
    | .ok fuel₁ =>
      match uninitialized_copy (b.size_ - m) fuel₁ with
      | .error _ => ⟨h, a, fuel₁, .error ()⟩
      | .ok fuel₂ =>
        let aExt := a.static_buffer.take a.size_ ++ (view h b).drop m
        let aFin := (view h b).take m ++ (aExt.take b.size_).drop m
        ⟨h, { a with size_ := b.size_, static_buffer := aFin }, fuel₂, .ok ()⟩
  else if b.is_small_vector_ then
    let r := from_dynamic_to_static h a (view h b) b.size_ fuel
    ⟨r.1, r.2.1, r.2.2.1, r.2.2.2⟩
  else
    let h₁ := if a.is_small_vector_ then h else release_vector_ref h a
    let a₂ : socow_vector α := ⟨b.size_, false, b.dynamic_data, []⟩
    ⟨add_vector_ref h₁ a₂, a₂, fuel, .ok ()⟩

/-- Member `reserve(new_capacity)`. -/
def reserve (N : Nat) (h : Heap α) (v : socow_vector α) (new_capacity fuel : Nat) : MRes α :=
  if new_capacity < v.size_ then ⟨h, v, fuel, .ok ()⟩
  else if !(is_only_vector_ref h v) && new_capacity ≤ N then
    let r := from_dynamic_to_static h v (view h v) v.size_ fuel
    ⟨r.1, r.2.1, r.2.2.1, r.2.2.2⟩
  else if new_capacity > capacity N h v
      || (!(is_only_vector_ref h v) && v.size_ ≤ new_capacity) then
    if v.is_small_vector_ then
      match ctor_sized N h v v.size_ new_capacity fuel with
      | (h₁, fuel₁, .error _) => ⟨h₁, v, fuel₁, .error ()⟩
      | (h₁, fuel₁, .ok tmp) =>
        let r := assign N h₁ v tmp fuel₁
        ⟨destruct r.heap tmp, r.vec, r.fuel, r.out⟩
    else
      match ctor_sized N h v v.size_ new_capacity fuel with
      | (h₁, fuel₁, .error _) => ⟨h₁, v, fuel₁, .error ()⟩
      | (h₁, fuel₁, .ok tmp) =>
        let r := swap h₁ tmp v fuel₁
        ⟨destruct r.heap r.fst, r.snd, r.fuel, r.out⟩
  else ⟨h, v, fuel, .ok ()⟩

/-- Member `shrink_to_fit()`. -/
def shrink_to_fit (N : Nat) (h : Heap α) (v : socow_vector α) (fuel : Nat) : MRes α :=
  if v.is_small_vector_ || v.size_ == capacity N h v then ⟨h, v, fuel, .ok ()⟩
  else if v.size_ ≤ N then
    let r := from_dynamic_to_static h v (view h v) v.size_ fuel
    ⟨r.1, r.2.1, r.2.2.1, r.2.2.2⟩
  else
    match ctor_sized N h v v.size_ v.size_ fuel with
    | (h₁, fuel₁, .error _) => ⟨h₁, v, fuel₁, .error ()⟩
    | (h₁, fuel₁, .ok tmp) =>
      let r := swap h₁ tmp v fuel₁
      ⟨destruct r.heap r.fst, r.snd, r.fuel, r.out⟩

/-- Member `clear()`. -/
def clear (N : Nat) (h : Heap α) (v : socow_vector α) (fuel : Nat) : MRes α :=
  if !(is_only_vector_ref h v) then
    let r₁ := reserve N h (mkEmpty α) v.size_ fuel
    match r₁.out with
    | .error _ => ⟨destruct r₁.heap r₁.vec, v, r₁.fuel, .error ()⟩
    | .ok _ =>
      let r₂ := swap r₁.heap v r₁.vec r₁.fuel
      ⟨destruct r₂.heap r₂.snd, r₂.fst, r₂.fuel, r₂.out⟩
  else
    let step₁ : Heap α × socow_vector α :=
      if v.is_small_vector_ then (h, { v with size_ := 0, static_buffer := [] })
      else (modifyBuf h v.dynamic_data (fun b => { b with data_ := [] }),
            { v with size_ := 0 })
    let was_only := is_only_vector_ref step₁.1 step₁.2
    let step₂ := noexcept_clear step₁.1 step₁.2
    if !was_only then
      let alloc := allocate_dynamic_buffer step₂.1 (capacity N step₂.1 step₂.2)
      ⟨alloc.1, { step₂.2 with is_small_vector_ := false, dynamic_data := alloc.2 },
       fuel, .ok ()⟩
    else ⟨step₂.1, step₂.2, fuel, .ok ()⟩

/-- Net effect of the rotate-into-place loop of `insert`:
`for (i = end() - 1; i > spot; --i) std::iter_swap(i, i - 1)` bubbles the last element of
the segment down to its front, shifting the rest right by one. -/
def bubble_down : List α → List α
  | [] => []
  | [a] => [a]
  | a :: b :: rest =>
    match bubble_down (b :: rest) with
    | [] => [a]
    | c :: rest₁ => c :: a :: rest₁

/-- Member `insert(pos, value)` with `pos` given as the offset `pos - const_data()`. -/
def insert (N : Nat) (h : Heap α) (v : socow_vector α) (pos : Nat) (value : α)
    (fuel : Nat) : IRes α :=
  let delta := pos
  if v.size_ != capacity N h v && is_only_vector_ref h v then
    match uninitialized_copy 1 fuel with
    | .error _ => ⟨h, v, fuel, .error ()⟩
    | .ok fuel₁ =>
      let placed := view h v ++ [value]
      let rotated := placed.take delta ++ bubble_down (placed.drop delta)
      if v.is_small_vector_ then
        ⟨h, { v with size_ := v.size_ + 1, static_buffer := rotated }, fuel₁, .ok delta⟩
      else
        ⟨modifyBuf h v.dynamic_data (fun b => { b with data_ := rotated }),
         { v with size_ := v.size_ + 1 }, fuel₁, .ok delta⟩
  else
    let newCap := if v.size_ == capacity N h v then 2 * capacity N h v else capacity N h v
    let alloc := allocate_dynamic_buffer h newCap
    match uninitialized_copy delta fuel with
    | .error _ => ⟨hset alloc.1 alloc.2 none, v, fuel, .error ()⟩
    | .ok fuel₁ =>
      match uninitialized_copy 1 fuel₁ with
      | .error _ => ⟨hset alloc.1 alloc.2 none, v, fuel₁, .error ()⟩
      | .ok fuel₂ =>
        match uninitialized_copy (v.size_ - delta) fuel₂ with
        | .error _ => ⟨hset alloc.1 alloc.2 none, v, fuel₂, .error ()⟩
        | .ok fuel₃ =>
          let content := (view h v).take delta ++ value :: (view h v).drop delta
          let h₂ := hset alloc.1 alloc.2 (some ⟨newCap, 1, content⟩)
          let tmp : socow_vector α := ⟨v.size_ + 1, false, alloc.2, []⟩
          let step := noexcept_clear h₂ v
          let r := swap step.1 step.2 tmp fuel₃
          ⟨destruct r.heap r.snd, r.fst, r.fuel, .ok delta⟩

/-- Member `push_back(value)`: `insert(const_data() + size(), value)`. -/
def push_back (N : Nat) (h : Heap α) (v : socow_vector α) (value : α) (fuel : Nat) :
    MRes α :=
  let r := insert N h v v.size_ value fuel
  ⟨r.heap, r.vec, r.fuel, r.out.map (fun _ => ())⟩

/-- Member `pop_back()`: exclusively owned, destroy the last element in place; shared,
build a one-shorter private copy at the same capacity and swap it in. -/
def pop_back (N : Nat) (h : Heap α) (v : socow_vector α) (fuel : Nat) : MRes α :=
  if is_only_vector_ref h v then
    if v.is_small_vector_ then
      let vFin := { v with size_ := v.size_ - 1, static_buffer := v.static_buffer.take (v.size_ - 1) }
      ⟨h, vFin, fuel, .ok ()⟩
    else
      ⟨modifyBuf h v.dynamic_data (fun b => { b with data_ := b.data_.take (v.size_ - 1) }),
       { v with size_ := v.size_ - 1 }, fuel, .ok ()⟩
  else
    match ctor_sized N h v (v.size_ - 1) (capacity N h v) fuel with
    | (h₁, fuel₁, .error _) => ⟨h₁, v, fuel₁, .error ()⟩
    | (h₁, fuel₁, .ok tmp) =>
      let r := swap h₁ v tmp fuel₁
      ⟨destruct r.heap r.snd, r.fst, r.fuel, r.out⟩

/-- One `std::iter_swap` on a list, by positions. -/
def swapAt (l : List α) (i j : Nat) : List α :=
  match l.get? i, l.get? j with
  | some x, some y => (l.set i y).set j x
  | _, _ => l

/-- The shifting loop of `erase`:
`for (i = first; i + interval < end(); ++i) std::iter_swap(i, i + interval)`, on the whole
constructed run `l`, starting at position `i`, with at most `steps` iterations. -/
def shift_loop (l : List α) (k i : Nat) : Nat → List α
  | 0 => l
  | steps + 1 =>
    if i + k < l.length then shift_loop (swapAt l i (i + k)) k (i + 1) steps else l

/-- Member `erase(first, last)` with both iterators given as offsets. -/
def erase (N : Nat) (h : Heap α) (v : socow_vector α) (first last fuel : Nat) : IRes α :=
  let interval := last - first
  let delta := first
  if is_only_vector_ref h v then
    let shifted :=
      if interval != 0 then shift_loop (view h v) interval delta (view h v).length
      else view h v
    let newList := shifted.take (v.size_ - interval)
    if v.is_small_vector_ then
      ⟨h, { v with size_ := v.size_ - interval, static_buffer := newList }, fuel, .ok delta⟩
    else
      ⟨modifyBuf h v.dynamic_data (fun b => { b with data_ := newList }),
       { v with size_ := v.size_ - interval }, fuel, .ok delta⟩
  else
    match ctor_sized N h v delta (capacity N h v) fuel with
    | (h₁, fuel₁, .error _) => ⟨h₁, v, fuel₁, .error ()⟩
    | (h₁, fuel₁, .ok tmp) =>
      match uninitialized_copy (v.size_ - (delta + interval)) fuel₁ with
      | .error _ => ⟨destruct h₁ tmp, v, fuel₁, .error ()⟩
      | .ok fuel₂ =>
        let content := (view h v).take delta ++ (view h v).drop (delta + interval)
        let tmp₂ :=
          if tmp.is_small_vector_ then
            { tmp with size_ := v.size_ - interval, static_buffer := content }
          else { tmp with size_ := v.size_ - interval }
        let h₂ :=
          if tmp.is_small_vector_ then h₁
          else modifyBuf h₁ tmp.dynamic_data (fun b => { b with data_ := content })
        let r := swap h₂ v tmp₂ fuel₂
        ⟨destruct r.heap r.snd, r.fst, r.fuel, .ok delta⟩

/-- Member `erase(pos)`: `erase(pos, pos + 1)`. -/
def erase_one (N : Nat) (h : Heap α) (v : socow_vector α) (pos fuel : Nat) : IRes α :=
  erase N h v pos (pos + 1) fuel

/-- The representation invariant of a container bound to heap `h`: a small vector holds at
most `N` constructed elements; a dynamic vector is bound to a live block whose constructed
prefix has exactly `size_` elements, within capacity, with capacity strictly above `N` and
a positive reference count. -/
def Inv (N : Nat) (h : Heap α) (v : socow_vector α) : Prop :=
  if v.is_small_vector_ then
    v.size_ ≤ N ∧ v.static_buffer.length = v.size_
  else
    match hget h v.dynamic_data with
    | some b =>
      v.size_ = b.data_.length ∧ b.data_.length ≤ b.capacity_ ∧ N < b.capacity_ ∧
        1 ≤ b.refs_count
    | none => False

instance (N : Nat) (h : Heap α) (v : socow_vector α) : Decidable (Inv N h v) := by
  unfold Inv
  split
  · exact inferInstance
  · split
    · exact inferInstance
    · exact inferInstance

theorem hget_eq (h : Heap α) (i : Nat) : hget h i = (h[i]?).getD none := by
  simp [hget, List.getD_eq_getElem?_getD]

theorem hget_of_ge (h : Heap α) (i : Nat) (hi : h.length ≤ i) : hget h i = none := by
  simp [hget_eq, List.getElem?_eq_none hi]

theorem lt_of_hget_some (h : Heap α) (i : Nat) (b : dynamic_buffer α)
    (hb : hget h i = some b) : i < h.length := by
  by_contra hc
  rw [hget_of_ge h i (Nat.le_of_not_lt hc)] at hb
  exact Option.noConfusion hb

theorem hget_hset_self (h : Heap α) (i : Nat) (b : Option (dynamic_buffer α))
    (hi : i < h.length) : hget (hset h i b) i = b := by
  simp [hget_eq, hset, List.getElem?_set_self', hi]

theorem hget_hset_ne (h : Heap α) (i j : Nat) (b : Option (dynamic_buffer α))
    (hij : i ≠ j) : hget (hset h i b) j = hget h j := by
  simp [hget_eq, hset, List.getElem?_set_ne hij]

theorem length_hset (h : Heap α) (i : Nat) (b : Option (dynamic_buffer α)) :
    (hset h i b).length = h.length := by
  simp [hset]

theorem hget_append_lt (h : Heap α) (x : Option (dynamic_buffer α)) (i : Nat)
    (hi : i < h.length) : hget (h ++ [x]) i = hget h i := by
  simp [hget_eq, List.getElem?_append_left hi]

theorem hget_append_self (h : Heap α) (x : Option (dynamic_buffer α)) :
    hget (h ++ [x]) h.length = x := by
  simp [hget_eq]

theorem hget_modifyBuf_self (h : Heap α) (i : Nat) (f : dynamic_buffer α → dynamic_buffer α) :
    hget (modifyBuf h i f) i = (hget h i).map f := by
  unfold modifyBuf
  cases hb : hget h i with
  | none => simp [hb]
  | some b => simp [hget_hset_self _ _ _ (lt_of_hget_some h i b hb)]

theorem hget_modifyBuf_ne (h : Heap α) (i j : Nat)
    (f : dynamic_buffer α → dynamic_buffer α) (hij : i ≠ j) :
    hget (modifyBuf h i f) j = hget h j := by
  unfold modifyBuf
  cases hb : hget h i with
  | none => rfl
  | some b => exact hget_hset_ne _ _ _ _ hij

theorem hget_release_ref_ne (h : Heap α) (i j c : Nat) (hij : i ≠ j) :
    hget (release_ref h i c) j = hget h j := by
  unfold release_ref
  cases hb : hget h i with
  | none => rfl
  | some b =>
    by_cases hr : b.refs_count ≤ 1 <;> simp [hr, hget_hset_ne _ _ _ _ hij]

theorem hget_release_ref_self (h : Heap α) (i c : Nat) (b : dynamic_buffer α)
    (hb : hget h i = some b) (hr : 2 ≤ b.refs_count) :
    hget (release_ref h i c) i = some { b with refs_count := b.refs_count - 1 } := by
  unfold release_ref
  rw [hb]
  have : ¬(b.refs_count ≤ 1) := by omega
  simp [this, hget_hset_self _ _ _ (lt_of_hget_some h i b hb)]

theorem bubble_down_concat (l : List α) (x : α) : bubble_down (l ++ [x]) = x :: l := by
  induction l with
  | nil => rfl
  | cons a t ih =>
    cases t with
    | nil => simp [bubble_down]
    | cons b t₂ =>
      have hstep : bubble_down ((a :: b :: t₂) ++ [x]) =
          (match bubble_down ((b :: t₂) ++ [x]) with
           | [] => [a]
           | c :: rest₁ => c :: a :: rest₁) := rfl
      rw [hstep, ih]

theorem length_swapAt (l : List α) (i j : Nat) : (swapAt l i j).length = l.length := by
  unfold swapAt
  cases hx : l.get? i <;> cases hy : l.get? j <;> simp

theorem swapAt_get_fst (l : List α) (i j : Nat) (hi : i < l.length) (hj : j < l.length)
    (hij : i ≠ j) : (swapAt l i j)[i]? = l[j]? := by
  unfold swapAt
  rw [List.get?_eq_getElem?, List.get?_eq_getElem?,
    List.getElem?_eq_getElem hi, List.getElem?_eq_getElem hj]
  simp [List.getElem?_set_ne (Ne.symm hij), List.getElem?_set_self', hi,
    List.getElem?_eq_getElem hj]

theorem swapAt_get_other (l : List α) (i j k : Nat) (hik : k ≠ i) (hjk : k ≠ j) :
    (swapAt l i j)[k]? = l[k]? := by
  unfold swapAt
  cases hx : l.get? i <;> cases hy : l.get? j <;>
    simp [List.getElem?_set_ne (Ne.symm hjk), List.getElem?_set_ne (Ne.symm hik)]

theorem shift_loop_spec (steps : Nat) : ∀ (l : List α) (k i : Nat), 1 ≤ k →
    l.length ≤ i + steps →
    (shift_loop l k i steps).length = l.length ∧
    (∀ j, j < i → (shift_loop l k i steps)[j]? = l[j]?) ∧
    (∀ j, i ≤ j → j + k < l.length → (shift_loop l k i steps)[j]? = l[j + k]?) := by
  induction steps with
  | zero =>
    intro l k i hk hlen
    refine ⟨rfl, fun j _ => rfl, fun j hij hjk => absurd hjk (by omega)⟩
  | succ steps ih =>
    intro l k i hk hlen
    simp only [shift_loop]
    by_cases hc : i + k < l.length
    · rw [if_pos hc]
      have hlen₂ : (swapAt l i (i + k)).length ≤ (i + 1) + steps := by
        rw [length_swapAt]; omega
      obtain ⟨ihlen, ihlow, ihhigh⟩ := ih (swapAt l i (i + k)) k (i + 1) hk hlen₂
      rw [length_swapAt] at ihlen
      refine ⟨ihlen, ?_, ?_⟩
      · intro j hj
        rw [ihlow j (by omega)]
        exact swapAt_get_other l i (i + k) j (by omega) (by omega)
      · intro j hij hjk
        rcases Nat.eq_or_lt_of_le hij with heq | hlt
        · rw [← heq] at hjk ⊢
          rw [ihlow i (by omega)]
          exact swapAt_get_fst l i (i + k) (by omega) hjk (by omega)
        · rw [ihhigh j (by omega) (by rw [length_swapAt]; exact hjk)]
          exact swapAt_get_other l i (i + k) (j + k) (by omega) (by omega)
    · rw [if_neg hc]
      exact ⟨rfl, fun j _ => rfl, fun j hij hjk => absurd hjk (by omega)⟩

theorem uninitialized_copy_ok {len fuel : Nat} (h : len ≤ fuel) :
    uninitialized_copy len fuel = .ok (fuel - len) := by
  simp [uninitialized_copy, h]

theorem uninitialized_copy_err {len fuel : Nat} (h : fuel < len) :
    uninitialized_copy len fuel = .error () := by
  simp [uninitialized_copy, Nat.not_le_of_lt h]

theorem bufAt_congr (h h' : Heap α) (i : Nat) (hs : hget h' i = hget h i) :
    bufAt h' i = bufAt h i := by
  simp [bufAt, hs]

theorem view_congr (h h' : Heap α) (v : socow_vector α)
    (hs : v.is_small_vector_ = false → hget h' v.dynamic_data = hget h v.dynamic_data) :
    view h' v = view h v := by
  unfold view
  cases hv : v.is_small_vector_ with
  | true => simp
  | false => simp [bufAt_congr h h' _ (hs hv)]

theorem capacity_congr (N : Nat) (h h' : Heap α) (v : socow_vector α)
    (hs : v.is_small_vector_ = false → hget h' v.dynamic_data = hget h v.dynamic_data) :
    capacity N h' v = capacity N h v := by
  unfold capacity
  cases hv : v.is_small_vector_ with
  | true => simp
  | false => simp [bufAt_congr h h' _ (hs hv)]

theorem is_only_congr (h h' : Heap α) (v : socow_vector α)
    (hs : v.is_small_vector_ = false → hget h' v.dynamic_data = hget h v.dynamic_data) :
    is_only_vector_ref h' v = is_only_vector_ref h v := by
  unfold is_only_vector_ref
  cases hv : v.is_small_vector_ with
  | true => simp
  | false => simp [bufAt_congr h h' _ (hs hv)]

theorem Inv_congr (N : Nat) (h h' : Heap α) (v : socow_vector α)
    (hs : v.is_small_vector_ = false → hget h' v.dynamic_data = hget h v.dynamic_data)
    (hv : Inv N h v) : Inv N h' v := by
  unfold Inv at hv ⊢
  cases hsm : v.is_small_vector_ with
  | true => simpa [hsm] using hv
  | false =>
    rw [hsm] at hv
    simp only [hsm, Bool.false_eq_true, if_false] at hv ⊢
    rw [hs hsm]
    exact hv

theorem hget_pushSet (h : Heap α) (x y : Option (dynamic_buffer α)) (i : Nat)
    (hi : i < h.length) : hget (hset (h ++ [x]) h.length y) i = hget h i := by
  rw [hget_hset_ne _ _ _ _ (by omega), hget_append_lt _ _ _ hi]

theorem hget_pushSet_self (h : Heap α) (x y : Option (dynamic_buffer α)) :
    hget (hset (h ++ [x]) h.length y) h.length = y := by
  rw [hget_hset_self]
  rw [List.length_append]
  simp

theorem buf_lt_of_Inv (N : Nat) (h : Heap α) (v : socow_vector α)
    (hv : Inv N h v) (hsm : v.is_small_vector_ = false) : v.dynamic_data < h.length := by
  unfold Inv at hv
  rw [hsm] at hv
  simp only [Bool.false_eq_true, if_false] at hv
  cases hb : hget h v.dynamic_data with
  | none => rw [hb] at hv; exact absurd hv (by simp)
  | some b => exact lt_of_hget_some h _ b hb

theorem swap_dyn_dyn (h : Heap α) (a b : socow_vector α) (fuel : Nat)
    (ha : a.is_small_vector_ = false) (hb : b.is_small_vector_ = false)
    (hne : a.dynamic_data ≠ b.dynamic_data) :
    swap h a b fuel =
      ⟨h, { a with size_ := b.size_, dynamic_data := b.dynamic_data },
          { b with size_ := a.size_, dynamic_data := a.dynamic_data }, fuel, .ok ()⟩ := by
  unfold swap is_same_vector
  simp [ha, hb, hne]

theorem swap_dyn_small (h : Heap α) (a b : socow_vector α) (fuel : Nat)
    (ha : a.is_small_vector_ = false) (hb : b.is_small_vector_ = true)
    (hfuel : b.size_ ≤ fuel) :
    swap h a b fuel =
      ⟨h, ⟨b.size_, true, 0, (view h b).take b.size_⟩,
          ⟨a.size_, false, a.dynamic_data, []⟩, fuel - b.size_, .ok ()⟩ := by
  unfold swap is_same_vector swap_dynamic_small
  simp [ha, hb, uninitialized_copy_ok hfuel]

theorem swap_small_dyn (h : Heap α) (a b : socow_vector α) (fuel : Nat)
    (ha : a.is_small_vector_ = true) (hb : b.is_small_vector_ = false)
    (hfuel : a.size_ ≤ fuel) :
    swap h a b fuel =
      ⟨h, ⟨b.size_, false, b.dynamic_data, []⟩,
          ⟨a.size_, true, 0, (view h a).take a.size_⟩, fuel - a.size_, .ok ()⟩ := by
  unfold swap is_same_vector swap_dynamic_small
  simp [ha, hb, uninitialized_copy_ok hfuel]

theorem shift_loop_take (l : List α) (k i : Nat) (hk : 1 ≤ k) (hik : i + k ≤ l.length) :
    (shift_loop l k i l.length).take (l.length - k) =
      l.take i ++ l.drop (i + k) := by
  obtain ⟨hlen, hlow, hhigh⟩ := shift_loop_spec l.length l k i hk (by omega)
  apply List.ext_getElem?
  intro j
  rcases Nat.lt_or_ge j (l.length - k) with hj | hj
  · rw [List.getElem?_take_of_lt hj]
    rcases Nat.lt_or_ge j i with hji | hji
    · rw [hlow j hji, List.getElem?_append_left]
      · rw [List.getElem?_take_of_lt hji]
      · rw [List.length_take]; omega
    · rw [hhigh j hji (by omega), List.getElem?_append_right]
      · rw [List.length_take, List.getElem?_drop]
        congr 1
        omega
      · rw [List.length_take]; omega
  · have h₁ : (List.take (l.length - k) (shift_loop l k i l.length))[j]? = none := by
      apply List.getElem?_eq_none
      rw [List.length_take, hlen]
      omega
    have h₂ : (l.take i ++ l.drop (i + k))[j]? = none := by
      apply List.getElem?_eq_none
      rw [List.length_append, List.length_take, List.length_drop]
      omega
    rw [h₁, h₂]

theorem Inv_dyn (N : Nat) (h : Heap α) (v : socow_vector α) (hv : Inv N h v)
    (hsm : v.is_small_vector_ = false) :
    ∃ b, hget h v.dynamic_data = some b ∧ v.size_ = b.data_.length ∧
      b.data_.length ≤ b.capacity_ ∧ N < b.capacity_ ∧ 1 ≤ b.refs_count := by
  unfold Inv at hv
  rw [hsm] at hv
  simp only [Bool.false_eq_true, if_false] at hv
  cases hb : hget h v.dynamic_data with
  | none => rw [hb] at hv; exact absurd hv (by simp)
  | some b =>
    rw [hb] at hv
    exact ⟨b, rfl, hv⟩

theorem Inv_small (N : Nat) (h : Heap α) (v : socow_vector α) (hv : Inv N h v)
    (hsm : v.is_small_vector_ = true) :
    v.size_ ≤ N ∧ v.static_buffer.length = v.size_ := by
  unfold Inv at hv
  rw [hsm] at hv
  simpa using hv

theorem view_length (N : Nat) (h : Heap α) (v : socow_vector α) (hv : Inv N h v) :
    (view h v).length = v.size_ := by
  unfold view
  cases hsm : v.is_small_vector_ with
  | true =>
    obtain ⟨-, hlen⟩ := Inv_small N h v hv hsm
    simp [hlen]
  | false =>
    obtain ⟨b, hb, hsz, -⟩ := Inv_dyn N h v hv hsm
    simp [bufAt, hb, hsz]

theorem length_modifyBuf (h : Heap α) (i : Nat) (f : dynamic_buffer α → dynamic_buffer α) :
    (modifyBuf h i f).length = h.length := by
  unfold modifyBuf
  cases hget h i <;> simp [length_hset]

theorem noexcept_clear_small (h : Heap α) (v : socow_vector α)
    (hsm : v.is_small_vector_ = true) :
    noexcept_clear h v = (h, { v with size_ := 0, static_buffer := [] }) := by
  unfold noexcept_clear is_only_vector_ref
  simp [hsm]

theorem is_only_dyn (h : Heap α) (v : socow_vector α) (b : dynamic_buffer α)
    (hsm : v.is_small_vector_ = false) (hb : hget h v.dynamic_data = some b) :
    is_only_vector_ref h v = (b.refs_count == 1) := by
  simp [is_only_vector_ref, hsm, bufAt, hb]

theorem noexcept_clear_excl_dyn (h : Heap α) (v : socow_vector α)
    (hsm : v.is_small_vector_ = false) (honly : is_only_vector_ref h v = true) :
    noexcept_clear h v =
      (modifyBuf h v.dynamic_data (fun b => { b with data_ := [] }),
       { v with size_ := 0 }) := by
  unfold noexcept_clear
  rw [honly, hsm]
  simp

theorem noexcept_clear_shared (h : Heap α) (v : socow_vector α)
    (hshared : is_only_vector_ref h v = false) :
    noexcept_clear h v =
      (modifyBuf h v.dynamic_data (fun b => { b with refs_count := b.refs_count - 1 }),
       ⟨0, true, 0, []⟩) := by
  unfold noexcept_clear
  rw [hshared]
  simp

theorem destruct_small (h : Heap α) (v : socow_vector α) (hsm : v.is_small_vector_ = true) :
    destruct h v = h := by
  simp [destruct, hsm]

theorem destruct_dyn (h : Heap α) (v : socow_vector α) (hsm : v.is_small_vector_ = false) :
    destruct h v = release_ref h v.dynamic_data v.size_ := by
  simp [destruct, hsm]

theorem release_ref_free (h : Heap α) (i c : Nat) (b : dynamic_buffer α)
    (hb : hget h i = some b) (hr : b.refs_count ≤ 1) :
    release_ref h i c = hset h i none := by
  unfold release_ref
  rw [hb]
  simp [hr]

theorem insert_slow_ok (N : Nat) (h : Heap α) (v : socow_vector α) (delta : Nat) (x : α)
    (fuel : Nat) (hv : Inv N h v)
    (hcond : (v.size_ != capacity N h v && is_only_vector_ref h v) = false)
    (hdelta : delta ≤ v.size_) (hfuel : v.size_ + 1 ≤ fuel) :
    (insert N h v delta x fuel).out = .ok delta ∧
    (insert N h v delta x fuel).vec.size_ = v.size_ + 1 ∧
    (insert N h v delta x fuel).vec.is_small_vector_ = false ∧
    (insert N h v delta x fuel).vec.dynamic_data = h.length ∧
    (insert N h v delta x fuel).fuel = fuel - (v.size_ + 1) ∧
    hget (insert N h v delta x fuel).heap h.length =
      some ⟨(if v.size_ == capacity N h v then 2 * capacity N h v else capacity N h v), 1,
            (view h v).take delta ++ x :: (view h v).drop delta⟩ ∧
    (∀ i, i < h.length → i ≠ v.dynamic_data →
      hget (insert N h v delta x fuel).heap i = hget h i) ∧
    (v.is_small_vector_ = true → ∀ i, i < h.length →
      hget (insert N h v delta x fuel).heap i = hget h i) ∧
    (v.is_small_vector_ = false → (bufAt h v.dynamic_data).refs_count = 1 →
      hget (insert N h v delta x fuel).heap v.dynamic_data = none) ∧
    (v.is_small_vector_ = false → 2 ≤ (bufAt h v.dynamic_data).refs_count →
      hget (insert N h v delta x fuel).heap v.dynamic_data =
        some { bufAt h v.dynamic_data with
               refs_count := (bufAt h v.dynamic_data).refs_count - 1 }) := by
  have hcond₂ : ¬((v.size_ != capacity N h v && is_only_vector_ref h v) = true) := by
    rw [hcond]; simp
  unfold insert
  rw [if_neg hcond₂]
  simp only [allocate_dynamic_buffer,
    uninitialized_copy_ok (show delta ≤ fuel by omega),
    uninitialized_copy_ok (show 1 ≤ fuel - delta by omega),
    uninitialized_copy_ok (show v.size_ - delta ≤ fuel - delta - 1 by omega)]
  set ncap := (if v.size_ == capacity N h v then 2 * capacity N h v else capacity N h v)
    with hncap
  set cont := (view h v).take delta ++ x :: (view h v).drop delta with hcont
  set h₂ := hset (h ++ [some ⟨ncap, 1, []⟩]) h.length (some ⟨ncap, 1, cont⟩) with hh₂
  have hk1 : hget h₂ h.length = some ⟨ncap, 1, cont⟩ := by
    rw [hh₂]; exact hget_pushSet_self h _ _
  have hk2 : ∀ i, i < h.length → hget h₂ i = hget h i := by
    intro i hi; rw [hh₂]; exact hget_pushSet h _ _ i hi
  have hlen₂ : h₂.length = h.length + 1 := by
    rw [hh₂, length_hset, List.length_append, List.length_cons, List.length_nil]
  cases hsm : v.is_small_vector_ with
  | true =>
    rw [noexcept_clear_small h₂ v hsm]
    rw [swap_small_dyn h₂ _ _ _ (by simp [hsm]) rfl (by simp)]
    rw [destruct_small _ _ rfl]
    refine ⟨by first | trivial | rfl, by first | trivial | rfl, by first | trivial | rfl, by first | trivial | rfl, ?_, hk1, ?_, ?_, ?_, ?_⟩
    · show fuel - delta - 1 - (v.size_ - delta) - 0 = fuel - (v.size_ + 1)
      omega
    · intro i hi _; exact hk2 i hi
    · intro _ i hi; exact hk2 i hi
    · intro hf; exact absurd hf (by simp)
    · intro hf; exact absurd hf (by simp)
  | false =>
    obtain ⟨b, hb, hbsz, hbcap, hbN, hbrefs⟩ := Inv_dyn N h v hv hsm
    have hbuflt : v.dynamic_data < h.length := lt_of_hget_some h _ b hb
    have hk3 : hget h₂ v.dynamic_data = some b := by rw [hk2 _ hbuflt]; exact hb
    by_cases hone : b.refs_count = 1
    · rw [noexcept_clear_excl_dyn h₂ v hsm
        (by rw [is_only_dyn h₂ v b hsm hk3, hone]; rfl)]
      rw [swap_dyn_dyn _ _ _ _ (by simp [hsm]) rfl (by simp only; omega)]
      rw [destruct_dyn _ _ rfl]
      have hmod : hget (modifyBuf h₂ v.dynamic_data (fun b => { b with data_ := [] }))
          v.dynamic_data = some { b with data_ := [] } := by
        rw [hget_modifyBuf_self, hk3]; rfl
      rw [release_ref_free _ _ _ _ hmod (by simp [hone])]
      have hfree : ∀ j, j ≠ v.dynamic_data →
          hget (hset (modifyBuf h₂ v.dynamic_data (fun b => { b with data_ := [] }))
            v.dynamic_data none) j = hget h₂ j := by
        intro j hj
        rw [hget_hset_ne _ _ _ _ (Ne.symm hj), hget_modifyBuf_ne _ _ _ _ (Ne.symm hj)]
      refine ⟨by first | trivial | rfl, by first | trivial | rfl, by first | trivial | rfl, by first | trivial | rfl, ?_, ?_, ?_, ?_, ?_, ?_⟩
      · show fuel - delta - 1 - (v.size_ - delta) = fuel - (v.size_ + 1)
        omega
      · rw [hfree h.length (by omega)]; exact hk1
      · intro i hi hne; rw [hfree i hne]; exact hk2 i hi
      · intro hf; exact absurd hf (by simp)
      · intro _ _
        rw [hget_hset_self]
        rw [length_modifyBuf, hlen₂]
        omega
      · intro _ h2
        exfalso
        have : (bufAt h v.dynamic_data).refs_count = 1 := by simp [bufAt, hb, hone]
        omega
    · have hshared₂ : 2 ≤ b.refs_count := by omega
      rw [noexcept_clear_shared h₂ v
        (by rw [is_only_dyn h₂ v b hsm hk3]; simp [hone])]
      rw [swap_small_dyn _ _ _ _ rfl rfl (by simp)]
      rw [destruct_small _ _ rfl]
      have hmods : hget (modifyBuf h₂ v.dynamic_data
          (fun b => { b with refs_count := b.refs_count - 1 })) v.dynamic_data =
          some { b with refs_count := b.refs_count - 1 } := by
        rw [hget_modifyBuf_self, hk3]; rfl
      have hmodo : ∀ j, j ≠ v.dynamic_data →
          hget (modifyBuf h₂ v.dynamic_data
            (fun b => { b with refs_count := b.refs_count - 1 })) j = hget h₂ j := by
        intro j hj
        rw [hget_modifyBuf_ne _ _ _ _ (Ne.symm hj)]
      refine ⟨by first | trivial | rfl, by first | trivial | rfl, by first | trivial | rfl, by first | trivial | rfl, ?_, ?_, ?_, ?_, ?_, ?_⟩
      · show fuel - delta - 1 - (v.size_ - delta) - 0 = fuel - (v.size_ + 1)
        omega
      · rw [hmodo h.length (by omega)]; exact hk1
      · intro i hi hne; rw [hmodo i hne]; exact hk2 i hi
      · intro hf; exact absurd hf (by simp)
      · intro _ h1
        exfalso
        have : (bufAt h v.dynamic_data).refs_count = b.refs_count := by simp [bufAt, hb]
        omega
      · intro _ _
        rw [hmods]
        have : bufAt h v.dynamic_data = b := by simp [bufAt, hb]
        rw [this]

theorem rotate_insert (l : List α) (x : α) (delta : Nat) (hd : delta ≤ l.length) :
    (l ++ [x]).take delta ++ bubble_down ((l ++ [x]).drop delta) =
      l.take delta ++ x :: l.drop delta := by
  rw [List.take_append_of_le_length hd, List.drop_append_of_le_length hd,
    bubble_down_concat]

theorem view_dyn_eq (h : Heap α) (v : socow_vector α) (b : dynamic_buffer α)
    (hsm : v.is_small_vector_ = false) (hb : hget h v.dynamic_data = some b) :
    view h v = b.data_.take v.size_ := by
  unfold view
  simp [hsm, bufAt, hb]

theorem capacity_dyn_eq (N : Nat) (h : Heap α) (v : socow_vector α) (b : dynamic_buffer α)
    (hsm : v.is_small_vector_ = false) (hb : hget h v.dynamic_data = some b) :
    capacity N h v = b.capacity_ := by
  unfold capacity
  simp [hsm, bufAt, hb]

theorem insert_fast_ok (N : Nat) (h : Heap α) (v : socow_vector α) (delta : Nat) (x : α)
    (fuel : Nat) (hv : Inv N h v)
    (hcond : (v.size_ != capacity N h v && is_only_vector_ref h v) = true)
    (hdelta : delta ≤ v.size_) (hfuel : 1 ≤ fuel) :
    (insert N h v delta x fuel).out = .ok delta ∧
    (insert N h v delta x fuel).vec.size_ = v.size_ + 1 ∧
    (insert N h v delta x fuel).vec.is_small_vector_ = v.is_small_vector_ ∧
    (insert N h v delta x fuel).vec.dynamic_data = v.dynamic_data ∧
    (insert N h v delta x fuel).fuel = fuel - 1 ∧
    view (insert N h v delta x fuel).heap (insert N h v delta x fuel).vec =
      (view h v).take delta ++ x :: (view h v).drop delta ∧
    capacity N (insert N h v delta x fuel).heap (insert N h v delta x fuel).vec =
      capacity N h v ∧
    (∀ i, i ≠ v.dynamic_data → hget (insert N h v delta x fuel).heap i = hget h i) ∧
    (v.is_small_vector_ = true → (insert N h v delta x fuel).heap = h) ∧
    (v.is_small_vector_ = false →
      hget (insert N h v delta x fuel).heap v.dynamic_data =
        some { bufAt h v.dynamic_data with
               data_ := (view h v).take delta ++ x :: (view h v).drop delta }) := by
  have hlenv := view_length N h v hv
  have hclen : ((view h v).take delta ++ x :: (view h v).drop delta).length
      = v.size_ + 1 := by
    rw [List.length_append, List.length_take, List.length_cons, List.length_drop]
    omega
  unfold insert
  rw [if_pos hcond]
  simp only [uninitialized_copy_ok hfuel]
  have hrot := rotate_insert (view h v) x delta (by omega)
  set rot := (view h v ++ [x]).take delta ++ bubble_down ((view h v ++ [x]).drop delta)
    with hrotdef
  cases hsm : v.is_small_vector_ with
  | true =>
    refine ⟨by first | trivial | rfl, by first | trivial | rfl,
      by first | trivial | rfl, by first | trivial | rfl, by first | trivial | rfl,
      ?_, by simp [capacity, hsm], ?_, ?_, ?_⟩
    · show rot.take (v.size_ + 1) = (view h v).take delta ++ x :: (view h v).drop delta
      rw [hrot, List.take_of_length_le (by omega)]
    · intro i _; rfl
    · intro _; rfl
    · intro hf; exact absurd hf (by simp)
  | false =>
    obtain ⟨b, hb, hbsz, hbcap, hbN, hbrefs⟩ := Inv_dyn N h v hv hsm
    have hbuf : bufAt h v.dynamic_data = b := by simp [bufAt, hb]
    have hmods : hget (modifyBuf h v.dynamic_data (fun bb => { bb with data_ := rot }))
        v.dynamic_data = some { b with data_ := rot } := by
      rw [hget_modifyBuf_self, hb]
      rfl
    have hbmod : bufAt (modifyBuf h v.dynamic_data (fun bb => { bb with data_ := rot }))
        v.dynamic_data = { b with data_ := rot } := by
      simp only [bufAt, hmods, Option.getD_some]
    refine ⟨by first | trivial | rfl, by first | trivial | rfl,
      by first | trivial | rfl, by first | trivial | rfl, by first | trivial | rfl,
      ?_, ?_, ?_, ?_, ?_⟩
    · show (bufAt (modifyBuf h v.dynamic_data
          (fun bb => { bb with data_ := rot })) v.dynamic_data).data_.take (v.size_ + 1)
        = (view h v).take delta ++ x :: (view h v).drop delta
      rw [hbmod]
      show rot.take (v.size_ + 1) = (view h v).take delta ++ x :: (view h v).drop delta
      rw [hrot, List.take_of_length_le (by omega)]
    · show (bufAt (modifyBuf h v.dynamic_data
          (fun bb => { bb with data_ := rot })) v.dynamic_data).capacity_ = capacity N h v
      rw [hbmod]
      show b.capacity_ = capacity N h v
      rw [capacity_dyn_eq N h v b hsm hb]
    · intro i hne
      exact hget_modifyBuf_ne _ _ _ _ (Ne.symm hne)
    · intro hf; exact absurd hf (by simp)
    · intro _
      show hget (modifyBuf h v.dynamic_data (fun bb => { bb with data_ := rot }))
          v.dynamic_data = _
      rw [hmods, hbuf, hrot]

theorem insert_err (N : Nat) (h : Heap α) (v : socow_vector α) (delta : Nat) (x : α)
    (fuel : Nat) :
    (insert N h v delta x fuel).out = .error () →
    ((insert N h v delta x fuel).vec = v ∧
     (∀ i, i < h.length → hget (insert N h v delta x fuel).heap i = hget h i) ∧
     hget (insert N h v delta x fuel).heap h.length = none) := by
  unfold insert
  by_cases hcond : (v.size_ != capacity N h v && is_only_vector_ref h v) = true
  · rw [if_pos hcond]
    by_cases hf1 : 1 ≤ fuel
    · simp only [uninitialized_copy_ok hf1]
      cases hsm : v.is_small_vector_ with
      | true => intro hout; exact absurd hout (by simp)
      | false => intro hout; exact absurd hout (by simp)
    · simp only [uninitialized_copy_err (show fuel < 1 by omega)]
      intro _
      refine ⟨?_, ?_, ?_⟩
      · first | trivial | rfl
      · intro i hi
        first | trivial | rfl
      · first | trivial | exact hget_of_ge h h.length (Nat.le_refl _)
  · rw [if_neg hcond]
    by_cases hc1 : delta ≤ fuel
    · simp only [uninitialized_copy_ok hc1]
      by_cases hc2 : 1 ≤ fuel - delta
      · simp only [uninitialized_copy_ok hc2]
        by_cases hc3 : v.size_ - delta ≤ fuel - delta - 1
        · simp only [uninitialized_copy_ok hc3]
          intro hout; exact absurd hout (by simp)
        · simp only [uninitialized_copy_err
            (show fuel - delta - 1 < v.size_ - delta by omega)]
          intro _
          refine ⟨?_, ?_, ?_⟩
          · first | trivial | rfl
          · intro i hi
            first | trivial | exact hget_pushSet h _ _ i hi
          · first | trivial | exact hget_pushSet_self h _ _
      · simp only [uninitialized_copy_err (show fuel - delta < 1 by omega)]
        intro _
        refine ⟨?_, ?_, ?_⟩
        · first | trivial | rfl
        · intro i hi
          first | trivial | exact hget_pushSet h _ _ i hi
        · first | trivial | exact hget_pushSet_self h _ _
    · simp only [uninitialized_copy_err (show fuel < delta by omega)]
      intro _
      refine ⟨?_, ?_, ?_⟩
      · first | trivial | rfl
      · intro i hi
        first | trivial | exact hget_pushSet h _ _ i hi
      · first | trivial | exact hget_pushSet_self h _ _

theorem content_eq_push (N : Nat) (h : Heap α) (v : socow_vector α) (x : α)
    (hv : Inv N h v) :
    (view h v).take v.size_ ++ x :: (view h v).drop v.size_ = view h v ++ [x] := by
  have hlenv := view_length N h v hv
  rw [List.take_of_length_le (by omega), List.drop_eq_nil_of_le (by omega)]

/-- C8: whenever `insert` or `push_back` is called on a container whose size equals its
capacity (and the operation completes), the freshly allocated buffer — placed at heap
slot `h.length` — has capacity exactly `2 * capacity()`, and the container ends up bound
to it; in particular growing out of a full inline buffer (`capacity() = N`) yields a
dynamic capacity of exactly `2 * N`. -/
theorem claim_C8_doubling_growth (N : Nat) (h : Heap α) (v : socow_vector α) (x : α)
    (pos fuel : Nat) (hv : Inv N h v) (hfull : v.size_ = capacity N h v)
    (hpos : pos ≤ v.size_) (hfuel : v.size_ + 1 ≤ fuel) :
    (hget (insert N h v pos x fuel).heap h.length =
       some ⟨2 * capacity N h v, 1, (view h v).take pos ++ x :: (view h v).drop pos⟩ ∧
     (insert N h v pos x fuel).vec.dynamic_data = h.length ∧
     capacity N (insert N h v pos x fuel).heap (insert N h v pos x fuel).vec =
       2 * capacity N h v) ∧
    (hget (push_back N h v x fuel).heap h.length =
       some ⟨2 * capacity N h v, 1, view h v ++ [x]⟩ ∧
     capacity N (push_back N h v x fuel).heap (push_back N h v x fuel).vec =
       2 * capacity N h v) ∧
    (v.is_small_vector_ = true →
      capacity N (push_back N h v x fuel).heap (push_back N h v x fuel).vec = 2 * N) := by
  have hcond : (v.size_ != capacity N h v && is_only_vector_ref h v) = false := by
    simp [hfull]
  have hcap : ∀ pp : Nat, pp ≤ v.size_ →
      hget (insert N h v pp x fuel).heap h.length =
        some ⟨2 * capacity N h v, 1, (view h v).take pp ++ x :: (view h v).drop pp⟩ ∧
      (insert N h v pp x fuel).vec.dynamic_data = h.length ∧
      capacity N (insert N h v pp x fuel).heap (insert N h v pp x fuel).vec =
        2 * capacity N h v := by
    intro pp hpp
    obtain ⟨hout, hsz, hsmf, hdyn, hfl, hbuf, hrest⟩ :=
      insert_slow_ok N h v pp x fuel hv hcond hpp hfuel
    have hbend : hget (insert N h v pp x fuel).heap h.length =
        some ⟨2 * capacity N h v, 1, (view h v).take pp ++ x :: (view h v).drop pp⟩ := by
      rw [hbuf]
      have : (v.size_ == capacity N h v) = true := by simp [hfull]
      rw [this]
      simp
    refine ⟨hbend, hdyn, ?_⟩
    rw [capacity_dyn_eq N _ _ ⟨2 * capacity N h v, 1,
        (view h v).take pp ++ x :: (view h v).drop pp⟩ hsmf (by rw [hdyn]; exact hbend)]
  have hmain := hcap pos hpos
  have hpush := hcap v.size_ (Nat.le_refl _)
  rw [content_eq_push N h v x hv] at hpush
  refine ⟨hmain, ⟨hpush.1, hpush.2.2⟩, ?_⟩
  intro hsm
  have hcapN : capacity N h v = N := by simp [capacity, hsm]
  show capacity N (insert N h v v.size_ x fuel).heap (insert N h v v.size_ x fuel).vec
    = 2 * N
  rw [hpush.2.2, hcapN]

/-- Witness for C8 at a concrete input: `N = 2`, a full inline container `[1, 2]`;
pushing `9` allocates a dynamic buffer of capacity `4 = 2 * 2`. -/
theorem claim_C8_doubling_growth_witness :
    (Inv 2 ([] : Heap Nat) ⟨2, true, 0, [1, 2]⟩ ∧
     (⟨2, true, 0, [1, 2]⟩ : socow_vector Nat).size_ = capacity 2 [] ⟨2, true, 0, [1, 2]⟩ ∧
     (1 : Nat) ≤ 2 ∧ (2 : Nat) + 1 ≤ 9) ∧
    (hget (push_back 2 ([] : Heap Nat) ⟨2, true, 0, [1, 2]⟩ 9 9).heap 0 =
       some ⟨4, 1, [1, 2, 9]⟩ ∧
     capacity 2 (push_back 2 ([] : Heap Nat) ⟨2, true, 0, [1, 2]⟩ 9 9).heap
       (push_back 2 ([] : Heap Nat) ⟨2, true, 0, [1, 2]⟩ 9 9).vec = 4) := by
  refine ⟨⟨by decide, by decide, by decide, by decide⟩, ?_⟩
  obtain ⟨-, ⟨hb, hc⟩, -⟩ :=
    claim_C8_doubling_growth 2 ([] : Heap Nat) ⟨2, true, 0, [1, 2]⟩ 9 1 9
      (by decide) (by decide) (by decide) (by decide)
  rw [show ([] : Heap Nat).length = 0 from rfl] at hb
  constructor
  · rw [hb]
    decide
  · rw [hc]
    decide
theorem erase_excl_ok (N : Nat) (h : Heap α) (v : socow_vector α) (first last fuel : Nat)
    (hv : Inv N h v) (honly : is_only_vector_ref h v = true)
    (hfl : first ≤ last) (hls : last ≤ v.size_) :
    (erase N h v first last fuel).out = .ok first ∧
    (erase N h v first last fuel).vec.size_ = v.size_ - (last - first) ∧
    (erase N h v first last fuel).vec.is_small_vector_ = v.is_small_vector_ ∧
    (erase N h v first last fuel).vec.dynamic_data = v.dynamic_data ∧
    (erase N h v first last fuel).fuel = fuel ∧
    view (erase N h v first last fuel).heap (erase N h v first last fuel).vec =
      (view h v).take first ++ (view h v).drop last ∧
    capacity N (erase N h v first last fuel).heap (erase N h v first last fuel).vec =
      capacity N h v ∧
    (∀ i, i ≠ v.dynamic_data → hget (erase N h v first last fuel).heap i = hget h i) ∧
    (v.is_small_vector_ = true → (erase N h v first last fuel).heap = h) := by
  have hlenv := view_length N h v hv
  have hshift : (if ((last - first : Nat) != 0) = true then
      shift_loop (view h v) (last - first) first (view h v).length
      else view h v).take (v.size_ - (last - first)) =
      (view h v).take first ++ (view h v).drop last := by
    by_cases hz : last - first = 0
    · have hlf : last = first := by omega
      simp only [hz, bne_self_eq_false, Bool.false_eq_true, if_false]
      rw [Nat.sub_zero, ← hlenv, List.take_length, hlf]
      exact (List.take_append_drop first (view h v)).symm
    · have hone : ((last - first : Nat) != 0) = true := by simp [hz]
      rw [if_pos hone]
      have hst := shift_loop_take (view h v) (last - first) first (by omega)
        (by rw [hlenv]; omega)
      have harg : last = first + (last - first) := by omega
      rw [← hlenv, hst, ← harg]
  unfold erase
  rw [if_pos honly]
  simp only []
  cases hsm : v.is_small_vector_ with
  | true =>
    refine ⟨by first | trivial | rfl, by first | trivial | rfl, by first | trivial | rfl,
      by first | trivial | rfl, by first | trivial | rfl, ?_, by simp [capacity, hsm],
      ?_, ?_⟩
    · show ((if ((last - first : Nat) != 0) = true then shift_loop (view h v) (last - first) first (view h v).length else view h v).take (v.size_ - (last - first))).take (v.size_ - (last - first))
          = (view h v).take first ++ (view h v).drop last
      rw [List.take_take, Nat.min_self, hshift]
    · intro i _; rfl
    · intro _; rfl
  | false =>
    obtain ⟨b, hb, hbsz, hbcap, hbN, hbrefs⟩ := Inv_dyn N h v hv hsm
    have hmods : hget (modifyBuf h v.dynamic_data (fun bb => { bb with data_ := (if ((last - first : Nat) != 0) = true then shift_loop (view h v) (last - first) first (view h v).length else view h v).take (v.size_ - (last - first)) }))
        v.dynamic_data = some { b with data_ := (if ((last - first : Nat) != 0) = true then shift_loop (view h v) (last - first) first (view h v).length else view h v).take (v.size_ - (last - first)) } := by
      rw [hget_modifyBuf_self, hb]
      rfl
    have hbmod : bufAt (modifyBuf h v.dynamic_data (fun bb => { bb with data_ := (if ((last - first : Nat) != 0) = true then shift_loop (view h v) (last - first) first (view h v).length else view h v).take (v.size_ - (last - first)) }))
        v.dynamic_data = { b with data_ := (if ((last - first : Nat) != 0) = true then shift_loop (view h v) (last - first) first (view h v).length else view h v).take (v.size_ - (last - first)) } := by
      simp only [bufAt, hmods, Option.getD_some]
    refine ⟨by first | trivial | rfl, by first | trivial | rfl, by first | trivial | rfl,
      by first | trivial | rfl, by first | trivial | rfl, ?_, ?_, ?_, ?_⟩
    · show (bufAt (modifyBuf h v.dynamic_data (fun bb => { bb with data_ := (if ((last - first : Nat) != 0) = true then shift_loop (view h v) (last - first) first (view h v).length else view h v).take (v.size_ - (last - first)) }))
          v.dynamic_data).data_.take (v.size_ - (last - first))
          = (view h v).take first ++ (view h v).drop last
      rw [hbmod]
      show ((if ((last - first : Nat) != 0) = true then
      shift_loop (view h v) (last - first) first (view h v).length
      else view h v).take (v.size_ - (last - first))).take (v.size_ - (last - first))
          = (view h v).take first ++ (view h v).drop last
      rw [List.take_take, Nat.min_self, hshift]
    · show (bufAt (modifyBuf h v.dynamic_data (fun bb => { bb with data_ := (if ((last - first : Nat) != 0) = true then shift_loop (view h v) (last - first) first (view h v).length else view h v).take (v.size_ - (last - first)) }))
          v.dynamic_data).capacity_ = capacity N h v
      rw [hbmod]
      show b.capacity_ = capacity N h v
      rw [capacity_dyn_eq N h v b hsm hb]
    · intro i hne
      exact hget_modifyBuf_ne _ _ _ _ (Ne.symm hne)
    · intro hf; exact absurd hf (by simp)

theorem erase_shared_ok (N : Nat) (h : Heap α) (v : socow_vector α) (first last fuel : Nat)
    (hv : Inv N h v) (hshared : is_only_vector_ref h v = false)
    (hfl : first ≤ last) (hls : last ≤ v.size_) (hfuel : v.size_ - (last - first) ≤ fuel) :
    (erase N h v first last fuel).out = .ok first ∧
    (erase N h v first last fuel).vec.size_ = v.size_ - (last - first) ∧
    (erase N h v first last fuel).vec.is_small_vector_ = false ∧
    (erase N h v first last fuel).vec.dynamic_data = h.length ∧
    hget (erase N h v first last fuel).heap h.length =
      some ⟨capacity N h v, 1, (view h v).take first ++ (view h v).drop last⟩ ∧
    (∀ i, i < h.length → i ≠ v.dynamic_data →
      hget (erase N h v first last fuel).heap i = hget h i) ∧
    hget (erase N h v first last fuel).heap v.dynamic_data =
      some { bufAt h v.dynamic_data with
             refs_count := (bufAt h v.dynamic_data).refs_count - 1 } := by
  have hlenv := view_length N h v hv
  have hsm : v.is_small_vector_ = false := by
    by_contra hc
    have : v.is_small_vector_ = true := by
      cases hx : v.is_small_vector_
      · exact absurd hx hc
      · rfl
    rw [is_only_vector_ref, this] at hshared
    simp at hshared
  obtain ⟨b, hb, hbsz, hbcap, hbN, hbrefs⟩ := Inv_dyn N h v hv hsm
  have hbuf : bufAt h v.dynamic_data = b := by simp [bufAt, hb]
  have hbuflt : v.dynamic_data < h.length := lt_of_hget_some h _ b hb
  have hrefs2 : 2 ≤ b.refs_count := by
    rw [is_only_dyn h v b hsm hb] at hshared
    have : b.refs_count ≠ 1 := by
      intro hx
      rw [hx] at hshared
      simp at hshared
    omega
  have hcapgtN : ¬(capacity N h v ≤ N) := by
    rw [capacity_dyn_eq N h v b hsm hb]
    omega
  unfold erase
  rw [hshared]
  simp only [Bool.false_eq_true, if_false]
  unfold ctor_sized
  rw [if_neg hcapgtN]
  simp only [allocate_dynamic_buffer,
    uninitialized_copy_ok (show first ≤ fuel by omega),
    uninitialized_copy_ok (show v.size_ - (first + (last - first)) ≤ fuel - first by omega)]
  set cont := (view h v).take first ++ (view h v).drop (first + (last - first)) with hcont
  set h₂ := hset (h ++ [some ⟨capacity N h v, 1, []⟩]) h.length
    (some ⟨capacity N h v, 1, (view h v).take first⟩) with hh₂
  have hk2 : ∀ i, i < h.length → hget h₂ i = hget h i := by
    intro i hi; rw [hh₂]; exact hget_pushSet h _ _ i hi
  have hk3 : hget h₂ v.dynamic_data = some b := by rw [hk2 _ hbuflt]; exact hb
  have hk1 : hget h₂ h.length = some ⟨capacity N h v, 1, (view h v).take first⟩ := by
    rw [hh₂]; exact hget_pushSet_self h _ _
  have hlen₂ : h₂.length = h.length + 1 := by
    rw [hh₂, length_hset, List.length_append, List.length_cons, List.length_nil]
  have hmods : hget (modifyBuf h₂ h.length (fun bb => { bb with data_ := cont }))
      h.length = some ⟨capacity N h v, 1, cont⟩ := by
    rw [hget_modifyBuf_self, hk1]
    rfl
  have hmodo : ∀ j, j ≠ h.length →
      hget (modifyBuf h₂ h.length (fun bb => { bb with data_ := cont })) j = hget h₂ j := by
    intro j hj
    exact hget_modifyBuf_ne _ _ _ _ (Ne.symm hj)
  simp only [Bool.false_eq_true, if_false]
  rw [swap_dyn_dyn _ _ _ _ hsm rfl (by show v.dynamic_data ≠ h.length; omega)]
  rw [destruct_dyn _ _ rfl]
  have hrel : release_ref (modifyBuf h₂ h.length (fun bb => { bb with data_ := cont }))
      v.dynamic_data v.size_ =
      hset (modifyBuf h₂ h.length (fun bb => { bb with data_ := cont })) v.dynamic_data
        (some { b with refs_count := b.refs_count - 1 }) := by
    unfold release_ref
    rw [hmodo _ (by omega), hk3]
    simp only
    rw [if_neg (by omega)]
  rw [hrel]
  have hfin : ∀ j, j ≠ v.dynamic_data →
      hget (hset (modifyBuf h₂ h.length (fun bb => { bb with data_ := cont }))
        v.dynamic_data (some { b with refs_count := b.refs_count - 1 })) j =
      hget (modifyBuf h₂ h.length (fun bb => { bb with data_ := cont })) j := by
    intro j hj
    exact hget_hset_ne _ _ _ _ (Ne.symm hj)
  refine ⟨by first | trivial | rfl, by first | trivial | rfl, by first | trivial | rfl,
    by first | trivial | rfl, ?_, ?_, ?_⟩
  · rw [hfin _ (by omega), hmods, hcont, show first + (last - first) = last from by omega]
  · intro i hi hne
    rw [hfin _ hne, hmodo _ (by omega), hk2 _ hi]
  · rw [hget_hset_self, hbuf]
    rw [length_modifyBuf, hlen₂]
    omega

theorem erase_err (N : Nat) (h : Heap α) (v : socow_vector α) (first last fuel : Nat)
    (hv : Inv N h v) :
    (erase N h v first last fuel).out = .error () →
    ((erase N h v first last fuel).vec = v ∧
     (∀ i, i < h.length → hget (erase N h v first last fuel).heap i = hget h i) ∧
     hget (erase N h v first last fuel).heap h.length = none) := by
  unfold erase
  by_cases honly : is_only_vector_ref h v = true
  · rw [if_pos honly]
    cases hsm : v.is_small_vector_ with
    | true => intro hout; exact absurd hout (by simp)
    | false => intro hout; exact absurd hout (by simp)
  · have hshared : is_only_vector_ref h v = false := by
      cases hx : is_only_vector_ref h v
      · rfl
      · exact absurd hx honly
    have hsm : v.is_small_vector_ = false := by
      by_contra hc
      have : v.is_small_vector_ = true := by
        cases hx : v.is_small_vector_
        · exact absurd hx hc
        · rfl
      rw [is_only_vector_ref, this] at hshared
      simp at hshared
    obtain ⟨b, hb, hbsz, hbcap, hbN, hbrefs⟩ := Inv_dyn N h v hv hsm
    have hcapgtN : ¬(capacity N h v ≤ N) := by
      rw [capacity_dyn_eq N h v b hsm hb]
      omega
    rw [hshared]
    simp only [Bool.false_eq_true, if_false]
    unfold ctor_sized
    rw [if_neg hcapgtN]
    simp only [allocate_dynamic_buffer]
    by_cases hc1 : first ≤ fuel
    · simp only [uninitialized_copy_ok hc1]
      by_cases hc2 : v.size_ - (first + (last - first)) ≤ fuel - first
      · simp only [uninitialized_copy_ok hc2]
        intro hout; exact absurd hout (by simp)
      · simp only [uninitialized_copy_err
          (show fuel - first < v.size_ - (first + (last - first)) by omega)]
        intro _
        rw [destruct_dyn _ _ rfl]
        have hrel : release_ref (hset (h ++ [some ⟨capacity N h v, 1, []⟩]) h.length
            (some ⟨capacity N h v, 1, (view h v).take first⟩)) h.length first =
            hset (hset (h ++ [some ⟨capacity N h v, 1, []⟩]) h.length
              (some ⟨capacity N h v, 1, (view h v).take first⟩)) h.length none := by
          unfold release_ref
          rw [hget_pushSet_self]
          simp only
          rw [if_pos (by omega)]
        rw [hrel]
        have hll : h.length < (hset (h ++ [some ⟨capacity N h v, 1, []⟩]) h.length
            (some ⟨capacity N h v, 1, (view h v).take first⟩)).length := by
          rw [length_hset, List.length_append, List.length_cons, List.length_nil]
          omega
        refine ⟨by first | trivial | rfl, ?_, ?_⟩
        · intro i hi
          first
          | trivial
          | rw [hget_hset_ne _ _ _ _ (by omega), hget_pushSet h _ _ i hi]
        · first
          | trivial
          | rw [hget_hset_self _ _ _ hll]
    · simp only [uninitialized_copy_err (show fuel < first by omega)]
      intro _
      refine ⟨by first | trivial | rfl, ?_, ?_⟩
      · intro i hi
        first
        | trivial
        | exact hget_pushSet h _ _ i hi
      · first
        | trivial
        | exact hget_pushSet_self h _ _

theorem insert_ok_view (N : Nat) (h : Heap α) (v : socow_vector α) (pos : Nat) (x : α)
    (fuel : Nat) (hv : Inv N h v) (hpos : pos ≤ v.size_) (hfuel : v.size_ + 1 ≤ fuel) :
    (insert N h v pos x fuel).out = .ok pos ∧
    (insert N h v pos x fuel).vec.size_ = v.size_ + 1 ∧
    view (insert N h v pos x fuel).heap (insert N h v pos x fuel).vec =
      (view h v).take pos ++ x :: (view h v).drop pos := by
  have hlenv := view_length N h v hv
  have hclen : ((view h v).take pos ++ x :: (view h v).drop pos).length = v.size_ + 1 := by
    rw [List.length_append, List.length_take, List.length_cons, List.length_drop]
    omega
  by_cases hcond : (v.size_ != capacity N h v && is_only_vector_ref h v) = true
  · obtain ⟨hout, hsz, -, -, -, hview, -⟩ :=
      insert_fast_ok N h v pos x fuel hv hcond hpos (by omega)
    exact ⟨hout, hsz, hview⟩
  · have hcond₂ : (v.size_ != capacity N h v && is_only_vector_ref h v) = false := by
      cases hx : (v.size_ != capacity N h v && is_only_vector_ref h v)
      · rfl
      · exact absurd hx hcond
    obtain ⟨hout, hsz, hsmf, hdyn, -, hbuf, -⟩ :=
      insert_slow_ok N h v pos x fuel hv hcond₂ hpos hfuel
    refine ⟨hout, hsz, ?_⟩
    rw [view_dyn_eq _ (insert N h v pos x fuel).vec
      ⟨(if v.size_ == capacity N h v then 2 * capacity N h v else capacity N h v), 1,
        (view h v).take pos ++ x :: (view h v).drop pos⟩ hsmf (by rw [hdyn]; exact hbuf)]
    have hdata : (⟨(if v.size_ == capacity N h v then 2 * capacity N h v
        else capacity N h v), 1,
        (view h v).take pos ++ x :: (view h v).drop pos⟩ : dynamic_buffer α).data_.length
        ≤ (insert N h v pos x fuel).vec.size_ := by
      rw [hsz]
      show ((view h v).take pos ++ x :: (view h v).drop pos).length ≤ v.size_ + 1
      omega
    exact List.take_of_length_le hdata

theorem erase_ok_view (N : Nat) (h : Heap α) (v : socow_vector α) (first last fuel : Nat)
    (hv : Inv N h v) (hfl : first ≤ last) (hls : last ≤ v.size_)
    (hfuel : v.size_ ≤ fuel) :
    (erase N h v first last fuel).out = .ok first ∧
    (erase N h v first last fuel).vec.size_ = v.size_ - (last - first) ∧
    view (erase N h v first last fuel).heap (erase N h v first last fuel).vec =
      (view h v).take first ++ (view h v).drop last := by
  have hlenv := view_length N h v hv
  have hclen : ((view h v).take first ++ (view h v).drop last).length
      = v.size_ - (last - first) := by
    rw [List.length_append, List.length_take, List.length_drop]
    omega
  by_cases honly : is_only_vector_ref h v = true
  · obtain ⟨hout, hsz, -, -, -, hview, -⟩ :=
      erase_excl_ok N h v first last fuel hv honly hfl hls
    exact ⟨hout, hsz, hview⟩
  · have hshared : is_only_vector_ref h v = false := by
      cases hx : is_only_vector_ref h v
      · rfl
      · exact absurd hx honly
    obtain ⟨hout, hsz, hsmf, hdyn, hbuf, -, -⟩ :=
      erase_shared_ok N h v first last fuel hv hshared hfl hls (by omega)
    refine ⟨hout, hsz, ?_⟩
    rw [view_dyn_eq _ (erase N h v first last fuel).vec
      ⟨capacity N h v, 1, (view h v).take first ++ (view h v).drop last⟩ hsmf
      (by rw [hdyn]; exact hbuf)]
    have hdata : (⟨capacity N h v, 1,
        (view h v).take first ++ (view h v).drop last⟩ : dynamic_buffer α).data_.length
        ≤ (erase N h v first last fuel).vec.size_ := by
      rw [hsz]
      show ((view h v).take first ++ (view h v).drop last).length
        ≤ v.size_ - (last - first)
      omega
    exact List.take_of_length_le hdata

/-- C10: `insert(pos, value)` returns an iterator to the newly inserted element, at
offset `pos - begin()` from the start of the (possibly new) storage — the element at the
returned offset is `value` and the elements are the old ones with `value` inserted at
`pos`; `erase(first, last)` returns an iterator at offset `first - begin()`, i.e. to the
element that followed the erased range (the remaining elements being the prefix before
`first` followed by the suffix from `last`). -/
theorem claim_C10_positional_returns (N : Nat) (h : Heap α) (v : socow_vector α)
    (pos first last : Nat) (x : α) (fuel : Nat) (hv : Inv N h v)
    (hpos : pos ≤ v.size_) (hfl : first ≤ last) (hls : last ≤ v.size_)
    (hfuel : v.size_ + 1 ≤ fuel) :
    ((insert N h v pos x fuel).out = .ok pos ∧
     view (insert N h v pos x fuel).heap (insert N h v pos x fuel).vec =
       (view h v).take pos ++ x :: (view h v).drop pos ∧
     (view (insert N h v pos x fuel).heap (insert N h v pos x fuel).vec)[pos]? =
       some x) ∧
    ((erase N h v first last fuel).out = .ok first ∧
     view (erase N h v first last fuel).heap (erase N h v first last fuel).vec =
       (view h v).take first ++ (view h v).drop last) := by
  have hlenv := view_length N h v hv
  obtain ⟨hiout, -, hiview⟩ := insert_ok_view N h v pos x fuel hv hpos hfuel
  obtain ⟨heout, -, heview⟩ := erase_ok_view N h v first last fuel hv hfl hls (by omega)
  refine ⟨⟨hiout, hiview, ?_⟩, heout, heview⟩
  rw [hiview]
  rw [List.getElem?_append_right (by rw [List.length_take]; omega)]
  have : pos - (List.take pos (view h v)).length = 0 := by
    rw [List.length_take]
    omega
  rw [this]
  simp

/-- Witness for C10 at a concrete input: a shared dynamic container `[10, 20]` with
`N = 1`; inserting `99` at offset 1 returns offset 1 and yields `[10, 99, 20]`; erasing
`[0, 1)` returns offset 0 and yields `[20]`. -/
theorem claim_C10_positional_returns_witness :
    (Inv 1 [some ⟨2, 2, [10, 20]⟩] (⟨2, false, 0, []⟩ : socow_vector Nat) ∧
     (1 : Nat) ≤ 2 ∧ (0 : Nat) ≤ 1 ∧ (1 : Nat) ≤ 2 ∧ (2 : Nat) + 1 ≤ 5) ∧
    ((insert 1 [some ⟨2, 2, [10, 20]⟩] ⟨2, false, 0, []⟩ 1 99 5).out = .ok 1 ∧
     view (insert 1 [some ⟨2, 2, [10, 20]⟩] ⟨2, false, 0, []⟩ 1 99 5).heap
       (insert 1 [some ⟨2, 2, [10, 20]⟩] ⟨2, false, 0, []⟩ 1 99 5).vec = [10, 99, 20]) ∧
    ((erase 1 [some ⟨2, 2, [10, 20]⟩] ⟨2, false, 0, []⟩ 0 1 5).out = .ok 0 ∧
     view (erase 1 [some ⟨2, 2, [10, 20]⟩] ⟨2, false, 0, []⟩ 0 1 5).heap
       (erase 1 [some ⟨2, 2, [10, 20]⟩] ⟨2, false, 0, []⟩ 0 1 5).vec = [20]) := by
  obtain ⟨⟨hiout, hiview, -⟩, heout, heview⟩ :=
    claim_C10_positional_returns 1 [some ⟨2, 2, [10, 20]⟩] ⟨2, false, 0, []⟩ 1 0 1 99 5
      (by decide) (by decide) (by decide) (by decide) (by decide)
  refine ⟨⟨by decide, by decide, by decide, by decide, by decide⟩, ⟨hiout, ?_⟩, heout, ?_⟩
  · rw [hiview]
    decide
  · rw [heview]
    decide

theorem ctor_sized_ok_dyn (N : Nat) (h : Heap α) (v : socow_vector α)
    (new_size k fuel : Nat) (hkN : ¬(k ≤ N)) (hfuel : new_size ≤ fuel) :
    ctor_sized N h v new_size k fuel =
      (hset (h ++ [some ⟨k, 1, []⟩]) h.length (some ⟨k, 1, (view h v).take new_size⟩),
       fuel - new_size, .ok ⟨new_size, false, h.length, []⟩) := by
  unfold ctor_sized
  rw [if_neg hkN]
  simp only [allocate_dynamic_buffer, uninitialized_copy_ok hfuel]

theorem ctor_sized_ok_small (N : Nat) (h : Heap α) (v : socow_vector α)
    (new_size k fuel : Nat) (hkN : k ≤ N) (hfuel : new_size ≤ fuel) :
    ctor_sized N h v new_size k fuel =
      (h, fuel - new_size, .ok ⟨new_size, true, 0, (view h v).take new_size⟩) := by
  unfold ctor_sized
  rw [if_pos hkN]
  simp only [uninitialized_copy_ok hfuel]

theorem ctor_sized_err (N : Nat) (h : Heap α) (v : socow_vector α)
    (new_size k fuel : Nat) (hfuel : fuel < new_size) :
    ctor_sized N h v new_size k fuel =
      (if k ≤ N then (h, fuel, .error ())
       else (hset (h ++ [some ⟨k, 1, []⟩]) h.length none, fuel, .error ())) := by
  unfold ctor_sized
  by_cases hkN : k ≤ N
  · rw [if_pos hkN, if_pos hkN]
    simp only [uninitialized_copy_err hfuel]
  · rw [if_neg hkN, if_neg hkN]
    simp only [allocate_dynamic_buffer, uninitialized_copy_err hfuel]

theorem assign_dyn_src (N : Nat) (h : Heap α) (a b : socow_vector α) (fuel : Nat)
    (hb : b.is_small_vector_ = false) (hnsame : is_same_vector a b = false) :
    assign N h a b fuel =
      ⟨add_vector_ref (if a.is_small_vector_ then h else release_vector_ref h a)
         ⟨b.size_, false, b.dynamic_data, []⟩,
       ⟨b.size_, false, b.dynamic_data, []⟩, fuel, .ok ()⟩ := by
  unfold assign
  rw [hnsame, hb]
  simp

/-- C4: the copy constructor, from a Dynamic source, adopts the very same shared buffer
(same heap slot), increments its reference count, performs zero element copies (the fuel
is untouched and the construction succeeds even with zero fuel — it cannot throw); from
an Inline source it copies the elements one by one into the new container's own inline
storage (consuming one fuel per element), leaving the heap untouched. -/
theorem claim_C4_copy_construction (N : Nat) (h : Heap α) (v : socow_vector α)
    (fuel : Nat) (hv : Inv N h v) :
    (v.is_small_vector_ = false →
      (copy_ctor h v fuel).2.2 = .ok ⟨v.size_, false, v.dynamic_data, []⟩ ∧
      (copy_ctor h v fuel).2.1 = fuel ∧
      hget (copy_ctor h v fuel).1 v.dynamic_data =
        some { bufAt h v.dynamic_data with
               refs_count := (bufAt h v.dynamic_data).refs_count + 1 } ∧
      (∀ i, i ≠ v.dynamic_data → hget (copy_ctor h v fuel).1 i = hget h i) ∧
      view (copy_ctor h v fuel).1 ⟨v.size_, false, v.dynamic_data, []⟩ = view h v) ∧
    (v.is_small_vector_ = true → v.size_ ≤ fuel →
      (copy_ctor h v fuel).1 = h ∧
      (copy_ctor h v fuel).2.1 = fuel - v.size_ ∧
      (copy_ctor h v fuel).2.2 = .ok ⟨v.size_, true, 0, view h v⟩ ∧
      view h (⟨v.size_, true, 0, view h v⟩ : socow_vector α) = view h v) := by
  have hlenv := view_length N h v hv
  constructor
  · intro hsm
    obtain ⟨b, hb, hbsz, hbcap, hbN, hbrefs⟩ := Inv_dyn N h v hv hsm
    have hbuf : bufAt h v.dynamic_data = b := by simp [bufAt, hb]
    unfold copy_ctor
    rw [hsm]
    simp only [Bool.false_eq_true, if_false]
    have hadd : hget (add_vector_ref h v) v.dynamic_data =
        some { b with refs_count := b.refs_count + 1 } := by
      unfold add_vector_ref
      rw [hsm]
      simp only [Bool.false_eq_true, if_false]
      rw [hget_modifyBuf_self, hb]
      rfl
    refine ⟨by first | trivial | rfl, by first | trivial | rfl,
      by rw [hadd, hbuf], ?_, ?_⟩
    · intro i hne
      show hget (add_vector_ref h v) i = hget h i
      unfold add_vector_ref
      rw [hsm]
      simp only [Bool.false_eq_true, if_false]
      exact hget_modifyBuf_ne _ _ _ _ (Ne.symm hne)
    · show (bufAt (add_vector_ref h v) v.dynamic_data).data_.take v.size_ = view h v
      have : bufAt (add_vector_ref h v) v.dynamic_data =
          { b with refs_count := b.refs_count + 1 } := by
        simp only [bufAt, hadd, Option.getD_some]
      rw [this]
      show b.data_.take v.size_ = view h v
      rw [view_dyn_eq h v b hsm hb]
  · intro hsm hfuel
    unfold copy_ctor
    rw [hsm]
    simp only [if_true, uninitialized_copy_ok hfuel]
    have htake : (view h v).take v.size_ = view h v :=
      List.take_of_length_le (by omega)
    refine ⟨by first | trivial | rfl, by first | trivial | rfl, by rw [htake], ?_⟩
    show (view h v).take v.size_ = view h v
    exact htake

/-- Witness for C4: copying a Dynamic container never copies elements (fuel 0 suffices)
and bumps the reference count; copying an Inline container copies element-wise. -/
theorem claim_C4_copy_construction_witness :
    (Inv 1 [some ⟨2, 1, [10, 20]⟩] (⟨2, false, 0, []⟩ : socow_vector Nat) ∧
     Inv 2 ([] : Heap Nat) (⟨2, true, 0, [7, 8]⟩ : socow_vector Nat)) ∧
    ((copy_ctor [some ⟨2, 1, [10, 20]⟩] (⟨2, false, 0, []⟩ : socow_vector Nat) 0).2.2 =
       .ok ⟨2, false, 0, []⟩ ∧
     hget (copy_ctor [some ⟨2, 1, [10, 20]⟩] (⟨2, false, 0, []⟩ : socow_vector Nat) 0).1 0 =
       some ⟨2, 2, [10, 20]⟩) ∧
    ((copy_ctor ([] : Heap Nat) (⟨2, true, 0, [7, 8]⟩ : socow_vector Nat) 5).2.2 =
       .ok ⟨2, true, 0, [7, 8]⟩ ∧
     (copy_ctor ([] : Heap Nat) (⟨2, true, 0, [7, 8]⟩ : socow_vector Nat) 5).1 = []) := by
  obtain ⟨hdynpart, -⟩ :=
    claim_C4_copy_construction 1 [some ⟨2, 1, [10, 20]⟩] ⟨2, false, 0, []⟩ 0 (by decide)
  obtain ⟨hout, -, hbuf, -⟩ := hdynpart rfl
  obtain ⟨-, hsmallpart⟩ :=
    claim_C4_copy_construction 2 ([] : Heap Nat) ⟨2, true, 0, [7, 8]⟩ 5 (by decide)
  obtain ⟨hheap, -, hout₂, -⟩ := hsmallpart rfl (by decide)
  refine ⟨⟨by decide, by decide⟩, ⟨hout, ?_⟩, ⟨?_, hheap⟩⟩
  · rw [hbuf]
    decide
  · rw [hout₂]
    decide

theorem Inv_mk_dyn (N : Nat) (h : Heap α) (s bid : Nat) (b : dynamic_buffer α)
    (hb : hget h bid = some b) (hs : s = b.data_.length)
    (hcap : b.data_.length ≤ b.capacity_) (hN : N < b.capacity_)
    (hr : 1 ≤ b.refs_count) : Inv N h ⟨s, false, bid, []⟩ := by
  unfold Inv
  simp only [Bool.false_eq_true, if_false]
  rw [hb]
  exact ⟨hs, hcap, hN, hr⟩

theorem Inv_mk_small (N s : Nat) (l : List α) (h : Heap α) (hs : l.length = s)
    (hsN : s ≤ N) : Inv N h ⟨s, true, 0, l⟩ := by
  unfold Inv
  simp [hs, hsN]

theorem view_mk_dyn (h : Heap α) (s bid : Nat) (b : dynamic_buffer α)
    (hb : hget h bid = some b) (hs : b.data_.length ≤ s) :
    view h (⟨s, false, bid, []⟩ : socow_vector α) = b.data_ := by
  unfold view
  simp only [Bool.false_eq_true, if_false]
  show (bufAt h bid).data_.take s = b.data_
  rw [show bufAt h bid = b by simp [bufAt, hb]]
  exact List.take_of_length_le hs

theorem not_only_dyn (h : Heap α) (v : socow_vector α)
    (hshared : is_only_vector_ref h v = false) : v.is_small_vector_ = false := by
  by_contra hc
  have hx : v.is_small_vector_ = true := by
    cases hy : v.is_small_vector_
    · exact absurd hy hc
    · rfl
  rw [is_only_vector_ref, hx] at hshared
  simp at hshared

theorem reserve_noop_low (N : Nat) (h : Heap α) (v : socow_vector α) (k fuel : Nat)
    (h₁ : k < v.size_) :
    reserve N h v k fuel = ⟨h, v, fuel, .ok ()⟩ := by
  unfold reserve
  rw [if_pos h₁]

theorem reserve_to_static_eq (N : Nat) (h : Heap α) (v : socow_vector α) (k fuel : Nat)
    (h₁ : ¬ k < v.size_) (h₂ : (!(is_only_vector_ref h v) && decide (k ≤ N)) = true)
    (hfuel : v.size_ ≤ fuel) :
    reserve N h v k fuel =
      ⟨release_ref h v.dynamic_data v.size_,
       ⟨v.size_, true, 0, (view h v).take v.size_⟩, fuel - v.size_, .ok ()⟩ := by
  unfold reserve
  rw [if_neg h₁, if_pos h₂]
  simp only [from_dynamic_to_static, uninitialized_copy_ok hfuel]

theorem reserve_small_grow_eq (N : Nat) (h : Heap α) (v : socow_vector α) (k fuel : Nat)
    (hsm : v.is_small_vector_ = true) (h₁ : ¬ k < v.size_)
    (h₃ : (decide (k > capacity N h v) ||
      (!(is_only_vector_ref h v) && decide (v.size_ ≤ k))) = true)
    (hkN : ¬ (k ≤ N)) (hfuel : v.size_ ≤ fuel) :
    reserve N h v k fuel =
      ⟨release_ref (add_vector_ref (hset (h ++ [some ⟨k, 1, []⟩]) h.length
          (some ⟨k, 1, (view h v).take v.size_⟩))
          (⟨v.size_, false, h.length, []⟩ : socow_vector α)) h.length v.size_,
       ⟨v.size_, false, h.length, []⟩, fuel - v.size_, .ok ()⟩ := by
  have h₂ : ¬(!(is_only_vector_ref h v) && decide (k ≤ N)) = true := by
    simp [is_only_vector_ref, hsm]
  unfold reserve
  rw [if_neg h₁, if_neg h₂, if_pos h₃]
  rw [ctor_sized_ok_dyn N h v v.size_ k fuel hkN hfuel]
  simp only [hsm, if_true]
  rw [assign_dyn_src N _ v _ (fuel - v.size_) rfl (by simp [is_same_vector, hsm])]
  simp only [hsm, if_true]
  rw [show (destruct (add_vector_ref (hset (h ++ [some ⟨k, 1, []⟩]) h.length
      (some ⟨k, 1, (view h v).take v.size_⟩))
      (⟨v.size_, false, h.length, []⟩ : socow_vector α))
      (⟨v.size_, false, h.length, []⟩ : socow_vector α)) = _ from destruct_dyn _ _ rfl]

theorem reserve_dyn_grow_eq (N : Nat) (h : Heap α) (v : socow_vector α) (k fuel : Nat)
    (hv : Inv N h v) (hsm : v.is_small_vector_ = false) (h₁ : ¬ k < v.size_)
    (h₂ : ¬(!(is_only_vector_ref h v) && decide (k ≤ N)) = true)
    (h₃ : (decide (k > capacity N h v) ||
      (!(is_only_vector_ref h v) && decide (v.size_ ≤ k))) = true)
    (hkN : ¬ (k ≤ N)) (hfuel : v.size_ ≤ fuel) :
    reserve N h v k fuel =
      ⟨release_ref (hset (h ++ [some ⟨k, 1, []⟩]) h.length
          (some ⟨k, 1, (view h v).take v.size_⟩)) v.dynamic_data v.size_,
       { v with size_ := v.size_, dynamic_data := h.length }, fuel - v.size_, .ok ()⟩ := by
  obtain ⟨b, hb, hbsz, hbcap, hbN, hbrefs⟩ := Inv_dyn N h v hv hsm
  have hbuflt : v.dynamic_data < h.length := lt_of_hget_some h _ b hb
  unfold reserve
  rw [if_neg h₁, if_neg h₂, if_pos h₃]
  rw [ctor_sized_ok_dyn N h v v.size_ k fuel hkN hfuel]
  simp only [hsm, Bool.false_eq_true, if_false]
  rw [swap_dyn_dyn _ _ _ _ rfl hsm (by show h.length ≠ v.dynamic_data; omega)]
  rw [show (destruct (hset (h ++ [some ⟨k, 1, []⟩]) h.length
      (some ⟨k, 1, (view h v).take v.size_⟩))
      { (⟨v.size_, false, h.length, []⟩ : socow_vector α) with size_ := v.size_, dynamic_data := v.dynamic_data }) = _ from destruct_dyn _ _ rfl]
  first
  | rfl
  | (congr 1 <;> simp [hsm])

theorem reserve_noop_else (N : Nat) (h : Heap α) (v : socow_vector α) (k fuel : Nat)
    (h₁ : ¬ k < v.size_) (h₂ : ¬(!(is_only_vector_ref h v) && decide (k ≤ N)) = true)
    (h₃ : ¬(decide (k > capacity N h v) ||
      (!(is_only_vector_ref h v) && decide (v.size_ ≤ k))) = true) :
    reserve N h v k fuel = ⟨h, v, fuel, .ok ()⟩ := by
  unfold reserve
  rw [if_neg h₁, if_neg h₂, if_neg h₃]

theorem reserve_ok (N : Nat) (h : Heap α) (v : socow_vector α) (k fuel : Nat)
    (hv : Inv N h v) (hfuel : v.size_ ≤ fuel) :
    (reserve N h v k fuel).out = .ok () ∧
    (reserve N h v k fuel).vec.size_ = v.size_ ∧
    view (reserve N h v k fuel).heap (reserve N h v k fuel).vec = view h v ∧
    Inv N (reserve N h v k fuel).heap (reserve N h v k fuel).vec ∧
    fuel - v.size_ ≤ (reserve N h v k fuel).fuel := by
  have hlenv := view_length N h v hv
  have htake : (view h v).take v.size_ = view h v :=
    List.take_of_length_le (by omega)
  by_cases h₁ : k < v.size_
  · rw [reserve_noop_low N h v k fuel h₁]
    exact ⟨rfl, rfl, rfl, hv, by show fuel - v.size_ ≤ fuel; omega⟩
  · by_cases h₂ : (!(is_only_vector_ref h v) && decide (k ≤ N)) = true
    · have hshared : is_only_vector_ref h v = false := by
        cases hx : is_only_vector_ref h v
        · rfl
        · rw [hx] at h₂; simp at h₂
      have hkN : k ≤ N := by
        rcases Bool.and_eq_true_iff.mp h₂ with ⟨-, hd⟩
        exact of_decide_eq_true hd
      rw [reserve_to_static_eq N h v k fuel h₁ h₂ hfuel]
      refine ⟨rfl, rfl, ?_, ?_, by show fuel - v.size_ ≤ fuel - v.size_; omega⟩
      · show ((view h v).take v.size_).take v.size_ = view h v
        rw [htake, htake]
      · exact Inv_mk_small N v.size_ _ _ (by rw [htake]; omega) (by omega)
    · by_cases h₃ : (decide (k > capacity N h v) ||
          (!(is_only_vector_ref h v) && decide (v.size_ ≤ k))) = true
      · have hkN : ¬(k ≤ N) := by
          cases hsm : v.is_small_vector_ with
          | true =>
            have honly : is_only_vector_ref h v = true := by
              simp [is_only_vector_ref, hsm]
            have hcapN : capacity N h v = N := by simp [capacity, hsm]
            rcases Bool.or_eq_true_iff.mp h₃ with hgt | hand
            · have := of_decide_eq_true hgt
              omega
            · rw [honly] at hand
              simp at hand
          | false =>
            rcases Bool.or_eq_true_iff.mp h₃ with hgt | hand
            · obtain ⟨b, hb, hbsz, hbcap, hbN, hbrefs⟩ := Inv_dyn N h v hv hsm
              have hcapb : capacity N h v = b.capacity_ := capacity_dyn_eq N h v b hsm hb
              have := of_decide_eq_true hgt
              omega
            · rcases Bool.and_eq_true_iff.mp hand with ⟨hnotonly, -⟩
              intro hc
              apply h₂
              rw [show is_only_vector_ref h v = false from by
                cases hx : is_only_vector_ref h v
                · rfl
                · rw [hx] at hnotonly; simp at hnotonly]
              simp [hc]
        have hsizek : v.size_ ≤ k := by
          cases hsm : v.is_small_vector_ with
          | true =>
            obtain ⟨hsN, -⟩ := Inv_small N h v hv hsm
            omega
          | false => omega
        cases hsm : v.is_small_vector_ with
        | true =>
          rw [reserve_small_grow_eq N h v k fuel hsm h₁ h₃ hkN hfuel]
          have hknews : hget (hset (h ++ [some ⟨k, 1, []⟩]) h.length
              (some ⟨k, 1, (view h v).take v.size_⟩)) h.length =
              some ⟨k, 1, (view h v).take v.size_⟩ := hget_pushSet_self h _ _
          have hadd : hget (add_vector_ref (hset (h ++ [some ⟨k, 1, []⟩]) h.length
              (some ⟨k, 1, (view h v).take v.size_⟩))
              (⟨v.size_, false, h.length, []⟩ : socow_vector α)) h.length =
              some ⟨k, 2, (view h v).take v.size_⟩ := by
            unfold add_vector_ref
            simp only [Bool.false_eq_true, if_false]
            rw [hget_modifyBuf_self, hknews]
            rfl
          have hrel : release_ref (add_vector_ref (hset (h ++ [some ⟨k, 1, []⟩]) h.length
              (some ⟨k, 1, (view h v).take v.size_⟩))
              (⟨v.size_, false, h.length, []⟩ : socow_vector α)) h.length v.size_ =
              hset (add_vector_ref (hset (h ++ [some ⟨k, 1, []⟩]) h.length
                (some ⟨k, 1, (view h v).take v.size_⟩))
                (⟨v.size_, false, h.length, []⟩ : socow_vector α)) h.length
                (some ⟨k, 1, (view h v).take v.size_⟩) := by
            unfold release_ref
            rw [hadd]
            simp only
            rw [if_neg (by omega)]
          have hlenadd : (add_vector_ref (hset (h ++ [some ⟨k, 1, []⟩]) h.length
              (some ⟨k, 1, (view h v).take v.size_⟩))
              (⟨v.size_, false, h.length, []⟩ : socow_vector α)).length = h.length + 1 := by
            unfold add_vector_ref
            simp only [Bool.false_eq_true, if_false]
            rw [length_modifyBuf, length_hset, List.length_append]
            simp
          have hfin : hget (release_ref (add_vector_ref (hset (h ++ [some ⟨k, 1, []⟩])
              h.length (some ⟨k, 1, (view h v).take v.size_⟩))
              (⟨v.size_, false, h.length, []⟩ : socow_vector α)) h.length v.size_)
              h.length = some ⟨k, 1, (view h v).take v.size_⟩ := by
            rw [hrel]
            apply hget_hset_self
            rw [hlenadd]
            omega
          refine ⟨rfl, rfl, ?_, ?_, by show fuel - v.size_ ≤ fuel - v.size_; omega⟩
          · rw [view_mk_dyn _ _ _ _ hfin
              (by show ((view h v).take v.size_).length ≤ v.size_; rw [htake]; omega)]
            exact htake
          · exact Inv_mk_dyn N _ _ _ _ hfin
              (by show v.size_ = ((view h v).take v.size_).length; rw [htake]; omega)
              (by show ((view h v).take v.size_).length ≤ k; rw [htake]; omega)
              (by show N < k; omega) (by show (1 : Nat) ≤ 1; omega)
        | false =>
          obtain ⟨b, hb, hbsz, hbcap, hbN, hbrefs⟩ := Inv_dyn N h v hv hsm
          have hbuflt : v.dynamic_data < h.length := lt_of_hget_some h _ b hb
          rw [reserve_dyn_grow_eq N h v k fuel hv hsm h₁ h₂ h₃ hkN hfuel]
          have hknews : ∀ j, j ≠ h.length →
              hget (hset (h ++ [some ⟨k, 1, []⟩]) h.length
                (some ⟨k, 1, (view h v).take v.size_⟩)) j = hget (h ++ [some ⟨k, 1, []⟩]) j :=
            fun j hj => hget_hset_ne _ _ _ _ (Ne.symm hj)
          have hget₂ : hget (hset (h ++ [some ⟨k, 1, []⟩]) h.length
              (some ⟨k, 1, (view h v).take v.size_⟩)) v.dynamic_data = some b := by
            rw [hget_pushSet h _ _ _ hbuflt]
            exact hb
          have hfin : hget (release_ref (hset (h ++ [some ⟨k, 1, []⟩]) h.length
              (some ⟨k, 1, (view h v).take v.size_⟩)) v.dynamic_data v.size_) h.length =
              some ⟨k, 1, (view h v).take v.size_⟩ := by
            rw [hget_release_ref_ne _ _ _ _ (by omega)]
            exact hget_pushSet_self h _ _
          refine ⟨rfl, rfl, ?_, ?_, by show fuel - v.size_ ≤ fuel - v.size_; omega⟩
          · show view (release_ref (hset (h ++ [some ⟨k, 1, []⟩]) h.length
                (some ⟨k, 1, (view h v).take v.size_⟩)) v.dynamic_data v.size_)
                { v with size_ := v.size_, dynamic_data := h.length } = view h v
            rw [view_dyn_eq _ ({ v with size_ := v.size_, dynamic_data := h.length })
              ⟨k, 1, (view h v).take v.size_⟩ hsm hfin]
            show ((view h v).take v.size_).take v.size_ = view h v
            rw [htake, htake]
          · show Inv N _ ({ v with size_ := v.size_, dynamic_data := h.length })
            unfold Inv
            simp only [hsm, Bool.false_eq_true, if_false]
            show (match hget (release_ref (hset (h ++ [some ⟨k, 1, []⟩]) h.length
              (some ⟨k, 1, (view h v).take v.size_⟩)) v.dynamic_data v.size_) h.length
              with
              | some bb => v.size_ = bb.data_.length ∧ bb.data_.length ≤ bb.capacity_ ∧
                  N < bb.capacity_ ∧ 1 ≤ bb.refs_count
              | none => False)
            rw [hfin]
            refine ⟨by show v.size_ = ((view h v).take v.size_).length; rw [htake]; omega,
              ?_, by show N < k; omega, by show (1 : Nat) ≤ 1; omega⟩
            show ((view h v).take v.size_).length ≤ k
            rw [htake]
            omega
      · rw [reserve_noop_else N h v k fuel h₁ h₂ h₃]
        exact ⟨rfl, rfl, rfl, hv, by show fuel - v.size_ ≤ fuel; omega⟩

theorem shrink_noop_eq (N : Nat) (h : Heap α) (v : socow_vector α) (fuel : Nat)
    (hc : (v.is_small_vector_ || v.size_ == capacity N h v) = true) :
    shrink_to_fit N h v fuel = ⟨h, v, fuel, .ok ()⟩ := by
  unfold shrink_to_fit
  rw [if_pos hc]

theorem shrink_to_static_eq (N : Nat) (h : Heap α) (v : socow_vector α) (fuel : Nat)
    (hc : ¬(v.is_small_vector_ || v.size_ == capacity N h v) = true)
    (hsN : v.size_ ≤ N) (hfuel : v.size_ ≤ fuel) :
    shrink_to_fit N h v fuel =
      ⟨release_ref h v.dynamic_data v.size_,
       ⟨v.size_, true, 0, (view h v).take v.size_⟩, fuel - v.size_, .ok ()⟩ := by
  unfold shrink_to_fit
  rw [if_neg hc, if_pos hsN]
  simp only [from_dynamic_to_static, uninitialized_copy_ok hfuel]

theorem shrink_dyn_eq (N : Nat) (h : Heap α) (v : socow_vector α) (fuel : Nat)
    (hv : Inv N h v)
    (hc : ¬(v.is_small_vector_ || v.size_ == capacity N h v) = true)
    (hsN : ¬ v.size_ ≤ N) (hfuel : v.size_ ≤ fuel) :
    shrink_to_fit N h v fuel =
      ⟨release_ref (hset (h ++ [some ⟨v.size_, 1, []⟩]) h.length
          (some ⟨v.size_, 1, (view h v).take v.size_⟩)) v.dynamic_data v.size_,
       { v with size_ := v.size_, dynamic_data := h.length }, fuel - v.size_, .ok ()⟩ := by
  have hsm : v.is_small_vector_ = false := by
    cases hx : v.is_small_vector_
    · rfl
    · rw [hx] at hc; simp at hc
  obtain ⟨b, hb, hbsz, hbcap, hbN, hbrefs⟩ := Inv_dyn N h v hv hsm
  have hbuflt : v.dynamic_data < h.length := lt_of_hget_some h _ b hb
  unfold shrink_to_fit
  rw [if_neg hc, if_neg hsN]
  rw [ctor_sized_ok_dyn N h v v.size_ v.size_ fuel hsN hfuel]
  simp only []
  rw [swap_dyn_dyn _ _ _ _ rfl hsm (by show h.length ≠ v.dynamic_data; omega)]
  rw [show (destruct (hset (h ++ [some ⟨v.size_, 1, []⟩]) h.length
      (some ⟨v.size_, 1, (view h v).take v.size_⟩))
      { (⟨v.size_, false, h.length, []⟩ : socow_vector α) with size_ := v.size_, dynamic_data := v.dynamic_data }) = _ from destruct_dyn _ _ rfl]
  try first
  | rfl
  | (congr 1 <;> simp [hsm])

set_option maxHeartbeats 1000000 in
theorem shrink_ok (N : Nat) (h : Heap α) (v : socow_vector α) (fuel : Nat)
    (hv : Inv N h v) (hfuel : v.size_ ≤ fuel) :
    (shrink_to_fit N h v fuel).out = .ok () ∧
    (shrink_to_fit N h v fuel).vec.size_ = v.size_ ∧
    view (shrink_to_fit N h v fuel).heap (shrink_to_fit N h v fuel).vec = view h v ∧
    Inv N (shrink_to_fit N h v fuel).heap (shrink_to_fit N h v fuel).vec ∧
    capacity N (shrink_to_fit N h v fuel).heap (shrink_to_fit N h v fuel).vec =
      max v.size_ N := by
  have hlenv := view_length N h v hv
  have htake : (view h v).take v.size_ = view h v :=
    List.take_of_length_le (by omega)
  by_cases hc : (v.is_small_vector_ || v.size_ == capacity N h v) = true
  · rw [shrink_noop_eq N h v fuel hc]
    refine ⟨rfl, rfl, rfl, hv, ?_⟩
    show capacity N h v = max v.size_ N
    cases hsm : v.is_small_vector_ with
    | true =>
      obtain ⟨hsN, -⟩ := Inv_small N h v hv hsm
      rw [show capacity N h v = N from by simp [capacity, hsm]]
      omega
    | false =>
      obtain ⟨b, hb, hbsz, hbcap, hbN, hbrefs⟩ := Inv_dyn N h v hv hsm
      have hcapb : capacity N h v = b.capacity_ := capacity_dyn_eq N h v b hsm hb
      rw [hsm] at hc
      simp only [Bool.false_or] at hc
      have hszcap : v.size_ = capacity N h v := by simpa using hc
      omega
  · have hsm : v.is_small_vector_ = false := by
      cases hx : v.is_small_vector_
      · rfl
      · rw [hx] at hc; simp at hc
    obtain ⟨b, hb, hbsz, hbcap, hbN, hbrefs⟩ := Inv_dyn N h v hv hsm
    have hbuflt : v.dynamic_data < h.length := lt_of_hget_some h _ b hb
    by_cases hsN : v.size_ ≤ N
    · rw [shrink_to_static_eq N h v fuel hc hsN hfuel]
      refine ⟨rfl, rfl, ?_, ?_, ?_⟩
      · show ((view h v).take v.size_).take v.size_ = view h v
        rw [htake, htake]
      · exact Inv_mk_small N v.size_ _ _ (by rw [htake]; omega) hsN
      · show N = max v.size_ N
        omega
    · rw [shrink_dyn_eq N h v fuel hv hc hsN hfuel]
      have hfin : hget (release_ref (hset (h ++ [some ⟨v.size_, 1, []⟩]) h.length
          (some ⟨v.size_, 1, (view h v).take v.size_⟩)) v.dynamic_data v.size_) h.length =
          some ⟨v.size_, 1, (view h v).take v.size_⟩ := by
        rw [hget_release_ref_ne _ _ _ _ (by omega)]
        exact hget_pushSet_self h _ _
      refine ⟨rfl, rfl, ?_, ?_, ?_⟩
      · show view (release_ref (hset (h ++ [some ⟨v.size_, 1, []⟩]) h.length
            (some ⟨v.size_, 1, (view h v).take v.size_⟩)) v.dynamic_data v.size_)
            { v with size_ := v.size_, dynamic_data := h.length } = view h v
        rw [view_dyn_eq _ ({ v with size_ := v.size_, dynamic_data := h.length })
          ⟨v.size_, 1, (view h v).take v.size_⟩ hsm hfin]
        show ((view h v).take v.size_).take v.size_ = view h v
        rw [htake, htake]
      · show Inv N (release_ref (hset (h ++ [some ⟨v.size_, 1, []⟩]) h.length
            (some ⟨v.size_, 1, (view h v).take v.size_⟩)) v.dynamic_data v.size_)
            { v with size_ := v.size_, dynamic_data := h.length }
        unfold Inv
        simp only [hsm, Bool.false_eq_true, if_false]
        show (match hget (release_ref (hset (h ++ [some ⟨v.size_, 1, []⟩]) h.length
            (some ⟨v.size_, 1, (view h v).take v.size_⟩)) v.dynamic_data v.size_) h.length
            with
            | some bb => v.size_ = bb.data_.length ∧ bb.data_.length ≤ bb.capacity_ ∧
                N < bb.capacity_ ∧ 1 ≤ bb.refs_count
            | none => False)
        rw [hfin]
        refine ⟨by show v.size_ = ((view h v).take v.size_).length; rw [htake]; omega,
          by show ((view h v).take v.size_).length ≤ v.size_; rw [htake]; omega,
          by show N < v.size_; omega, by show (1 : Nat) ≤ 1; omega⟩
      · show capacity N (release_ref (hset (h ++ [some ⟨v.size_, 1, []⟩]) h.length
            (some ⟨v.size_, 1, (view h v).take v.size_⟩)) v.dynamic_data v.size_)
            { v with size_ := v.size_, dynamic_data := h.length } = max v.size_ N
        rw [capacity_dyn_eq N _ ({ v with size_ := v.size_, dynamic_data := h.length })
          ⟨v.size_, 1, (view h v).take v.size_⟩ hsm hfin]
        show v.size_ = max v.size_ N
        omega

/-- C7: for every container and every requested capacity `k`, running `reserve(k)` and
then `shrink_to_fit()` (with enough copy budget for both) succeeds and leaves the
capacity at exactly `max(size(), N)`, with the size and the observable elements
unchanged. -/
theorem claim_C7_reserve_shrink_round_trip (N : Nat) (h : Heap α) (v : socow_vector α)
    (k fuel : Nat) (hv : Inv N h v) (hfuel : 2 * v.size_ ≤ fuel) :
    (reserve N h v k fuel).out = .ok () ∧
    (shrink_to_fit N (reserve N h v k fuel).heap (reserve N h v k fuel).vec
      (reserve N h v k fuel).fuel).out = .ok () ∧
    capacity N
      (shrink_to_fit N (reserve N h v k fuel).heap (reserve N h v k fuel).vec
        (reserve N h v k fuel).fuel).heap
      (shrink_to_fit N (reserve N h v k fuel).heap (reserve N h v k fuel).vec
        (reserve N h v k fuel).fuel).vec = max v.size_ N ∧
    (shrink_to_fit N (reserve N h v k fuel).heap (reserve N h v k fuel).vec
      (reserve N h v k fuel).fuel).vec.size_ = v.size_ ∧
    view (shrink_to_fit N (reserve N h v k fuel).heap (reserve N h v k fuel).vec
        (reserve N h v k fuel).fuel).heap
      (shrink_to_fit N (reserve N h v k fuel).heap (reserve N h v k fuel).vec
        (reserve N h v k fuel).fuel).vec = view h v := by
  obtain ⟨hrout, hrsz, hrview, hrinv, hrfuel⟩ :=
    reserve_ok N h v k fuel hv (by omega)
  obtain ⟨hsout, hssz, hsview, hsinv, hscap⟩ :=
    shrink_ok N (reserve N h v k fuel).heap (reserve N h v k fuel).vec
      (reserve N h v k fuel).fuel hrinv (by omega)
  rw [hrsz] at hssz hscap
  rw [hrview] at hsview
  exact ⟨hrout, hsout, hscap, hssz, hsview⟩

/-- Witness for C7: a dynamic container `[10, 20, 30]` with `N = 2` and capacity 8;
after `reserve(20); shrink_to_fit()` the capacity is `3 = max(3, 2)`, elements intact. -/
theorem claim_C7_reserve_shrink_round_trip_witness :
    (Inv 2 [some ⟨8, 1, [10, 20, 30]⟩] (⟨3, false, 0, []⟩ : socow_vector Nat) ∧
     2 * (3 : Nat) ≤ 10) ∧
    capacity 2
      (shrink_to_fit 2
        (reserve 2 [some ⟨8, 1, [10, 20, 30]⟩] ⟨3, false, 0, []⟩ 20 10).heap
        (reserve 2 [some ⟨8, 1, [10, 20, 30]⟩] ⟨3, false, 0, []⟩ 20 10).vec
        (reserve 2 [some ⟨8, 1, [10, 20, 30]⟩] ⟨3, false, 0, []⟩ 20 10).fuel).heap
      (shrink_to_fit 2
        (reserve 2 [some ⟨8, 1, [10, 20, 30]⟩] ⟨3, false, 0, []⟩ 20 10).heap
        (reserve 2 [some ⟨8, 1, [10, 20, 30]⟩] ⟨3, false, 0, []⟩ 20 10).vec
        (reserve 2 [some ⟨8, 1, [10, 20, 30]⟩] ⟨3, false, 0, []⟩ 20 10).fuel).vec = 3 ∧
    view
      (shrink_to_fit 2
        (reserve 2 [some ⟨8, 1, [10, 20, 30]⟩] ⟨3, false, 0, []⟩ 20 10).heap
        (reserve 2 [some ⟨8, 1, [10, 20, 30]⟩] ⟨3, false, 0, []⟩ 20 10).vec
        (reserve 2 [some ⟨8, 1, [10, 20, 30]⟩] ⟨3, false, 0, []⟩ 20 10).fuel).heap
      (shrink_to_fit 2
        (reserve 2 [some ⟨8, 1, [10, 20, 30]⟩] ⟨3, false, 0, []⟩ 20 10).heap
        (reserve 2 [some ⟨8, 1, [10, 20, 30]⟩] ⟨3, false, 0, []⟩ 20 10).vec
        (reserve 2 [some ⟨8, 1, [10, 20, 30]⟩] ⟨3, false, 0, []⟩ 20 10).fuel).vec
      = [10, 20, 30] := by
  obtain ⟨-, -, hcap, -, hview⟩ :=
    claim_C7_reserve_shrink_round_trip 2 [some ⟨8, 1, [10, 20, 30]⟩] ⟨3, false, 0, []⟩
      20 10 (by decide) (by decide)
  refine ⟨⟨by decide, by decide⟩, ?_, ?_⟩
  · rw [hcap]
    decide
  · rw [hview]
    decide

theorem pop_back_excl_eq (N : Nat) (h : Heap α) (v : socow_vector α) (fuel : Nat)
    (honly : is_only_vector_ref h v = true) :
    pop_back N h v fuel =
      (if v.is_small_vector_ then
        ⟨h, { v with size_ := v.size_ - 1, static_buffer := v.static_buffer.take (v.size_ - 1) }, fuel, .ok ()⟩
       else
        ⟨modifyBuf h v.dynamic_data
           (fun b => { b with data_ := b.data_.take (v.size_ - 1) }),
         { v with size_ := v.size_ - 1 }, fuel, .ok ()⟩) := by
  unfold pop_back
  rw [if_pos honly]

theorem pop_back_shared_eq (N : Nat) (h : Heap α) (v : socow_vector α) (fuel : Nat)
    (hv : Inv N h v) (hshared : is_only_vector_ref h v = false)
    (hfuel : v.size_ - 1 ≤ fuel) :
    pop_back N h v fuel =
      ⟨release_ref (hset (h ++ [some ⟨capacity N h v, 1, []⟩]) h.length
          (some ⟨capacity N h v, 1, (view h v).take (v.size_ - 1)⟩)) v.dynamic_data
          v.size_,
       { v with size_ := v.size_ - 1, dynamic_data := h.length },
       fuel - (v.size_ - 1), .ok ()⟩ := by
  have hsm := not_only_dyn h v hshared
  obtain ⟨b, hb, hbsz, hbcap, hbN, hbrefs⟩ := Inv_dyn N h v hv hsm
  have hbuflt : v.dynamic_data < h.length := lt_of_hget_some h _ b hb
  have hcapN : ¬ capacity N h v ≤ N := by
    rw [capacity_dyn_eq N h v b hsm hb]
    omega
  unfold pop_back
  rw [hshared]
  simp only [Bool.false_eq_true, if_false]
  rw [ctor_sized_ok_dyn N h v (v.size_ - 1) (capacity N h v) fuel hcapN hfuel]
  simp only []
  rw [swap_dyn_dyn _ _ _ _ hsm rfl (by show v.dynamic_data ≠ h.length; omega)]
  rw [show (destruct (hset (h ++ [some ⟨capacity N h v, 1, []⟩]) h.length
      (some ⟨capacity N h v, 1, (view h v).take (v.size_ - 1)⟩))
      { (⟨v.size_ - 1, false, h.length, []⟩ : socow_vector α) with size_ := v.size_, dynamic_data := v.dynamic_data }) = _ from destruct_dyn _ _ rfl]
  try first
  | rfl
  | (congr 1 <;> simp [hsm])

theorem pop_back_err (N : Nat) (h : Heap α) (v : socow_vector α) (fuel : Nat)
    (hv : Inv N h v) :
    (pop_back N h v fuel).out = .error () →
    ((pop_back N h v fuel).vec = v ∧
     (∀ i, i < h.length → hget (pop_back N h v fuel).heap i = hget h i) ∧
     hget (pop_back N h v fuel).heap h.length = none) := by
  unfold pop_back
  by_cases honly : is_only_vector_ref h v = true
  · rw [if_pos honly]
    cases hsm : v.is_small_vector_ with
    | true => intro hout; exact absurd hout (by simp)
    | false => intro hout; exact absurd hout (by simp)
  · have hshared : is_only_vector_ref h v = false := by
      cases hx : is_only_vector_ref h v
      · rfl
      · exact absurd hx honly
    have hsm := not_only_dyn h v hshared
    obtain ⟨b, hb, hbsz, hbcap, hbN, hbrefs⟩ := Inv_dyn N h v hv hsm
    have hbuflt : v.dynamic_data < h.length := lt_of_hget_some h _ b hb
    have hcapN : ¬ capacity N h v ≤ N := by
      rw [capacity_dyn_eq N h v b hsm hb]
      omega
    rw [hshared]
    simp only [Bool.false_eq_true, if_false]
    unfold ctor_sized
    rw [if_neg hcapN]
    simp only [allocate_dynamic_buffer]
    by_cases hc : v.size_ - 1 ≤ fuel
    · simp only [uninitialized_copy_ok hc]
      rw [swap_dyn_dyn _ _ _ _ hsm rfl (by show v.dynamic_data ≠ h.length; omega)]
      intro hout
      exact absurd hout (by simp)
    · simp only [uninitialized_copy_err (show fuel < v.size_ - 1 by omega)]
      intro _
      refine ⟨by first | trivial | rfl, ?_, ?_⟩
      · intro i hi
        first
        | trivial
        | exact hget_pushSet h _ _ i hi
      · first
        | trivial
        | exact hget_pushSet_self h _ _

theorem unshare_only_eq (N : Nat) (h : Heap α) (v : socow_vector α) (fuel : Nat)
    (honly : is_only_vector_ref h v = true) :
    unshare N h v fuel = ⟨h, v, fuel, .ok ()⟩ := by
  unfold unshare
  rw [if_pos honly]

theorem unshare_shared_eq (N : Nat) (h : Heap α) (v : socow_vector α) (fuel : Nat)
    (hv : Inv N h v) (hshared : is_only_vector_ref h v = false)
    (hfuel : v.size_ ≤ fuel) :
    unshare N h v fuel =
      ⟨release_ref (hset (h ++ [some ⟨capacity N h v, 1, []⟩]) h.length
          (some ⟨capacity N h v, 1, (view h v).take v.size_⟩)) v.dynamic_data v.size_,
       { v with size_ := v.size_, dynamic_data := h.length },
       fuel - v.size_, .ok ()⟩ := by
  have hsm := not_only_dyn h v hshared
  obtain ⟨b, hb, hbsz, hbcap, hbN, hbrefs⟩ := Inv_dyn N h v hv hsm
  have hbuflt : v.dynamic_data < h.length := lt_of_hget_some h _ b hb
  have hcapN : ¬ capacity N h v ≤ N := by
    rw [capacity_dyn_eq N h v b hsm hb]
    omega
  unfold unshare
  rw [hshared]
  simp only [Bool.false_eq_true, if_false]
  rw [ctor_sized_ok_dyn N h v v.size_ (capacity N h v) fuel hcapN hfuel]
  simp only []
  rw [swap_dyn_dyn _ _ _ _ hsm rfl (by show v.dynamic_data ≠ h.length; omega)]
  rw [show (destruct (hset (h ++ [some ⟨capacity N h v, 1, []⟩]) h.length
      (some ⟨capacity N h v, 1, (view h v).take v.size_⟩))
      { (⟨v.size_, false, h.length, []⟩ : socow_vector α) with size_ := v.size_, dynamic_data := v.dynamic_data }) = _ from destruct_dyn _ _ rfl]
  try first
  | rfl
  | (congr 1 <;> simp [hsm])

theorem view_small_eq (h : Heap α) (v : socow_vector α)
    (hsm : v.is_small_vector_ = true) :
    view h v = v.static_buffer.take v.size_ := by
  unfold view
  rw [hsm]
  simp

theorem capacity_small_eq (N : Nat) (h : Heap α) (v : socow_vector α)
    (hsm : v.is_small_vector_ = true) : capacity N h v = N := by
  unfold capacity
  rw [hsm]
  simp

theorem swap_small_small_ok (h : Heap α) (a b : socow_vector α) (fuel : Nat)
    (hsa : a.is_small_vector_ = true)
    (hA : a.static_buffer.length = a.size_) (hB : b.static_buffer.length = b.size_)
    (hab : a.size_ ≤ b.size_) (hfuel : b.size_ - a.size_ ≤ fuel) :
    swap_small_small h a b fuel =
      ⟨h, { a with size_ := b.size_, static_buffer := view h b },
          { b with size_ := a.size_, static_buffer := view h a },
          fuel - (b.size_ - a.size_), .ok ()⟩ := by
  unfold swap_small_small
  simp only [uninitialized_copy_ok hfuel]
  have hlt : (a.static_buffer.take a.size_).length = a.size_ := by
    rw [List.length_take]
    omega
  have h1 : (view h b).take a.size_ ++
      (a.static_buffer.take a.size_ ++ (view h b).drop a.size_).drop a.size_ =
      view h b := by
    rw [show (a.static_buffer.take a.size_ ++ (view h b).drop a.size_).drop a.size_ =
        (view h b).drop a.size_ from by
      rw [show (a.static_buffer.take a.size_ ++ (view h b).drop a.size_).drop a.size_ =
          (a.static_buffer.take a.size_ ++ (view h b).drop a.size_).drop
            (a.static_buffer.take a.size_).length from by rw [hlt]]
      rw [List.drop_left]]
    exact List.take_append_drop a.size_ (view h b)
  have h2 : (a.static_buffer.take a.size_ ++ (view h b).drop a.size_).take a.size_ ++
      ((view h b).take a.size_).drop a.size_ = view h a := by
    rw [show (a.static_buffer.take a.size_ ++ (view h b).drop a.size_).take a.size_ =
        a.static_buffer.take a.size_ from by
      rw [show (a.static_buffer.take a.size_ ++ (view h b).drop a.size_).take a.size_ =
          (a.static_buffer.take a.size_ ++ (view h b).drop a.size_).take
            (a.static_buffer.take a.size_).length from by rw [hlt]]
      rw [List.take_left]]
    rw [List.drop_eq_nil_of_le (by rw [List.length_take]; omega)]
    rw [List.append_nil]
    rw [view_small_eq h a hsa]
  rw [h1, h2]

/-- C6: `swap(other)` never touches the heap; swapping two handles of the same dynamic
buffer is a no-op; otherwise (with enough copy budget) it succeeds and fully exchanges
the observable state — elements, size, capacity — of the two containers; when both are
Dynamic the exchange is a pure pointer-and-size swap consuming no copy budget at all;
and whenever an element copy throws, both containers are left exactly as they were. -/
theorem claim_C6_swap_exchange (N : Nat) (h : Heap α) (a b : socow_vector α) (fuel : Nat)
    (hva : Inv N h a) (hvb : Inv N h b) (hfuel : a.size_ + b.size_ ≤ fuel) :
    (∀ fl : Nat, (swap h a b fl).heap = h) ∧
    (is_same_vector a b = true → swap h a b fuel = ⟨h, a, b, fuel, .ok ()⟩) ∧
    (is_same_vector a b = false →
      (swap h a b fuel).out = .ok () ∧
      view h (swap h a b fuel).fst = view h b ∧
      view h (swap h a b fuel).snd = view h a ∧
      (swap h a b fuel).fst.size_ = b.size_ ∧
      (swap h a b fuel).snd.size_ = a.size_ ∧
      capacity N h (swap h a b fuel).fst = capacity N h b ∧
      capacity N h (swap h a b fuel).snd = capacity N h a) ∧
    (a.is_small_vector_ = false → b.is_small_vector_ = false →
      a.dynamic_data ≠ b.dynamic_data →
      (swap h a b fuel).fst = { a with size_ := b.size_, dynamic_data := b.dynamic_data } ∧
      (swap h a b fuel).snd = { b with size_ := a.size_, dynamic_data := a.dynamic_data } ∧
      (swap h a b fuel).fuel = fuel) ∧
    (∀ fl : Nat, (swap h a b fl).out = .error () →
      (swap h a b fl).fst = a ∧ (swap h a b fl).snd = b) := by
  have hheap : ∀ fl : Nat, (swap h a b fl).heap = h := by
    intro fl
    unfold swap
    by_cases hs : is_same_vector a b = true
    · rw [if_pos hs]
    · rw [if_neg hs]
      by_cases hsm : (a.is_small_vector_ && b.is_small_vector_) = true
      · rw [if_pos hsm]
        by_cases hlt : b.size_ < a.size_
        · rw [if_pos hlt]
          show (swap_small_small h b a fl).heap = h
          unfold swap_small_small
          cases uninitialized_copy (a.size_ - b.size_) fl <;> rfl
        · rw [if_neg hlt]
          unfold swap_small_small
          cases uninitialized_copy (b.size_ - a.size_) fl <;> rfl
      · rw [if_neg hsm]
        by_cases hbs : b.is_small_vector_ = true
        · rw [if_pos hbs]
          unfold swap_dynamic_small
          cases uninitialized_copy b.size_ fl <;> rfl
        · rw [if_neg hbs]
          by_cases has : a.is_small_vector_ = true
          · rw [if_pos has]
            show (swap_dynamic_small h b a fl).heap = h
            unfold swap_dynamic_small
            cases uninitialized_copy a.size_ fl <;> rfl
          · rw [if_neg has]
  have herr : ∀ fl : Nat, (swap h a b fl).out = .error () →
      (swap h a b fl).fst = a ∧ (swap h a b fl).snd = b := by
    intro fl
    unfold swap
    by_cases hs : is_same_vector a b = true
    · rw [if_pos hs]
      intro hout
      exact absurd hout (by simp)
    · rw [if_neg hs]
      by_cases hsm : (a.is_small_vector_ && b.is_small_vector_) = true
      · rw [if_pos hsm]
        by_cases hlt : b.size_ < a.size_
        · rw [if_pos hlt]
          unfold swap_small_small
          by_cases hc : a.size_ - b.size_ ≤ fl
          · simp only [uninitialized_copy_ok hc]
            intro hout
            exact absurd hout (by simp)
          · simp only [uninitialized_copy_err (show fl < a.size_ - b.size_ by omega)]
            intro _
            exact ⟨by trivial, by trivial⟩
        · rw [if_neg hlt]
          unfold swap_small_small
          by_cases hc : b.size_ - a.size_ ≤ fl
          · simp only [uninitialized_copy_ok hc]
            intro hout
            exact absurd hout (by simp)
          · simp only [uninitialized_copy_err (show fl < b.size_ - a.size_ by omega)]
            intro _
            exact ⟨by trivial, by trivial⟩
      · rw [if_neg hsm]
        by_cases hbs : b.is_small_vector_ = true
        · rw [if_pos hbs]
          unfold swap_dynamic_small
          by_cases hc : b.size_ ≤ fl
          · simp only [uninitialized_copy_ok hc]
            intro hout
            exact absurd hout (by simp)
          · simp only [uninitialized_copy_err (show fl < b.size_ by omega)]
            intro _
            exact ⟨by trivial, by trivial⟩
        · rw [if_neg hbs]
          by_cases has : a.is_small_vector_ = true
          · rw [if_pos has]
            unfold swap_dynamic_small
            by_cases hc : a.size_ ≤ fl
            · simp only [uninitialized_copy_ok hc]
              intro hout
              exact absurd hout (by simp)
            · simp only [uninitialized_copy_err (show fl < a.size_ by omega)]
              intro _
              exact ⟨by trivial, by trivial⟩
          · rw [if_neg has]
            intro hout
            exact absurd hout (by simp)
  refine ⟨hheap, ?_, ?_, ?_, herr⟩
  · intro hs
    unfold swap
    rw [if_pos hs]
  · intro hs
    have hta : (view h a).take a.size_ = view h a := by
      rw [show a.size_ = (view h a).length from (view_length N h a hva).symm,
        List.take_length]
    have htb : (view h b).take b.size_ = view h b := by
      rw [show b.size_ = (view h b).length from (view_length N h b hvb).symm,
        List.take_length]
    cases hsma : a.is_small_vector_ with
    | true =>
      obtain ⟨hsa, hla⟩ := Inv_small N h a hva hsma
      cases hsmb : b.is_small_vector_ with
      | true =>
        obtain ⟨hsb, hlb⟩ := Inv_small N h b hvb hsmb
        by_cases hlt : b.size_ < a.size_
        · have heq : swap h a b fuel =
              ⟨h, { a with size_ := b.size_, static_buffer := view h b },
                  { b with size_ := a.size_, static_buffer := view h a },
                  fuel - (a.size_ - b.size_), .ok ()⟩ := by
            unfold swap
            rw [if_neg (by simp [hs]), hsma, hsmb,
              if_pos (show (true && true) = true from rfl), if_pos hlt]
            rw [swap_small_small_ok h b a fuel hsmb hlb hla (by omega) (by omega)]
            simp only [hsma, hsmb]
          rw [heq]
          refine ⟨by first | trivial | rfl, ?_, ?_, by first | trivial | rfl, by first | trivial | rfl, ?_, ?_⟩
          · show view h { a with size_ := b.size_, static_buffer := view h b } = view h b
            rw [view_small_eq h { a with size_ := b.size_, static_buffer := view h b } hsma]
            exact htb
          · show view h { b with size_ := a.size_, static_buffer := view h a } = view h a
            rw [view_small_eq h { b with size_ := a.size_, static_buffer := view h a } hsmb]
            exact hta
          · show capacity N h { a with size_ := b.size_, static_buffer := view h b } =
              capacity N h b
            rw [capacity_small_eq N h
                { a with size_ := b.size_, static_buffer := view h b } hsma,
              capacity_small_eq N h b hsmb]
          · show capacity N h { b with size_ := a.size_, static_buffer := view h a } =
              capacity N h a
            rw [capacity_small_eq N h
                { b with size_ := a.size_, static_buffer := view h a } hsmb,
              capacity_small_eq N h a hsma]
        · have heq : swap h a b fuel =
              ⟨h, { a with size_ := b.size_, static_buffer := view h b },
                  { b with size_ := a.size_, static_buffer := view h a },
                  fuel - (b.size_ - a.size_), .ok ()⟩ := by
            unfold swap
            rw [if_neg (by simp [hs]), hsma, hsmb,
              if_pos (show (true && true) = true from rfl), if_neg hlt]
            rw [swap_small_small_ok h a b fuel hsma hla hlb (by omega) (by omega)]
            simp only [hsma, hsmb]
          rw [heq]
          refine ⟨by first | trivial | rfl, ?_, ?_, by first | trivial | rfl, by first | trivial | rfl, ?_, ?_⟩
          · show view h { a with size_ := b.size_, static_buffer := view h b } = view h b
            rw [view_small_eq h { a with size_ := b.size_, static_buffer := view h b } hsma]
            exact htb
          · show view h { b with size_ := a.size_, static_buffer := view h a } = view h a
            rw [view_small_eq h { b with size_ := a.size_, static_buffer := view h a } hsmb]
            exact hta
          · show capacity N h { a with size_ := b.size_, static_buffer := view h b } =
              capacity N h b
            rw [capacity_small_eq N h
                { a with size_ := b.size_, static_buffer := view h b } hsma,
              capacity_small_eq N h b hsmb]
          · show capacity N h { b with size_ := a.size_, static_buffer := view h a } =
              capacity N h a
            rw [capacity_small_eq N h
                { b with size_ := a.size_, static_buffer := view h a } hsmb,
              capacity_small_eq N h a hsma]
      | false =>
        rw [swap_small_dyn h a b fuel hsma hsmb (by omega)]
        refine ⟨by first | trivial | rfl, ?_, ?_, by first | trivial | rfl, by first | trivial | rfl, ?_, ?_⟩
        · show (bufAt h b.dynamic_data).data_.take b.size_ = view h b
          unfold view
          rw [hsmb]
          simp
        · show ((view h a).take a.size_).take a.size_ = view h a
          rw [hta, hta]
        · show (bufAt h b.dynamic_data).capacity_ = capacity N h b
          unfold capacity
          rw [hsmb]
          simp
        · show N = capacity N h a
          rw [capacity_small_eq N h a hsma]
    | false =>
      cases hsmb : b.is_small_vector_ with
      | true =>
        rw [swap_dyn_small h a b fuel hsma hsmb (by omega)]
        refine ⟨by first | trivial | rfl, ?_, ?_, by first | trivial | rfl, by first | trivial | rfl, ?_, ?_⟩
        · show ((view h b).take b.size_).take b.size_ = view h b
          rw [htb, htb]
        · show (bufAt h a.dynamic_data).data_.take a.size_ = view h a
          unfold view
          rw [hsma]
          simp
        · show N = capacity N h b
          rw [capacity_small_eq N h b hsmb]
        · show (bufAt h a.dynamic_data).capacity_ = capacity N h a
          unfold capacity
          rw [hsma]
          simp
      | false =>
        have hne : a.dynamic_data ≠ b.dynamic_data := by
          unfold is_same_vector at hs
          rw [hsma, hsmb] at hs
          simpa using hs
        rw [swap_dyn_dyn h a b fuel hsma hsmb hne]
        refine ⟨by first | trivial | rfl, ?_, ?_, by first | trivial | rfl, by first | trivial | rfl, ?_, ?_⟩
        · show view h { a with size_ := b.size_, dynamic_data := b.dynamic_data } = view h b
          unfold view
          simp [hsma, hsmb]
        · show view h { b with size_ := a.size_, dynamic_data := a.dynamic_data } = view h a
          unfold view
          simp [hsma, hsmb]
        · show capacity N h { a with size_ := b.size_, dynamic_data := b.dynamic_data } =
            capacity N h b
          unfold capacity
          simp [hsma, hsmb]
        · show capacity N h { b with size_ := a.size_, dynamic_data := a.dynamic_data } =
            capacity N h a
          unfold capacity
          simp [hsma, hsmb]
  · intro ha hb hne
    rw [swap_dyn_dyn h a b fuel ha hb hne]
    exact ⟨rfl, rfl, rfl⟩

/-- Witness for C6: a Dynamic `[5, 6]` (capacity 4) swapped with an inline `[9]`, `N = 1`:
heap untouched, elements and sizes exchange; with fuel 0 the forced element copy throws
and both containers are left unchanged. -/
theorem claim_C6_swap_exchange_witness :
    (Inv 1 [some ⟨4, 1, [5, 6]⟩] (⟨2, false, 0, []⟩ : socow_vector Nat) ∧
     Inv 1 [some ⟨4, 1, [5, 6]⟩] (⟨1, true, 0, [9]⟩ : socow_vector Nat) ∧
     2 + 1 ≤ 10) ∧
    (swap [some ⟨4, 1, [5, 6]⟩] (⟨2, false, 0, []⟩ : socow_vector Nat)
      ⟨1, true, 0, [9]⟩ 10).heap = [some ⟨4, 1, [5, 6]⟩] ∧
    view [some ⟨4, 1, [5, 6]⟩]
      (swap [some ⟨4, 1, [5, 6]⟩] (⟨2, false, 0, []⟩ : socow_vector Nat)
        ⟨1, true, 0, [9]⟩ 10).fst = [9] ∧
    view [some ⟨4, 1, [5, 6]⟩]
      (swap [some ⟨4, 1, [5, 6]⟩] (⟨2, false, 0, []⟩ : socow_vector Nat)
        ⟨1, true, 0, [9]⟩ 10).snd = [5, 6] ∧
    (swap [some ⟨4, 1, [5, 6]⟩] (⟨2, false, 0, []⟩ : socow_vector Nat)
      ⟨1, true, 0, [9]⟩ 0).out = .error () ∧
    (swap [some ⟨4, 1, [5, 6]⟩] (⟨2, false, 0, []⟩ : socow_vector Nat)
      ⟨1, true, 0, [9]⟩ 0).fst = ⟨2, false, 0, []⟩ := by
  obtain ⟨hheap, -, hex, -, herr⟩ :=
    claim_C6_swap_exchange 1 [some ⟨4, 1, [5, 6]⟩] (⟨2, false, 0, []⟩ : socow_vector Nat)
      ⟨1, true, 0, [9]⟩ 10 (by decide) (by decide) (by decide)
  obtain ⟨-, hv1, hv2, -, -, -, -⟩ := hex (by decide)
  refine ⟨⟨by decide, by decide, by decide⟩, hheap 10, ?_, ?_, by decide, ?_⟩
  · rw [hv1]
    decide
  · rw [hv2]
    decide
  · exact (herr 0 (by decide)).1

theorem view_size_zero (h : Heap α) (v : socow_vector α) (hsz : v.size_ = 0) :
    view h v = [] := by
  unfold view
  rw [hsz]
  cases v.is_small_vector_ <;> simp

theorem add_vector_ref_dyn (h : Heap α) (w : socow_vector α)
    (hsm : w.is_small_vector_ = false) :
    add_vector_ref h w =
      modifyBuf h w.dynamic_data (fun b => { b with refs_count := b.refs_count + 1 }) := by
  simp [add_vector_ref, hsm]

theorem clear_excl_small_eq (N : Nat) (h : Heap α) (v : socow_vector α) (fuel : Nat)
    (honly : is_only_vector_ref h v = true) (hsm : v.is_small_vector_ = true) :
    clear N h v fuel = ⟨h, { v with size_ := 0, static_buffer := [] }, fuel, .ok ()⟩ := by
  unfold clear
  rw [honly]
  simp [is_only_vector_ref, noexcept_clear, hsm]

theorem clear_excl_dyn_eq (N : Nat) (h : Heap α) (v : socow_vector α) (fuel : Nat)
    (hv : Inv N h v) (honly : is_only_vector_ref h v = true)
    (hsm : v.is_small_vector_ = false) :
    clear N h v fuel =
      ⟨modifyBuf (modifyBuf h v.dynamic_data (fun b => { b with data_ := [] }))
          v.dynamic_data (fun b => { b with data_ := [] }),
       { v with size_ := 0 }, fuel, .ok ()⟩ := by
  obtain ⟨b, hb, hbsz, hbcap, hbN, hbrefs⟩ := Inv_dyn N h v hv hsm
  have hrefs1 : b.refs_count = 1 := by
    rw [is_only_dyn h v b hsm hb] at honly
    simpa using honly
  have honly₁ : is_only_vector_ref
      (modifyBuf h v.dynamic_data (fun b => { b with data_ := [] }))
      (⟨0, false, v.dynamic_data, v.static_buffer⟩ : socow_vector α) = true := by
    rw [is_only_dyn _ _ ({ b with data_ := [] }) rfl
      (by rw [show (⟨0, false, v.dynamic_data, v.static_buffer⟩ :
            socow_vector α).dynamic_data = v.dynamic_data from rfl,
          hget_modifyBuf_self, hb]; rfl)]
    simp [hrefs1]
  unfold clear
  rw [honly]
  simp only [Bool.not_true, Bool.false_eq_true, if_false]
  simp only [hsm, Bool.false_eq_true, if_false]
  rw [honly₁]
  rw [noexcept_clear_excl_dyn _
    (⟨0, false, v.dynamic_data, v.static_buffer⟩ : socow_vector α) rfl honly₁]
  simp only [Bool.not_true, Bool.false_eq_true, if_false]
  try first
  | rfl
  | (congr 1 <;> simp [hsm])

theorem clear_shared_small_eq (N : Nat) (h : Heap α) (v : socow_vector α) (fuel : Nat)
    (hv : Inv N h v) (hshared : is_only_vector_ref h v = false) (hN : v.size_ ≤ N) :
    clear N h v fuel =
      ⟨release_ref h v.dynamic_data v.size_, ⟨0, true, 0, []⟩, fuel, .ok ()⟩ := by
  have hsm := not_only_dyn h v hshared
  unfold clear
  rw [hshared]
  simp only [Bool.not_false, if_true]
  rw [reserve_noop_else N h (mkEmpty α) v.size_ fuel
    (by show ¬ v.size_ < 0; omega)
    (by simp [is_only_vector_ref, mkEmpty])
    (by simp [is_only_vector_ref, mkEmpty, capacity]; omega)]
  simp only []
  rw [swap_dyn_small h v (mkEmpty α) fuel hsm rfl (Nat.zero_le fuel)]
  simp only []
  rw [show destruct h (⟨v.size_, false, v.dynamic_data, []⟩ : socow_vector α) =
    release_ref h v.dynamic_data v.size_ from destruct_dyn _ _ rfl]
  try first
  | rfl
  | (congr 1 <;> simp [mkEmpty])

theorem clear_shared_big_eq (N : Nat) (h : Heap α) (v : socow_vector α) (fuel : Nat)
    (hv : Inv N h v) (hshared : is_only_vector_ref h v = false) (hN : N < v.size_) :
    clear N h v fuel =
      ⟨release_ref (release_ref (add_vector_ref (hset (h ++ [some ⟨v.size_, 1, []⟩])
            h.length (some ⟨v.size_, 1, []⟩))
            (⟨0, false, h.length, []⟩ : socow_vector α)) h.length 0)
          v.dynamic_data v.size_,
       { v with size_ := 0, dynamic_data := h.length }, fuel, .ok ()⟩ := by
  have hsm := not_only_dyn h v hshared
  obtain ⟨b, hb, hbsz, hbcap, hbN, hbrefs⟩ := Inv_dyn N h v hv hsm
  have hbuflt : v.dynamic_data < h.length := lt_of_hget_some h _ b hb
  unfold clear
  rw [hshared]
  simp only [Bool.not_false, if_true]
  rw [reserve_small_grow_eq N h (mkEmpty α) v.size_ fuel rfl
    (by show ¬ v.size_ < 0; omega)
    (by simp [is_only_vector_ref, mkEmpty, capacity]; omega)
    (by omega) (Nat.zero_le fuel)]
  simp only []
  rw [swap_dyn_dyn _ v _ _ hsm rfl (by show v.dynamic_data ≠ h.length; omega)]
  simp [destruct, mkEmpty, hsm]

/-- C5 (amended): `clear()` always succeeds and never copies an element. On an
exclusively owned container it destroys the elements in place: size becomes 0 and the
storage mode and `capacity()` are retained. On a shared container the old buffer keeps
its elements and merely loses one reference (the data stays fully visible through every
other owner), and the container ends exclusively owning fresh empty storage — but that
fresh storage is a dynamic buffer of capacity `size()` (not the old `capacity()`) when
`size() > N`, and the Inline buffer (capacity `N`) when `size() ≤ N`. -/
theorem claim_C5_clear_detach (N : Nat) (h : Heap α) (v : socow_vector α) (fuel : Nat)
    (hv : Inv N h v) :
    (clear N h v fuel).out = .ok () ∧
    (clear N h v fuel).fuel = fuel ∧
    (clear N h v fuel).vec.size_ = 0 ∧
    view (clear N h v fuel).heap (clear N h v fuel).vec = [] ∧
    (is_only_vector_ref h v = true →
      (clear N h v fuel).vec.is_small_vector_ = v.is_small_vector_ ∧
      capacity N (clear N h v fuel).heap (clear N h v fuel).vec = capacity N h v) ∧
    (is_only_vector_ref h v = false →
      hget (clear N h v fuel).heap v.dynamic_data =
        some { bufAt h v.dynamic_data with
               refs_count := (bufAt h v.dynamic_data).refs_count - 1 } ∧
      is_only_vector_ref (clear N h v fuel).heap (clear N h v fuel).vec = true ∧
      capacity N (clear N h v fuel).heap (clear N h v fuel).vec =
        (if N < v.size_ then v.size_ else N) ∧
      (clear N h v fuel).vec.is_small_vector_ = decide (v.size_ ≤ N)) := by
  by_cases honly : is_only_vector_ref h v = true
  · cases hsm : v.is_small_vector_ with
    | true =>
      rw [clear_excl_small_eq N h v fuel honly hsm]
      refine ⟨by first | trivial | rfl, by first | trivial | rfl,
        by first | trivial | rfl, ?_, ?_, ?_⟩
      · exact view_size_zero h _ rfl
      · intro _
        refine ⟨by first | trivial | rfl, ?_⟩
        rw [capacity_small_eq N h ({ v with size_ := 0, static_buffer := ([] : List α) }) hsm,
          capacity_small_eq N h v hsm]
      · intro hf
        rw [honly] at hf
        exact absurd hf (by simp)
    | false =>
      obtain ⟨b, hb, hbsz, hbcap, hbN, hbrefs⟩ := Inv_dyn N h v hv hsm
      have hget₂ : hget (modifyBuf (modifyBuf h v.dynamic_data
          (fun b => { b with data_ := [] })) v.dynamic_data
          (fun b => { b with data_ := [] })) v.dynamic_data =
          some { b with data_ := [] } := by
        rw [hget_modifyBuf_self, hget_modifyBuf_self, hb]
        rfl
      rw [clear_excl_dyn_eq N h v fuel hv honly hsm]
      refine ⟨by first | trivial | rfl, by first | trivial | rfl,
        by first | trivial | rfl, ?_, ?_, ?_⟩
      · exact view_size_zero _ _ rfl
      · intro _
        refine ⟨by first | trivial | rfl, ?_⟩
        rw [capacity_dyn_eq N _ ({ v with size_ := 0 }) ({ b with data_ := [] }) hsm hget₂]
        rw [capacity_dyn_eq N h v b hsm hb]
      · intro hf
        rw [honly] at hf
        exact absurd hf (by simp)
  · have hshared : is_only_vector_ref h v = false := by
      cases hx : is_only_vector_ref h v
      · rfl
      · exact absurd hx honly
    have hsm := not_only_dyn h v hshared
    obtain ⟨b, hb, hbsz, hbcap, hbN, hbrefs⟩ := Inv_dyn N h v hv hsm
    have hbuflt : v.dynamic_data < h.length := lt_of_hget_some h _ b hb
    have hrefs2 : 2 ≤ b.refs_count := by
      rw [is_only_dyn h v b hsm hb] at hshared
      have hne1 : b.refs_count ≠ 1 := by simpa using hshared
      omega
    have hbufAt : bufAt h v.dynamic_data = b := by simp [bufAt, hb]
    by_cases hbig : N < v.size_
    · have hH₀self : hget (hset (h ++ [some ⟨v.size_, 1, []⟩]) h.length
          (some ⟨v.size_, 1, []⟩)) h.length = some ⟨v.size_, 1, []⟩ := by
        apply hget_hset_self
        rw [List.length_append]
        simp
      have hH₀v : hget (hset (h ++ [some ⟨v.size_, 1, []⟩]) h.length
          (some ⟨v.size_, 1, []⟩)) v.dynamic_data = hget h v.dynamic_data := by
        rw [hget_hset_ne _ _ _ _ (by omega), hget_append_lt _ _ _ hbuflt]
      have hH₁self : hget (add_vector_ref (hset (h ++ [some ⟨v.size_, 1, []⟩]) h.length
          (some ⟨v.size_, 1, []⟩)) (⟨0, false, h.length, []⟩ : socow_vector α)) h.length =
          some ⟨v.size_, 2, []⟩ := by
        rw [add_vector_ref_dyn _ _ rfl]
        rw [show (⟨0, false, h.length, []⟩ : socow_vector α).dynamic_data = h.length from rfl]
        rw [hget_modifyBuf_self, hH₀self]
        rfl
      have hH₁v : hget (add_vector_ref (hset (h ++ [some ⟨v.size_, 1, []⟩]) h.length
          (some ⟨v.size_, 1, []⟩)) (⟨0, false, h.length, []⟩ : socow_vector α))
          v.dynamic_data = hget h v.dynamic_data := by
        rw [add_vector_ref_dyn _ _ rfl]
        rw [show (⟨0, false, h.length, []⟩ : socow_vector α).dynamic_data = h.length from rfl]
        rw [hget_modifyBuf_ne _ _ _ _ (by omega), hH₀v]
      have hH₂self : hget (release_ref (add_vector_ref (hset (h ++ [some ⟨v.size_, 1, []⟩])
          h.length (some ⟨v.size_, 1, []⟩)) (⟨0, false, h.length, []⟩ : socow_vector α))
          h.length 0) h.length = some ⟨v.size_, 1, []⟩ := by
        rw [hget_release_ref_self _ _ _ _ hH₁self (Nat.le_refl 2)]
        rfl
      have hH₂v : hget (release_ref (add_vector_ref (hset (h ++ [some ⟨v.size_, 1, []⟩])
          h.length (some ⟨v.size_, 1, []⟩)) (⟨0, false, h.length, []⟩ : socow_vector α))
          h.length 0) v.dynamic_data = hget h v.dynamic_data := by
        rw [hget_release_ref_ne _ _ _ _ (by omega), hH₁v]
      have hH₃self : hget (release_ref (release_ref (add_vector_ref
          (hset (h ++ [some ⟨v.size_, 1, []⟩]) h.length (some ⟨v.size_, 1, []⟩))
          (⟨0, false, h.length, []⟩ : socow_vector α)) h.length 0)
          v.dynamic_data v.size_) v.dynamic_data =
          some { b with refs_count := b.refs_count - 1 } := by
        rw [hget_release_ref_self _ _ _ b (by rw [hH₂v, hb]) hrefs2]
      have hH₃new : hget (release_ref (release_ref (add_vector_ref
          (hset (h ++ [some ⟨v.size_, 1, []⟩]) h.length (some ⟨v.size_, 1, []⟩))
          (⟨0, false, h.length, []⟩ : socow_vector α)) h.length 0)
          v.dynamic_data v.size_) h.length = some ⟨v.size_, 1, []⟩ := by
        rw [hget_release_ref_ne _ _ _ _ (by omega), hH₂self]
      rw [clear_shared_big_eq N h v fuel hv hshared hbig]
      refine ⟨by first | trivial | rfl, by first | trivial | rfl,
        by first | trivial | rfl, ?_, ?_, ?_⟩
      · exact view_size_zero _ _ rfl
      · intro hf
        rw [hshared] at hf
        exact absurd hf (by simp)
      · intro _
        refine ⟨?_, ?_, ?_, ?_⟩
        · rw [hbufAt]
          exact hH₃self
        · rw [is_only_dyn _ _ (⟨v.size_, 1, []⟩ : dynamic_buffer α)
            (show ({ v with size_ := 0, dynamic_data := h.length } :
              socow_vector α).is_small_vector_ = false from hsm) hH₃new]
          rfl
        · rw [capacity_dyn_eq N _ ({ v with size_ := 0, dynamic_data := h.length })
            (⟨v.size_, 1, []⟩ : dynamic_buffer α) hsm hH₃new]
          rw [if_pos hbig]
        · rw [show ({ v with size_ := 0, dynamic_data := h.length } :
            socow_vector α).is_small_vector_ = false from hsm]
          rw [decide_eq_false (by omega)]
    · rw [clear_shared_small_eq N h v fuel hv hshared (by omega)]
      refine ⟨by first | trivial | rfl, by first | trivial | rfl,
        by first | trivial | rfl, ?_, ?_, ?_⟩
      · exact view_size_zero _ _ rfl
      · intro hf
        rw [hshared] at hf
        exact absurd hf (by simp)
      · intro _
        refine ⟨?_, ?_, ?_, ?_⟩
        · rw [hbufAt]
          rw [hget_release_ref_self _ _ _ b hb hrefs2]
        · rfl
        · rw [if_neg hbig]
          rfl
        · rw [decide_eq_true (show v.size_ ≤ N by omega)]

/-- Counterexample to C5 as written: `N = 1`, one dynamic buffer of capacity 8 holding
`[10, 20, 30]` shared by two owners (`refs_count = 2`), a container of size 3 bound to
it. `clear()` leaves the container in Dynamic mode — so it did not fall back to Inline
with capacity `N` — with capacity 3, which is the old size, not the old capacity 8. -/
theorem claim_C5_clear_counterexample :
    is_only_vector_ref [some ⟨8, 2, [10, 20, 30]⟩]
      (⟨3, false, 0, []⟩ : socow_vector Nat) = false ∧
    capacity 1 [some ⟨8, 2, [10, 20, 30]⟩] (⟨3, false, 0, []⟩ : socow_vector Nat) = 8 ∧
    (clear 1 [some ⟨8, 2, [10, 20, 30]⟩] ⟨3, false, 0, []⟩ 5).out = .ok () ∧
    (clear 1 [some ⟨8, 2, [10, 20, 30]⟩] ⟨3, false, 0, []⟩ 5).vec.is_small_vector_ =
      false ∧
    capacity 1 (clear 1 [some ⟨8, 2, [10, 20, 30]⟩] ⟨3, false, 0, []⟩ 5).heap
      (clear 1 [some ⟨8, 2, [10, 20, 30]⟩] ⟨3, false, 0, []⟩ 5).vec = 3 :=
  ⟨by decide, by decide, by decide, by decide, by decide⟩

/-- Witness for the amended C5 at the counterexample state: `clear` succeeds, the
container empties into a fresh exclusively-owned buffer of capacity 3 (= old size), and
the old shared buffer still holds `[10, 20, 30]` with one reference fewer. -/
theorem claim_C5_clear_detach_witness :
    Inv 1 [some ⟨8, 2, [10, 20, 30]⟩] (⟨3, false, 0, []⟩ : socow_vector Nat) ∧
    (clear 1 [some ⟨8, 2, [10, 20, 30]⟩] ⟨3, false, 0, []⟩ 5).out = .ok () ∧
    (clear 1 [some ⟨8, 2, [10, 20, 30]⟩] ⟨3, false, 0, []⟩ 5).vec.size_ = 0 ∧
    hget (clear 1 [some ⟨8, 2, [10, 20, 30]⟩] ⟨3, false, 0, []⟩ 5).heap 0 =
      some ⟨8, 1, [10, 20, 30]⟩ ∧
    is_only_vector_ref (clear 1 [some ⟨8, 2, [10, 20, 30]⟩] ⟨3, false, 0, []⟩ 5).heap
      (clear 1 [some ⟨8, 2, [10, 20, 30]⟩] ⟨3, false, 0, []⟩ 5).vec = true ∧
    capacity 1 (clear 1 [some ⟨8, 2, [10, 20, 30]⟩] ⟨3, false, 0, []⟩ 5).heap
      (clear 1 [some ⟨8, 2, [10, 20, 30]⟩] ⟨3, false, 0, []⟩ 5).vec = 3 := by
  obtain ⟨hout, -, hsz, -, -, hsh⟩ :=
    claim_C5_clear_detach 1 [some ⟨8, 2, [10, 20, 30]⟩]
      (⟨3, false, 0, []⟩ : socow_vector Nat) 5 (by decide)
  obtain ⟨hbuf, hon, hcap, -⟩ := hsh (by decide)
  refine ⟨by decide, hout, hsz, ?_, hon, ?_⟩
  · rw [hbuf]
    decide
  · rw [hcap]
    decide

theorem Inv_small_intro (N : Nat) (h : Heap α) (v : socow_vector α)
    (hsm : v.is_small_vector_ = true) (hsz : v.size_ ≤ N)
    (hlen : v.static_buffer.length = v.size_) : Inv N h v := by
  unfold Inv
  rw [hsm]
  simp [hsz, hlen]

theorem Inv_dyn_intro (N : Nat) (h : Heap α) (v : socow_vector α) (b : dynamic_buffer α)
    (hsm : v.is_small_vector_ = false) (hb : hget h v.dynamic_data = some b)
    (hsz : v.size_ = b.data_.length) (hcap : b.data_.length ≤ b.capacity_)
    (hN : N < b.capacity_) (hr : 1 ≤ b.refs_count) : Inv N h v := by
  unfold Inv
  rw [hsm]
  simp only [Bool.false_eq_true, if_false, hb]
  exact ⟨hsz, hcap, hN, hr⟩

theorem Inv_cap_dyn (N : Nat) (h : Heap α) (v : socow_vector α) (hv : Inv N h v)
    (hsm : v.is_small_vector_ = false) : N < capacity N h v := by
  obtain ⟨b, hb, -, -, hbN, -⟩ := Inv_dyn N h v hv hsm
  rw [capacity_dyn_eq N h v b hsm hb]
  exact hbN

theorem size_le_capacity (N : Nat) (h : Heap α) (v : socow_vector α) (hv : Inv N h v) :
    v.size_ ≤ capacity N h v := by
  cases hsm : v.is_small_vector_ with
  | true =>
    obtain ⟨hsa, -⟩ := Inv_small N h v hv hsm
    rw [capacity_small_eq N h v hsm]
    exact hsa
  | false =>
    obtain ⟨b, hb, hbsz, hbcap, -, -⟩ := Inv_dyn N h v hv hsm
    rw [capacity_dyn_eq N h v b hsm hb]
    omega

theorem capacity_ge_N (N : Nat) (h : Heap α) (v : socow_vector α) (hv : Inv N h v) :
    N ≤ capacity N h v := by
  cases hsm : v.is_small_vector_ with
  | true => rw [capacity_small_eq N h v hsm]
  | false =>
    have := Inv_cap_dyn N h v hv hsm
    omega

theorem Inv_insert (N : Nat) (h : Heap α) (v : socow_vector α) (pos : Nat) (x : α)
    (fuel : Nat) (hv : Inv N h v) (hN : 1 ≤ N) (hpos : pos ≤ v.size_)
    (hfuel : v.size_ + 1 ≤ fuel) :
    Inv N (insert N h v pos x fuel).heap (insert N h v pos x fuel).vec := by
  have hlenv := view_length N h v hv
  have hrot : ((view h v ++ [x]).take pos ++ bubble_down ((view h v ++ [x]).drop pos))
      = (view h v).take pos ++ x :: (view h v).drop pos :=
    rotate_insert (view h v) x pos (by omega)
  have hrlen : ((view h v).take pos ++ x :: (view h v).drop pos).length = v.size_ + 1 := by
    rw [List.length_append, List.length_take, List.length_cons, List.length_drop]
    omega
  by_cases hcond : (v.size_ != capacity N h v && is_only_vector_ref h v) = true
  · have hne : v.size_ ≠ capacity N h v := by
      rcases Bool.and_eq_true_iff.mp hcond with ⟨hx, -⟩
      simpa using hx
    unfold insert
    rw [if_pos hcond]
    simp only [uninitialized_copy_ok (show 1 ≤ fuel by omega)]
    cases hsm : v.is_small_vector_ with
    | true =>
      obtain ⟨hsa, hla⟩ := Inv_small N h v hv hsm
      have hcapN : capacity N h v = N := capacity_small_eq N h v hsm
      rw [if_pos rfl]
      refine Inv_small_intro N h _ rfl (by show v.size_ + 1 ≤ N; omega) ?_
      show ((view h v ++ [x]).take pos ++ bubble_down ((view h v ++ [x]).drop pos)).length
        = v.size_ + 1
      rw [hrot]
      exact hrlen
    | false =>
      obtain ⟨b, hb, hbsz, hbcap, hbN, hbrefs⟩ := Inv_dyn N h v hv hsm
      have hcapb := capacity_dyn_eq N h v b hsm hb
      rw [if_neg (by simp)]
      have hb' : hget (modifyBuf h v.dynamic_data (fun bb => { bb with data_ := (view h v ++ [x]).take pos ++ bubble_down ((view h v ++ [x]).drop pos) }))
          v.dynamic_data = some { b with data_ := (view h v).take pos ++ x :: (view h v).drop pos } := by
        rw [hget_modifyBuf_self, hb, hrot]
        rfl
      exact Inv_dyn_intro N _ _ _ rfl hb' (by show v.size_ + 1 = _; rw [hrlen])
        (by show ((view h v).take pos ++ x :: (view h v).drop pos).length ≤ b.capacity_
            rw [hrlen]
            omega)
        hbN hbrefs
  · have hcond' : (v.size_ != capacity N h v && is_only_vector_ref h v) = false := by
      cases hx : (v.size_ != capacity N h v && is_only_vector_ref h v)
      · rfl
      · exact absurd hx hcond
    obtain ⟨hout, hsz, hsmf, hdyn, hfl, hbuf, -⟩ :=
      insert_slow_ok N h v pos x fuel hv hcond' hpos hfuel
    have hszcap : v.size_ ≤ capacity N h v := size_le_capacity N h v hv
    have hcapN : N ≤ capacity N h v := capacity_ge_N N h v hv
    have hsmall_full : v.is_small_vector_ = true → v.size_ = capacity N h v := by
      intro hx
      have honly : is_only_vector_ref h v = true := by simp [is_only_vector_ref, hx]
      rw [honly, Bool.and_true] at hcond'
      simpa using hcond'
    have hdyncap : v.is_small_vector_ = false → N < capacity N h v := fun hx =>
      Inv_cap_dyn N h v hv hx
    refine Inv_dyn_intro N _ _
      (⟨(if v.size_ == capacity N h v then 2 * capacity N h v else capacity N h v), 1,
        (view h v).take pos ++ x :: (view h v).drop pos⟩) hsmf
      (by rw [hdyn]; exact hbuf) (by rw [hsz]; show v.size_ + 1 = _; rw [hrlen]) ?_ ?_
      (Nat.le_refl 1)
    · show ((view h v).take pos ++ x :: (view h v).drop pos).length ≤
        (if v.size_ == capacity N h v then 2 * capacity N h v else capacity N h v)
      rw [hrlen]
      by_cases heq : v.size_ = capacity N h v
      · rw [show (v.size_ == capacity N h v) = true from by simp [heq], if_pos rfl]
        omega
      · rw [show (v.size_ == capacity N h v) = false from by simp [heq],
          if_neg (by simp)]
        omega
    · show N < (if v.size_ == capacity N h v then 2 * capacity N h v else capacity N h v)
      by_cases heq : v.size_ = capacity N h v
      · rw [show (v.size_ == capacity N h v) = true from by simp [heq], if_pos rfl]
        omega
      · rw [show (v.size_ == capacity N h v) = false from by simp [heq],
          if_neg (by simp)]
        cases hsm : v.is_small_vector_ with
        | true => exact absurd (hsmall_full hsm) heq
        | false => exact hdyncap hsm

theorem Inv_insert_err (N : Nat) (h : Heap α) (v : socow_vector α) (pos : Nat) (x : α)
    (fuel : Nat) (hv : Inv N h v)
    (hout : (insert N h v pos x fuel).out = .error ()) :
    (insert N h v pos x fuel).vec = v ∧
    Inv N (insert N h v pos x fuel).heap (insert N h v pos x fuel).vec := by
  obtain ⟨hvec, hkeep, -⟩ := insert_err N h v pos x fuel hout
  refine ⟨hvec, ?_⟩
  rw [hvec]
  refine Inv_congr N h _ v ?_ hv
  intro hsm
  obtain ⟨b, hb, -, -, -, -⟩ := Inv_dyn N h v hv hsm
  exact hkeep _ (lt_of_hget_some h _ b hb)

theorem Inv_erase (N : Nat) (h : Heap α) (v : socow_vector α) (first last fuel : Nat)
    (hv : Inv N h v) (hfl : first ≤ last) (hls : last ≤ v.size_)
    (hfuel : v.size_ - (last - first) ≤ fuel) :
    Inv N (erase N h v first last fuel).heap (erase N h v first last fuel).vec := by
  have hlenv := view_length N h v hv
  have hshlen : (if ((last - first : Nat) != 0) = true then
      shift_loop (view h v) (last - first) first (view h v).length
      else view h v).length = v.size_ := by
    by_cases hz : last - first = 0
    · simp only [hz, bne_self_eq_false, Bool.false_eq_true, if_false]
      exact hlenv
    · rw [if_pos (by simp [hz])]
      obtain ⟨hlen, -, -⟩ := shift_loop_spec (view h v).length (view h v) (last - first)
        first (by omega) (by omega)
      rw [hlen, hlenv]
  have hnewlen : ((if ((last - first : Nat) != 0) = true then
      shift_loop (view h v) (last - first) first (view h v).length
      else view h v).take (v.size_ - (last - first))).length
      = v.size_ - (last - first) := by
    rw [List.length_take, hshlen]
    omega
  by_cases honly : is_only_vector_ref h v = true
  · unfold erase
    rw [if_pos honly]
    simp only []
    cases hsm : v.is_small_vector_ with
    | true =>
      obtain ⟨hsa, -⟩ := Inv_small N h v hv hsm
      rw [if_pos rfl]
      exact Inv_small_intro N h _ rfl
        (by show v.size_ - (last - first) ≤ N; omega) hnewlen
    | false =>
      obtain ⟨b, hb, hbsz, hbcap, hbN, hbrefs⟩ := Inv_dyn N h v hv hsm
      rw [if_neg (by simp)]
      refine Inv_dyn_intro N _ _ ({ b with data_ := (if ((last - first : Nat) != 0) = true then shift_loop (view h v) (last - first) first (view h v).length else view h v).take (v.size_ - (last - first)) }) rfl
        (by rw [hget_modifyBuf_self, hb]; rfl)
        (by show v.size_ - (last - first) = _; rw [hnewlen]) ?_ hbN hbrefs
      show ((if ((last - first : Nat) != 0) = true
          then shift_loop (view h v) (last - first) first (view h v).length
          else view h v).take (v.size_ - (last - first))).length ≤ b.capacity_
      rw [hnewlen]
      omega
  · have hshared : is_only_vector_ref h v = false := by
      cases hx : is_only_vector_ref h v
      · rfl
      · exact absurd hx honly
    have hsm := not_only_dyn h v hshared
    obtain ⟨b, hb, hbsz, hbcap, hbN, hbrefs⟩ := Inv_dyn N h v hv hsm
    obtain ⟨hout, hsz, hsmf, hdyn, hbuf, -, -⟩ :=
      erase_shared_ok N h v first last fuel hv hshared hfl hls hfuel
    have hclen : ((view h v).take first ++ (view h v).drop last).length
        = v.size_ - (last - first) := by
      rw [List.length_append, List.length_take, List.length_drop]
      omega
    refine Inv_dyn_intro N _ _
      (⟨capacity N h v, 1, (view h v).take first ++ (view h v).drop last⟩) hsmf
      (by rw [hdyn]; exact hbuf) (by rw [hsz]; rw [hclen]) ?_ ?_ (Nat.le_refl 1)
    · show ((view h v).take first ++ (view h v).drop last).length ≤ capacity N h v
      rw [hclen, capacity_dyn_eq N h v b hsm hb]
      omega
    · show N < capacity N h v
      exact Inv_cap_dyn N h v hv hsm

theorem Inv_erase_err (N : Nat) (h : Heap α) (v : socow_vector α) (first last fuel : Nat)
    (hv : Inv N h v) (hout : (erase N h v first last fuel).out = .error ()) :
    (erase N h v first last fuel).vec = v ∧
    Inv N (erase N h v first last fuel).heap (erase N h v first last fuel).vec := by
  obtain ⟨hvec, hkeep, -⟩ := erase_err N h v first last fuel hv hout
  refine ⟨hvec, ?_⟩
  rw [hvec]
  refine Inv_congr N h _ v ?_ hv
  intro hsm
  obtain ⟨b, hb, -, -, -, -⟩ := Inv_dyn N h v hv hsm
  exact hkeep _ (lt_of_hget_some h _ b hb)

theorem Inv_pop_back (N : Nat) (h : Heap α) (v : socow_vector α) (fuel : Nat)
    (hv : Inv N h v) (hfuel : v.size_ - 1 ≤ fuel) :
    Inv N (pop_back N h v fuel).heap (pop_back N h v fuel).vec := by
  have hlenv := view_length N h v hv
  by_cases honly : is_only_vector_ref h v = true
  · rw [pop_back_excl_eq N h v fuel honly]
    cases hsm : v.is_small_vector_ with
    | true =>
      obtain ⟨hsa, hla⟩ := Inv_small N h v hv hsm
      rw [if_pos rfl]
      refine Inv_small_intro N h _ rfl (by show v.size_ - 1 ≤ N; omega) ?_
      show (v.static_buffer.take (v.size_ - 1)).length = v.size_ - 1
      rw [List.length_take]
      omega
    | false =>
      obtain ⟨b, hb, hbsz, hbcap, hbN, hbrefs⟩ := Inv_dyn N h v hv hsm
      rw [if_neg (by simp)]
      refine Inv_dyn_intro N _ _ ({ b with data_ := b.data_.take (v.size_ - 1) }) rfl
        (by rw [hget_modifyBuf_self, hb]; rfl) ?_ ?_ hbN hbrefs
      · show v.size_ - 1 = (b.data_.take (v.size_ - 1)).length
        rw [List.length_take]
        omega
      · show (b.data_.take (v.size_ - 1)).length ≤ b.capacity_
        rw [List.length_take]
        omega
  · have hshared : is_only_vector_ref h v = false := by
      cases hx : is_only_vector_ref h v
      · rfl
      · exact absurd hx honly
    have hsm := not_only_dyn h v hshared
    obtain ⟨b, hb, hbsz, hbcap, hbN, hbrefs⟩ := Inv_dyn N h v hv hsm
    have hbuflt : v.dynamic_data < h.length := lt_of_hget_some h _ b hb
    rw [pop_back_shared_eq N h v fuel hv hshared hfuel]
    have hcapb := capacity_dyn_eq N h v b hsm hb
    have hbnew : hget (release_ref (hset (h ++ [some ⟨capacity N h v, 1, []⟩]) h.length
        (some ⟨capacity N h v, 1, (view h v).take (v.size_ - 1)⟩)) v.dynamic_data
        v.size_) h.length =
        some ⟨capacity N h v, 1, (view h v).take (v.size_ - 1)⟩ := by
      rw [hget_release_ref_ne _ _ _ _ (by omega)]
      apply hget_hset_self
      rw [List.length_append]
      simp
    refine Inv_dyn_intro N _ _
      (⟨capacity N h v, 1, (view h v).take (v.size_ - 1)⟩) hsm hbnew ?_ ?_ ?_
      (Nat.le_refl 1)
    · show v.size_ - 1 = ((view h v).take (v.size_ - 1)).length
      rw [List.length_take]
      omega
    · show ((view h v).take (v.size_ - 1)).length ≤ capacity N h v
      rw [List.length_take]
      omega
    · show N < capacity N h v
      omega

theorem Inv_pop_back_err (N : Nat) (h : Heap α) (v : socow_vector α) (fuel : Nat)
    (hv : Inv N h v) (hout : (pop_back N h v fuel).out = .error ()) :
    (pop_back N h v fuel).vec = v ∧
    Inv N (pop_back N h v fuel).heap (pop_back N h v fuel).vec := by
  obtain ⟨hvec, hkeep, -⟩ := pop_back_err N h v fuel hv hout
  refine ⟨hvec, ?_⟩
  rw [hvec]
  refine Inv_congr N h _ v ?_ hv
  intro hsm
  obtain ⟨b, hb, -, -, -, -⟩ := Inv_dyn N h v hv hsm
  exact hkeep _ (lt_of_hget_some h _ b hb)

theorem Inv_clear (N : Nat) (h : Heap α) (v : socow_vector α) (fuel : Nat)
    (hv : Inv N h v) : Inv N (clear N h v fuel).heap (clear N h v fuel).vec := by
  by_cases honly : is_only_vector_ref h v = true
  · cases hsm : v.is_small_vector_ with
    | true =>
      rw [clear_excl_small_eq N h v fuel honly hsm]
      exact Inv_small_intro N h _ hsm (Nat.zero_le N) rfl
    | false =>
      obtain ⟨b, hb, hbsz, hbcap, hbN, hbrefs⟩ := Inv_dyn N h v hv hsm
      rw [clear_excl_dyn_eq N h v fuel hv honly hsm]
      refine Inv_dyn_intro N _ _ ({ b with data_ := [] }) hsm ?_ rfl (Nat.zero_le _)
        hbN hbrefs
      rw [hget_modifyBuf_self, hget_modifyBuf_self, hb]
      rfl
  · have hshared : is_only_vector_ref h v = false := by
      cases hx : is_only_vector_ref h v
      · rfl
      · exact absurd hx honly
    have hsm := not_only_dyn h v hshared
    obtain ⟨b, hb, hbsz, hbcap, hbN, hbrefs⟩ := Inv_dyn N h v hv hsm
    have hbuflt : v.dynamic_data < h.length := lt_of_hget_some h _ b hb
    by_cases hbig : N < v.size_
    · have hH₀self : hget (hset (h ++ [some ⟨v.size_, 1, []⟩]) h.length
          (some ⟨v.size_, 1, []⟩)) h.length = some ⟨v.size_, 1, []⟩ := by
        apply hget_hset_self
        rw [List.length_append]
        simp
      have hH₁self : hget (add_vector_ref (hset (h ++ [some ⟨v.size_, 1, []⟩]) h.length
          (some ⟨v.size_, 1, []⟩)) (⟨0, false, h.length, []⟩ : socow_vector α)) h.length =
          some ⟨v.size_, 2, []⟩ := by
        rw [add_vector_ref_dyn _ _ rfl]
        rw [show (⟨0, false, h.length, []⟩ : socow_vector α).dynamic_data = h.length from rfl]
        rw [hget_modifyBuf_self, hH₀self]
        rfl
      have hH₂self : hget (release_ref (add_vector_ref (hset (h ++ [some ⟨v.size_, 1, []⟩])
          h.length (some ⟨v.size_, 1, []⟩)) (⟨0, false, h.length, []⟩ : socow_vector α))
          h.length 0) h.length = some ⟨v.size_, 1, []⟩ := by
        rw [hget_release_ref_self _ _ _ _ hH₁self (Nat.le_refl 2)]
        rfl
      have hH₃new : hget (release_ref (release_ref (add_vector_ref
          (hset (h ++ [some ⟨v.size_, 1, []⟩]) h.length (some ⟨v.size_, 1, []⟩))
          (⟨0, false, h.length, []⟩ : socow_vector α)) h.length 0)
          v.dynamic_data v.size_) h.length = some ⟨v.size_, 1, []⟩ := by
        rw [hget_release_ref_ne _ _ _ _ (by omega), hH₂self]
      rw [clear_shared_big_eq N h v fuel hv hshared hbig]
      exact Inv_dyn_intro N _ _ (⟨v.size_, 1, []⟩) hsm hH₃new rfl (Nat.zero_le _) hbig
        (Nat.le_refl 1)
    · rw [clear_shared_small_eq N h v fuel hv hshared (by omega)]
      exact Inv_small_intro N _ _ rfl (Nat.zero_le N) rfl

theorem Inv_swap (N : Nat) (h : Heap α) (a b : socow_vector α) (fuel : Nat)
    (hva : Inv N h a) (hvb : Inv N h b) (hfuel : a.size_ + b.size_ ≤ fuel) :
    Inv N (swap h a b fuel).heap (swap h a b fuel).fst ∧
    Inv N (swap h a b fuel).heap (swap h a b fuel).snd := by
  have hlena := view_length N h a hva
  have hlenb := view_length N h b hvb
  by_cases hs : is_same_vector a b = true
  · have heq : swap h a b fuel = ⟨h, a, b, fuel, .ok ()⟩ := by
      unfold swap
      rw [if_pos hs]
    rw [heq]
    exact ⟨hva, hvb⟩
  · have hs' : is_same_vector a b = false := by
      cases hx : is_same_vector a b
      · rfl
      · exact absurd hx hs
    cases hsma : a.is_small_vector_ with
    | true =>
      obtain ⟨hsa, hla⟩ := Inv_small N h a hva hsma
      cases hsmb : b.is_small_vector_ with
      | true =>
        obtain ⟨hsb, hlb⟩ := Inv_small N h b hvb hsmb
        by_cases hlt : b.size_ < a.size_
        · have heq : swap h a b fuel =
              ⟨h, { a with size_ := b.size_, static_buffer := view h b },
                  { b with size_ := a.size_, static_buffer := view h a },
                  fuel - (a.size_ - b.size_), .ok ()⟩ := by
            unfold swap
            rw [if_neg (by simp [hs']), hsma, hsmb,
              if_pos (show (true && true) = true from rfl), if_pos hlt]
            rw [swap_small_small_ok h b a fuel hsmb hlb hla (by omega) (by omega)]
            simp only [hsma, hsmb]
          rw [heq]
          exact ⟨Inv_small_intro N h _ hsma hsb (by show (view h b).length = b.size_; omega),
            Inv_small_intro N h _ hsmb hsa (by show (view h a).length = a.size_; omega)⟩
        · have heq : swap h a b fuel =
              ⟨h, { a with size_ := b.size_, static_buffer := view h b },
                  { b with size_ := a.size_, static_buffer := view h a },
                  fuel - (b.size_ - a.size_), .ok ()⟩ := by
            unfold swap
            rw [if_neg (by simp [hs']), hsma, hsmb,
              if_pos (show (true && true) = true from rfl), if_neg hlt]
            rw [swap_small_small_ok h a b fuel hsma hla hlb (by omega) (by omega)]
            simp only [hsma, hsmb]
          rw [heq]
          exact ⟨Inv_small_intro N h _ hsma hsb (by show (view h b).length = b.size_; omega),
            Inv_small_intro N h _ hsmb hsa (by show (view h a).length = a.size_; omega)⟩
      | false =>
        obtain ⟨bb, hbb, hbsz, hbcap, hbN, hbrefs⟩ := Inv_dyn N h b hvb hsmb
        rw [swap_small_dyn h a b fuel hsma hsmb (by omega)]
        constructor
        · exact Inv_dyn_intro N h _ bb rfl hbb hbsz hbcap hbN hbrefs
        · refine Inv_small_intro N h _ rfl hsa ?_
          show ((view h a).take a.size_).length = a.size_
          rw [List.length_take]
          omega
    | false =>
      obtain ⟨ba, hba, hasz, hacap, haN, harefs⟩ := Inv_dyn N h a hva hsma
      cases hsmb : b.is_small_vector_ with
      | true =>
        obtain ⟨hsb, hlb⟩ := Inv_small N h b hvb hsmb
        rw [swap_dyn_small h a b fuel hsma hsmb (by omega)]
        constructor
        · refine Inv_small_intro N h _ rfl hsb ?_
          show ((view h b).take b.size_).length = b.size_
          rw [List.length_take]
          omega
        · exact Inv_dyn_intro N h _ ba rfl hba hasz hacap haN harefs
      | false =>
        obtain ⟨bb, hbb, hbsz, hbcap, hbN, hbrefs⟩ := Inv_dyn N h b hvb hsmb
        have hne : a.dynamic_data ≠ b.dynamic_data := by
          unfold is_same_vector at hs'
          rw [hsma, hsmb] at hs'
          simpa using hs'
        rw [swap_dyn_dyn h a b fuel hsma hsmb hne]
        exact ⟨Inv_dyn_intro N h _ bb hsma hbb hbsz hbcap hbN hbrefs,
          Inv_dyn_intro N h _ ba hsmb hba hasz hacap haN harefs⟩

theorem Inv_assign (N : Nat) (h : Heap α) (a b : socow_vector α) (fuel : Nat)
    (hva : Inv N h a) (hvb : Inv N h b) (hfuel : b.size_ ≤ fuel) :
    Inv N (assign N h a b fuel).heap (assign N h a b fuel).vec := by
  have hlena := view_length N h a hva
  have hlenb := view_length N h b hvb
  by_cases hs : is_same_vector a b = true
  · unfold assign
    rw [if_pos hs]
    exact hva
  · have hs' : is_same_vector a b = false := by
      cases hx : is_same_vector a b
      · rfl
      · exact absurd hx hs
    unfold assign
    rw [if_neg (by simp [hs'])]
    cases hsma : a.is_small_vector_ with
    | true =>
      obtain ⟨hsa, hla⟩ := Inv_small N h a hva hsma
      cases hsmb : b.is_small_vector_ with
      | true =>
        obtain ⟨hsb, hlb⟩ := Inv_small N h b hvb hsmb
        rw [if_pos (show (true && true) = true from rfl)]
        simp only [uninitialized_copy_ok (show min a.size_ b.size_ ≤ fuel by omega),
          uninitialized_copy_ok (show b.size_ - min a.size_ b.size_ ≤
            fuel - min a.size_ b.size_ by omega)]
        refine Inv_small_intro N h _ rfl hsb ?_
        show ((view h b).take (min a.size_ b.size_) ++
            ((a.static_buffer.take a.size_ ++
              (view h b).drop (min a.size_ b.size_)).take b.size_).drop
              (min a.size_ b.size_)).length = b.size_
        simp only [List.length_append, List.length_take, List.length_drop]
        omega
      | false =>
        rw [if_neg (by simp), if_neg (by simp)]
        rw [if_pos rfl]
        obtain ⟨bb, hbb, hbsz, hbcap, hbN, hbrefs⟩ := Inv_dyn N h b hvb hsmb
        have hbb' : hget (add_vector_ref h
            (⟨b.size_, false, b.dynamic_data, []⟩ : socow_vector α)) b.dynamic_data =
            some { bb with refs_count := bb.refs_count + 1 } := by
          rw [add_vector_ref_dyn _ _ rfl]
          rw [show (⟨b.size_, false, b.dynamic_data, []⟩ :
            socow_vector α).dynamic_data = b.dynamic_data from rfl]
          rw [hget_modifyBuf_self, hbb]
          rfl
        exact Inv_dyn_intro N _ _ ({ bb with refs_count := bb.refs_count + 1 }) rfl hbb'
          hbsz hbcap hbN (by show 1 ≤ bb.refs_count + 1; omega)
    | false =>
      obtain ⟨ba, hba, hasz, hacap, haN, harefs⟩ := Inv_dyn N h a hva hsma
      cases hsmb : b.is_small_vector_ with
      | true =>
        obtain ⟨hsb, hlb⟩ := Inv_small N h b hvb hsmb
        rw [if_neg (by simp), if_pos rfl]
        simp only [from_dynamic_to_static, uninitialized_copy_ok hfuel]
        refine Inv_small_intro N _ _ rfl hsb ?_
        show ((view h b).take b.size_).length = b.size_
        rw [List.length_take]
        omega
      | false =>
        have hne : a.dynamic_data ≠ b.dynamic_data := by
          unfold is_same_vector at hs'
          rw [hsma, hsmb] at hs'
          simpa using hs'
        rw [if_neg (by simp), if_neg (by simp)]
        rw [if_neg (by simp)]
        obtain ⟨bb, hbb, hbsz, hbcap, hbN, hbrefs⟩ := Inv_dyn N h b hvb hsmb
        have hrel : release_vector_ref h a = release_ref h a.dynamic_data a.size_ := by
          unfold release_vector_ref
          rw [hsma]
          simp
        have hbb' : hget (add_vector_ref (release_vector_ref h a)
            (⟨b.size_, false, b.dynamic_data, []⟩ : socow_vector α)) b.dynamic_data =
            some { bb with refs_count := bb.refs_count + 1 } := by
          rw [hrel, add_vector_ref_dyn _ _ rfl]
          rw [show (⟨b.size_, false, b.dynamic_data, []⟩ :
            socow_vector α).dynamic_data = b.dynamic_data from rfl]
          rw [hget_modifyBuf_self]
          rw [hget_release_ref_ne _ _ _ _ hne, hbb]
          rfl
        exact Inv_dyn_intro N _ _ ({ bb with refs_count := bb.refs_count + 1 }) rfl hbb'
          hbsz hbcap hbN (by show 1 ≤ bb.refs_count + 1; omega)

theorem Inv_copy_ctor (N : Nat) (h : Heap α) (v : socow_vector α) (fuel : Nat)
    (hv : Inv N h v) (hfuel : v.size_ ≤ fuel) :
    ∀ w, (copy_ctor h v fuel).2.2 = .ok w → Inv N (copy_ctor h v fuel).1 w := by
  intro w hw
  have hlenv := view_length N h v hv
  cases hsm : v.is_small_vector_ with
  | true =>
    obtain ⟨hsa, hla⟩ := Inv_small N h v hv hsm
    have heq : copy_ctor h v fuel =
        (h, fuel - v.size_, .ok ⟨v.size_, true, 0, (view h v).take v.size_⟩) := by
      unfold copy_ctor
      rw [if_pos hsm]
      simp only [uninitialized_copy_ok hfuel]
    rw [heq] at hw ⊢
    obtain rfl : w = ⟨v.size_, true, 0, (view h v).take v.size_⟩ := (Except.ok.inj hw).symm
    refine Inv_small_intro N h _ rfl hsa ?_
    show ((view h v).take v.size_).length = v.size_
    rw [List.length_take]
    omega
  | false =>
    obtain ⟨b, hb, hbsz, hbcap, hbN, hbrefs⟩ := Inv_dyn N h v hv hsm
    have heq : copy_ctor h v fuel =
        (add_vector_ref h v, fuel, .ok ⟨v.size_, false, v.dynamic_data, []⟩) := by
      unfold copy_ctor
      rw [if_neg (by rw [hsm]; simp)]
    rw [heq] at hw ⊢
    obtain rfl : w = ⟨v.size_, false, v.dynamic_data, []⟩ := (Except.ok.inj hw).symm
    have hbb' : hget (add_vector_ref h v) v.dynamic_data =
        some { b with refs_count := b.refs_count + 1 } := by
      rw [add_vector_ref_dyn _ _ hsm]
      rw [hget_modifyBuf_self, hb]
      rfl
    exact Inv_dyn_intro N _ _ ({ b with refs_count := b.refs_count + 1 }) rfl hbb'
      hbsz hbcap hbN (by show 1 ≤ b.refs_count + 1; omega)

theorem Inv_unshare (N : Nat) (h : Heap α) (v : socow_vector α) (fuel : Nat)
    (hv : Inv N h v) (hfuel : v.size_ ≤ fuel) :
    Inv N (unshare N h v fuel).heap (unshare N h v fuel).vec := by
  have hlenv := view_length N h v hv
  by_cases honly : is_only_vector_ref h v = true
  · rw [unshare_only_eq N h v fuel honly]
    exact hv
  · have hshared : is_only_vector_ref h v = false := by
      cases hx : is_only_vector_ref h v
      · rfl
      · exact absurd hx honly
    have hsm := not_only_dyn h v hshared
    obtain ⟨b, hb, hbsz, hbcap, hbN, hbrefs⟩ := Inv_dyn N h v hv hsm
    have hbuflt : v.dynamic_data < h.length := lt_of_hget_some h _ b hb
    rw [unshare_shared_eq N h v fuel hv hshared hfuel]
    have hnew : hget (release_ref (hset (h ++ [some ⟨capacity N h v, 1, []⟩]) h.length
        (some ⟨capacity N h v, 1, (view h v).take v.size_⟩)) v.dynamic_data v.size_)
        h.length = some ⟨capacity N h v, 1, (view h v).take v.size_⟩ := by
      rw [hget_release_ref_ne _ _ _ _ (by omega)]
      apply hget_hset_self
      rw [List.length_append]
      simp
    refine Inv_dyn_intro N _ _
      (⟨capacity N h v, 1, (view h v).take v.size_⟩) hsm hnew ?_ ?_ ?_ (Nat.le_refl 1)
    · show v.size_ = ((view h v).take v.size_).length
      rw [List.length_take]
      omega
    · show ((view h v).take v.size_).length ≤ capacity N h v
      rw [List.length_take]
      have := size_le_capacity N h v hv
      omega
    · show N < capacity N h v
      exact Inv_cap_dyn N h v hv hsm

/-- C3: size/capacity invariant. Every state satisfying the representation invariant has
`size() ≤ capacity()` and `capacity() ≥ N`, and every public operation — `insert`,
`push_back`, `erase`, `reserve`, `shrink_to_fit`, `clear`, `pop_back`, `data()`, `swap`,
copy assignment and copy construction — re-establishes the invariant (given the copy
budget its documented complexity needs).  `1 ≤ N` excludes the degenerate
`SMALL_SIZE = 0` instantiation, where growing out of the full zero-capacity inline
buffer would allocate a `2 * 0`-capacity block and overflow it in the C++ as well. -/
theorem claim_C3_size_capacity_invariant (N : Nat) (h : Heap α) (v : socow_vector α)
    (hv : Inv N h v) (hN : 1 ≤ N) :
    (size v ≤ capacity N h v ∧ N ≤ capacity N h v) ∧
    (∀ pos x fuel, pos ≤ v.size_ → v.size_ + 1 ≤ fuel →
      Inv N (insert N h v pos x fuel).heap (insert N h v pos x fuel).vec) ∧
    (∀ x fuel, v.size_ + 1 ≤ fuel →
      Inv N (push_back N h v x fuel).heap (push_back N h v x fuel).vec) ∧
    (∀ first last fuel, first ≤ last → last ≤ v.size_ →
      v.size_ - (last - first) ≤ fuel →
      Inv N (erase N h v first last fuel).heap (erase N h v first last fuel).vec) ∧
    (∀ k fuel, v.size_ ≤ fuel →
      Inv N (reserve N h v k fuel).heap (reserve N h v k fuel).vec) ∧
    (∀ fuel, v.size_ ≤ fuel →
      Inv N (shrink_to_fit N h v fuel).heap (shrink_to_fit N h v fuel).vec) ∧
    (∀ fuel, Inv N (clear N h v fuel).heap (clear N h v fuel).vec) ∧
    (∀ fuel, v.size_ - 1 ≤ fuel →
      Inv N (pop_back N h v fuel).heap (pop_back N h v fuel).vec) ∧
    (∀ fuel, v.size_ ≤ fuel →
      Inv N (data N h v fuel).heap (data N h v fuel).vec) ∧
    (∀ b fuel, Inv N h b → v.size_ + b.size_ ≤ fuel →
      Inv N (swap h v b fuel).heap (swap h v b fuel).fst ∧
      Inv N (swap h v b fuel).heap (swap h v b fuel).snd) ∧
    (∀ b fuel, Inv N h b → b.size_ ≤ fuel →
      Inv N (assign N h v b fuel).heap (assign N h v b fuel).vec) ∧
    (∀ fuel w, (copy_ctor h v fuel).2.2 = .ok w → v.size_ ≤ fuel →
      Inv N (copy_ctor h v fuel).1 w) := by
  refine ⟨⟨size_le_capacity N h v hv, capacity_ge_N N h v hv⟩,
    ?_, ?_, ?_, ?_, ?_, ?_, ?_, ?_, ?_, ?_, ?_⟩
  · intro pos x fuel hpos hfuel
    exact Inv_insert N h v pos x fuel hv hN hpos hfuel
  · intro x fuel hfuel
    show Inv N (insert N h v v.size_ x fuel).heap (insert N h v v.size_ x fuel).vec
    exact Inv_insert N h v v.size_ x fuel hv hN (Nat.le_refl _) hfuel
  · intro first last fuel hfl hls hfuel
    exact Inv_erase N h v first last fuel hv hfl hls hfuel
  · intro k fuel hfuel
    exact (reserve_ok N h v k fuel hv hfuel).2.2.2.1
  · intro fuel hfuel
    exact (shrink_ok N h v fuel hv hfuel).2.2.2.1
  · intro fuel
    exact Inv_clear N h v fuel hv
  · intro fuel hfuel
    exact Inv_pop_back N h v fuel hv hfuel
  · intro fuel hfuel
    show Inv N (unshare N h v fuel).heap (unshare N h v fuel).vec
    exact Inv_unshare N h v fuel hv hfuel
  · intro b fuel hvb hfuel
    exact Inv_swap N h v b fuel hv hvb hfuel
  · intro b fuel hvb hfuel
    exact Inv_assign N h v b fuel hv hvb hfuel
  · intro fuel w hw hfuel
    exact Inv_copy_ctor N h v fuel hv hfuel w hw

/-- Witness for C3 at a concrete state: `N = 2`, inline `[7]`; the invariant holds and
is preserved by `push_back` and `clear`. -/
theorem claim_C3_size_capacity_invariant_witness :
    (Inv 2 ([] : Heap Nat) ⟨1, true, 0, [7]⟩ ∧ (1 : Nat) ≤ 2) ∧
    size (⟨1, true, 0, [7]⟩ : socow_vector Nat) ≤
      capacity 2 ([] : Heap Nat) ⟨1, true, 0, [7]⟩ ∧
    Inv 2 (push_back 2 ([] : Heap Nat) ⟨1, true, 0, [7]⟩ 9 5).heap
      (push_back 2 ([] : Heap Nat) ⟨1, true, 0, [7]⟩ 9 5).vec ∧
    Inv 2 (clear 2 ([] : Heap Nat) ⟨1, true, 0, [7]⟩ 0).heap
      (clear 2 ([] : Heap Nat) ⟨1, true, 0, [7]⟩ 0).vec := by
  obtain ⟨⟨hsz, -⟩, -, hpush, -, -, -, hclear, -⟩ :=
    claim_C3_size_capacity_invariant 2 ([] : Heap Nat) ⟨1, true, 0, [7]⟩
      (by decide) (by decide)
  exact ⟨⟨by decide, by decide⟩, hsz, hpush 9 5 (by decide), hclear 0⟩

/-- C9 (implicit): strict capacity invariant for Dynamic mode. Under the representation
invariant a Dynamic container always has `capacity() > N`; the sized copy constructor
with a target capacity `≤ N` produces an Inline container (so no dynamic buffer of
capacity `≤ N` is ever created); and after each mutating operation a container that
ends up Dynamic again has `capacity() > N`. -/
theorem claim_C9_dynamic_capacity_strict (N : Nat) (h : Heap α) (v : socow_vector α)
    (hv : Inv N h v) (hN : 1 ≤ N) :
    (v.is_small_vector_ = false → N < capacity N h v) ∧
    (∀ s k fuel, k ≤ N → s ≤ fuel →
      ctor_sized N h v s k fuel = (h, fuel - s, .ok ⟨s, true, 0, (view h v).take s⟩)) ∧
    (∀ pos x fuel, pos ≤ v.size_ → v.size_ + 1 ≤ fuel →
      (insert N h v pos x fuel).vec.is_small_vector_ = false →
      N < capacity N (insert N h v pos x fuel).heap (insert N h v pos x fuel).vec) ∧
    (∀ first last fuel, first ≤ last → last ≤ v.size_ →
      v.size_ - (last - first) ≤ fuel →
      (erase N h v first last fuel).vec.is_small_vector_ = false →
      N < capacity N (erase N h v first last fuel).heap
        (erase N h v first last fuel).vec) ∧
    (∀ k fuel, v.size_ ≤ fuel →
      (reserve N h v k fuel).vec.is_small_vector_ = false →
      N < capacity N (reserve N h v k fuel).heap (reserve N h v k fuel).vec) ∧
    (∀ fuel, v.size_ ≤ fuel →
      (shrink_to_fit N h v fuel).vec.is_small_vector_ = false →
      N < capacity N (shrink_to_fit N h v fuel).heap (shrink_to_fit N h v fuel).vec) ∧
    (∀ fuel, (clear N h v fuel).vec.is_small_vector_ = false →
      N < capacity N (clear N h v fuel).heap (clear N h v fuel).vec) ∧
    (∀ fuel, v.size_ - 1 ≤ fuel →
      (pop_back N h v fuel).vec.is_small_vector_ = false →
      N < capacity N (pop_back N h v fuel).heap (pop_back N h v fuel).vec) := by
  refine ⟨Inv_cap_dyn N h v hv, ?_, ?_, ?_, ?_, ?_, ?_, ?_⟩
  · intro s k fuel hk hf
    exact ctor_sized_ok_small N h v s k fuel hk hf
  · intro pos x fuel h1 h2
    exact Inv_cap_dyn N _ _ (Inv_insert N h v pos x fuel hv hN h1 h2)
  · intro first last fuel h1 h2 h3
    exact Inv_cap_dyn N _ _ (Inv_erase N h v first last fuel hv h1 h2 h3)
  · intro k fuel hf
    exact Inv_cap_dyn N _ _ ((reserve_ok N h v k fuel hv hf).2.2.2.1)
  · intro fuel hf
    exact Inv_cap_dyn N _ _ ((shrink_ok N h v fuel hv hf).2.2.2.1)
  · intro fuel
    exact Inv_cap_dyn N _ _ (Inv_clear N h v fuel hv)
  · intro fuel hf
    exact Inv_cap_dyn N _ _ (Inv_pop_back N h v fuel hv hf)

/-- Witness for C9: `N = 1`, a Dynamic container over a live capacity-4 buffer: its
capacity exceeds `N`; a sized copy at target capacity `1 ≤ N` comes out Inline; and
after `pop_back` the (still Dynamic) container again has capacity above `N`. -/
theorem claim_C9_dynamic_capacity_strict_witness :
    (Inv 1 [some ⟨4, 1, [5, 6]⟩] (⟨2, false, 0, []⟩ : socow_vector Nat) ∧
     (1 : Nat) ≤ 1) ∧
    1 < capacity 1 [some ⟨4, 1, [5, 6]⟩] (⟨2, false, 0, []⟩ : socow_vector Nat) ∧
    ctor_sized 1 [some ⟨4, 1, [5, 6]⟩] (⟨2, false, 0, []⟩ : socow_vector Nat) 1 1 3 =
      ([some ⟨4, 1, [5, 6]⟩], 2, .ok ⟨1, true, 0, [5]⟩) ∧
    ((pop_back 1 [some ⟨4, 1, [5, 6]⟩] (⟨2, false, 0, []⟩ : socow_vector Nat)
        3).vec.is_small_vector_ = false →
      1 < capacity 1
        (pop_back 1 [some ⟨4, 1, [5, 6]⟩] (⟨2, false, 0, []⟩ : socow_vector Nat) 3).heap
        (pop_back 1 [some ⟨4, 1, [5, 6]⟩] (⟨2, false, 0, []⟩ : socow_vector Nat) 3).vec) := by
  obtain ⟨hdyn, hctor, -, -, -, -, -, hpop⟩ :=
    claim_C9_dynamic_capacity_strict 1 [some ⟨4, 1, [5, 6]⟩]
      (⟨2, false, 0, []⟩ : socow_vector Nat) (by decide) (by decide)
  refine ⟨⟨by decide, by decide⟩, hdyn rfl, ?_, hpop 3 (by decide)⟩
  rw [hctor 1 1 3 (by decide) (by decide)]
  decide

theorem reserve_err (N : Nat) (h : Heap α) (v : socow_vector α) (k fuel : Nat)
    (hv : Inv N h v) :
    (reserve N h v k fuel).out = .error () →
    ((reserve N h v k fuel).vec = v ∧
     (∀ i, i < h.length → hget (reserve N h v k fuel).heap i = hget h i) ∧
     hget (reserve N h v k fuel).heap h.length = none) := by
  by_cases h₁ : k < v.size_
  · rw [reserve_noop_low N h v k fuel h₁]
    intro hout
    exact absurd hout (by simp)
  · by_cases h₂ : (!(is_only_vector_ref h v) && decide (k ≤ N)) = true
    · unfold reserve
      rw [if_neg h₁, if_pos h₂]
      simp only [from_dynamic_to_static]
      by_cases hc : v.size_ ≤ fuel
      · simp only [uninitialized_copy_ok hc]
        intro hout
        exact absurd hout (by simp)
      · simp only [uninitialized_copy_err (show fuel < v.size_ by omega)]
        intro _
        refine ⟨by first | trivial | rfl, ?_, ?_⟩
        · intro i hi
          first | trivial | rfl
        · first | trivial | exact hget_of_ge h h.length (Nat.le_refl _)
    · by_cases h₃ : (decide (k > capacity N h v) ||
          (!(is_only_vector_ref h v) && decide (v.size_ ≤ k))) = true
      · have hkN : ¬(k ≤ N) := by
          cases hsm : v.is_small_vector_ with
          | true =>
            have honly : is_only_vector_ref h v = true := by
              simp [is_only_vector_ref, hsm]
            have hcapN : capacity N h v = N := by simp [capacity, hsm]
            rcases Bool.or_eq_true_iff.mp h₃ with hgt | hand
            · have := of_decide_eq_true hgt
              omega
            · rw [honly] at hand
              simp at hand
          | false =>
            rcases Bool.or_eq_true_iff.mp h₃ with hgt | hand
            · obtain ⟨b, hb, hbsz, hbcap, hbN, hbrefs⟩ := Inv_dyn N h v hv hsm
              have hcapb : capacity N h v = b.capacity_ := capacity_dyn_eq N h v b hsm hb
              have := of_decide_eq_true hgt
              omega
            · rcases Bool.and_eq_true_iff.mp hand with ⟨hnotonly, -⟩
              intro hc
              apply h₂
              rw [show is_only_vector_ref h v = false from by
                cases hx : is_only_vector_ref h v
                · rfl
                · rw [hx] at hnotonly; simp at hnotonly]
              simp [hc]
        unfold reserve
        rw [if_neg h₁, if_neg h₂, if_pos h₃]
        cases hsm : v.is_small_vector_ with
        | true =>
          rw [if_pos rfl]
          unfold ctor_sized
          rw [if_neg hkN]
          simp only [allocate_dynamic_buffer]
          by_cases hc : v.size_ ≤ fuel
          · simp only [uninitialized_copy_ok hc]
            rw [assign_dyn_src N _ v _ (fuel - v.size_) rfl
              (by simp [is_same_vector, hsm])]
            intro hout
            exact absurd hout (by simp)
          · simp only [uninitialized_copy_err (show fuel < v.size_ by omega)]
            intro _
            refine ⟨by first | trivial | rfl, ?_, ?_⟩
            · intro i hi
              first | trivial | exact hget_pushSet h _ _ i hi
            · first | trivial | exact hget_pushSet_self h _ _
        | false =>
          rw [if_neg (by simp)]
          unfold ctor_sized
          rw [if_neg hkN]
          simp only [allocate_dynamic_buffer]
          obtain ⟨b, hb, hbsz, hbcap, hbN, hbrefs⟩ := Inv_dyn N h v hv hsm
          have hbuflt : v.dynamic_data < h.length := lt_of_hget_some h _ b hb
          by_cases hc : v.size_ ≤ fuel
          · simp only [uninitialized_copy_ok hc]
            rw [swap_dyn_dyn _ _ _ _ rfl hsm
              (by show h.length ≠ v.dynamic_data; omega)]
            intro hout
            exact absurd hout (by simp)
          · simp only [uninitialized_copy_err (show fuel < v.size_ by omega)]
            intro _
            refine ⟨by first | trivial | rfl, ?_, ?_⟩
            · intro i hi
              first | trivial | exact hget_pushSet h _ _ i hi
            · first | trivial | exact hget_pushSet_self h _ _
      · rw [reserve_noop_else N h v k fuel h₁ h₂ h₃]
        intro hout
        exact absurd hout (by simp)

/-- C2: strong exception guarantee for `insert`, `erase` and `reserve`: whenever the
operation returns via exception (the element type's copy constructor threw), the
container record is exactly the one from before the call, its observable elements and
capacity are unchanged, every pre-existing heap block is untouched, and the freshly
allocated buffer of the failed operation — heap slot `h.length` — is discarded. -/
theorem claim_C2_strong_exception (N : Nat) (h : Heap α) (v : socow_vector α)
    (hv : Inv N h v) :
    (∀ pos x fuel, (insert N h v pos x fuel).out = .error () →
      (insert N h v pos x fuel).vec = v ∧
      view (insert N h v pos x fuel).heap (insert N h v pos x fuel).vec = view h v ∧
      capacity N (insert N h v pos x fuel).heap (insert N h v pos x fuel).vec =
        capacity N h v ∧
      (∀ i, i < h.length → hget (insert N h v pos x fuel).heap i = hget h i) ∧
      hget (insert N h v pos x fuel).heap h.length = none) ∧
    (∀ first last fuel, (erase N h v first last fuel).out = .error () →
      (erase N h v first last fuel).vec = v ∧
      view (erase N h v first last fuel).heap (erase N h v first last fuel).vec =
        view h v ∧
      capacity N (erase N h v first last fuel).heap (erase N h v first last fuel).vec =
        capacity N h v ∧
      (∀ i, i < h.length → hget (erase N h v first last fuel).heap i = hget h i) ∧
      hget (erase N h v first last fuel).heap h.length = none) ∧
    (∀ k fuel, (reserve N h v k fuel).out = .error () →
      (reserve N h v k fuel).vec = v ∧
      view (reserve N h v k fuel).heap (reserve N h v k fuel).vec = view h v ∧
      capacity N (reserve N h v k fuel).heap (reserve N h v k fuel).vec =
        capacity N h v ∧
      (∀ i, i < h.length → hget (reserve N h v k fuel).heap i = hget h i) ∧
      hget (reserve N h v k fuel).heap h.length = none) := by
  have hdd : v.is_small_vector_ = false → v.dynamic_data < h.length := by
    intro hsm
    obtain ⟨b, hb, -, -, -, -⟩ := Inv_dyn N h v hv hsm
    exact lt_of_hget_some h _ b hb
  refine ⟨?_, ?_, ?_⟩
  · intro pos x fuel hout
    obtain ⟨hvec, hkeep, hnew⟩ := insert_err N h v pos x fuel hout
    have hsame : v.is_small_vector_ = false →
        hget (insert N h v pos x fuel).heap v.dynamic_data = hget h v.dynamic_data :=
      fun hsm => hkeep _ (hdd hsm)
    refine ⟨hvec, ?_, ?_, hkeep, hnew⟩
    · rw [hvec]
      exact view_congr h _ v hsame
    · rw [hvec]
      exact capacity_congr N h _ v hsame
  · intro first last fuel hout
    obtain ⟨hvec, hkeep, hnew⟩ := erase_err N h v first last fuel hv hout
    have hsame : v.is_small_vector_ = false →
        hget (erase N h v first last fuel).heap v.dynamic_data = hget h v.dynamic_data :=
      fun hsm => hkeep _ (hdd hsm)
    refine ⟨hvec, ?_, ?_, hkeep, hnew⟩
    · rw [hvec]
      exact view_congr h _ v hsame
    · rw [hvec]
      exact capacity_congr N h _ v hsame
  · intro k fuel hout
    obtain ⟨hvec, hkeep, hnew⟩ := reserve_err N h v k fuel hv hout
    have hsame : v.is_small_vector_ = false →
        hget (reserve N h v k fuel).heap v.dynamic_data = hget h v.dynamic_data :=
      fun hsm => hkeep _ (hdd hsm)
    refine ⟨hvec, ?_, ?_, hkeep, hnew⟩
    · rw [hvec]
      exact view_congr h _ v hsame
    · rw [hvec]
      exact capacity_congr N h _ v hsame

/-- Witness for C2: `N = 1`, a shared Dynamic `[10, 20, 30]`; with fuel 0 the rebuild
copies of `insert`, `erase` and `reserve(9)` all throw, and each time the container, its
elements, its capacity and the old buffer are exactly as before, with the fresh slot
freed. -/
theorem claim_C2_strong_exception_witness :
    Inv 1 [some ⟨8, 2, [10, 20, 30]⟩] (⟨3, false, 0, []⟩ : socow_vector Nat) ∧
    ((insert 1 [some ⟨8, 2, [10, 20, 30]⟩] ⟨3, false, 0, []⟩ 1 99 0).out = .error () ∧
     (insert 1 [some ⟨8, 2, [10, 20, 30]⟩] ⟨3, false, 0, []⟩ 1 99 0).vec =
       ⟨3, false, 0, []⟩ ∧
     view (insert 1 [some ⟨8, 2, [10, 20, 30]⟩] ⟨3, false, 0, []⟩ 1 99 0).heap
       (insert 1 [some ⟨8, 2, [10, 20, 30]⟩] ⟨3, false, 0, []⟩ 1 99 0).vec =
       [10, 20, 30] ∧
     hget (insert 1 [some ⟨8, 2, [10, 20, 30]⟩] ⟨3, false, 0, []⟩ 1 99 0).heap 0 =
       some ⟨8, 2, [10, 20, 30]⟩ ∧
     hget (insert 1 [some ⟨8, 2, [10, 20, 30]⟩] ⟨3, false, 0, []⟩ 1 99 0).heap 1 =
       none) ∧
    ((erase 1 [some ⟨8, 2, [10, 20, 30]⟩] ⟨3, false, 0, []⟩ 0 1 0).out = .error () ∧
     (erase 1 [some ⟨8, 2, [10, 20, 30]⟩] ⟨3, false, 0, []⟩ 0 1 0).vec =
       ⟨3, false, 0, []⟩) ∧
    ((reserve 1 [some ⟨8, 2, [10, 20, 30]⟩] ⟨3, false, 0, []⟩ 9 0).out = .error () ∧
     (reserve 1 [some ⟨8, 2, [10, 20, 30]⟩] ⟨3, false, 0, []⟩ 9 0).vec =
       ⟨3, false, 0, []⟩ ∧
     capacity 1 (reserve 1 [some ⟨8, 2, [10, 20, 30]⟩] ⟨3, false, 0, []⟩ 9 0).heap
       (reserve 1 [some ⟨8, 2, [10, 20, 30]⟩] ⟨3, false, 0, []⟩ 9 0).vec = 8) := by
  obtain ⟨hins, hers, hres⟩ :=
    claim_C2_strong_exception 1 [some ⟨8, 2, [10, 20, 30]⟩]
      (⟨3, false, 0, []⟩ : socow_vector Nat) (by decide)
  obtain ⟨hiv, hivw, -, -, hinew⟩ := hins 1 99 0 (by decide)
  obtain ⟨hev, -, -, -, -⟩ := hers 0 1 0 (by decide)
  obtain ⟨hrv, -, hrcap, -, -⟩ := hres 9 0 (by decide)
  refine ⟨by decide, ⟨by decide, hiv, ?_, ?_, ?_⟩, ⟨by decide, hev⟩,
    ⟨by decide, hrv, ?_⟩⟩
  · rw [hivw]
    decide
  · obtain ⟨-, -, -, hkeep, -⟩ := hins 1 99 0 (by decide)
    rw [hkeep 0 (by decide)]
    decide
  · rw [show (1 : Nat) = ([some (⟨8, 2, [10, 20, 30]⟩ : dynamic_buffer Nat)] :
      Heap Nat).length from rfl]
    exact hinew
  · rw [hrcap]
    decide

theorem insert_slow_nofuel (N : Nat) (h : Heap α) (v : socow_vector α) (delta : Nat)
    (x : α) (fuel : Nat)
    (hcond : (v.size_ != capacity N h v && is_only_vector_ref h v) = false)
    (hfuel : fuel < v.size_ + 1) (hdelta : delta ≤ v.size_) :
    (insert N h v delta x fuel).out = .error () := by
  unfold insert
  rw [if_neg (by simp [hcond])]
  by_cases hc1 : delta ≤ fuel
  · simp only [uninitialized_copy_ok hc1]
    by_cases hc2 : 1 ≤ fuel - delta
    · simp only [uninitialized_copy_ok hc2]
      simp only [uninitialized_copy_err
        (show fuel - delta - 1 < v.size_ - delta by omega)]
    · simp only [uninitialized_copy_err (show fuel - delta < 1 by omega)]
  · simp only [uninitialized_copy_err (show fuel < delta by omega)]

/-- C1: copy-on-write is invisible to callers. For a non-empty container `a` whose size
exceeds `N` (hence Dynamic), copy-assignment `b = a` succeeds without copying elements
and binds `b` to `a`'s buffer; both then observe the same elements; and afterwards a
mutation of `b` (`push_back(x)`, with any copy budget — succeeding or throwing) leaves
every element observable through `a` unchanged, and a mutation of `a` leaves every
element observable through `b` unchanged. -/
theorem claim_C1_cow_invisible (N : Nat) (h : Heap α) (a b₀ : socow_vector α)
    (fuel₀ : Nat) (hva : Inv N h a) (hvb : Inv N h b₀)
    (hbig : N < a.size_) (hne : is_same_vector b₀ a = false) :
    (assign N h b₀ a fuel₀).out = .ok () ∧
    (assign N h b₀ a fuel₀).fuel = fuel₀ ∧
    (assign N h b₀ a fuel₀).vec.dynamic_data = a.dynamic_data ∧
    view (assign N h b₀ a fuel₀).heap (assign N h b₀ a fuel₀).vec =
      view (assign N h b₀ a fuel₀).heap a ∧
    (∀ x fuel,
      view (push_back N (assign N h b₀ a fuel₀).heap (assign N h b₀ a fuel₀).vec x
        fuel).heap a = view (assign N h b₀ a fuel₀).heap a) ∧
    (∀ x fuel,
      view (push_back N (assign N h b₀ a fuel₀).heap a x fuel).heap
        (assign N h b₀ a fuel₀).vec =
        view (assign N h b₀ a fuel₀).heap (assign N h b₀ a fuel₀).vec) := by
  have hsma : a.is_small_vector_ = false := by
    cases hx : a.is_small_vector_
    · rfl
    · obtain ⟨hsa, -⟩ := Inv_small N h a hva hx
      omega
  obtain ⟨ba, hba, hbasz, hbacap, hbaN, hbarefs⟩ := Inv_dyn N h a hva hsma
  have heq := assign_dyn_src N h b₀ a fuel₀ hsma hne
  have hkeep : hget (if b₀.is_small_vector_ then h else release_vector_ref h b₀)
      a.dynamic_data = hget h a.dynamic_data := by
    cases hsmb : b₀.is_small_vector_ with
    | true => rw [if_pos rfl]
    | false =>
      rw [if_neg (by simp)]
      have hbne : b₀.dynamic_data ≠ a.dynamic_data := by
        unfold is_same_vector at hne
        rw [hsmb, hsma] at hne
        simpa using hne
      unfold release_vector_ref
      rw [hsmb]
      simp only [Bool.false_eq_true, if_false]
      exact hget_release_ref_ne _ _ _ _ hbne
  have hh1 : hget (add_vector_ref (if b₀.is_small_vector_ then h else release_vector_ref h b₀) (⟨a.size_, false, a.dynamic_data, []⟩ : socow_vector α)) a.dynamic_data =
      some { ba with refs_count := ba.refs_count + 1 } := by
    rw [add_vector_ref_dyn _ _ rfl]
    rw [show ((⟨a.size_, false, a.dynamic_data, []⟩ : socow_vector α)).dynamic_data = a.dynamic_data from rfl]
    rw [hget_modifyBuf_self, hkeep, hba]
    rfl
  have hlt1 : a.dynamic_data < (add_vector_ref (if b₀.is_small_vector_ then h else release_vector_ref h b₀) (⟨a.size_, false, a.dynamic_data, []⟩ : socow_vector α)).length :=
    lt_of_hget_some _ _ _ hh1
  have hva₁ : Inv N (add_vector_ref (if b₀.is_small_vector_ then h else release_vector_ref h b₀) (⟨a.size_, false, a.dynamic_data, []⟩ : socow_vector α)) a :=
    Inv_dyn_intro N _ a ({ ba with refs_count := ba.refs_count + 1 }) hsma hh1 hbasz
      hbacap hbaN (by show 1 ≤ ba.refs_count + 1; omega)
  have hvb₁ : Inv N (add_vector_ref (if b₀.is_small_vector_ then h else release_vector_ref h b₀) (⟨a.size_, false, a.dynamic_data, []⟩ : socow_vector α)) ((⟨a.size_, false, a.dynamic_data, []⟩ : socow_vector α)) :=
    Inv_dyn_intro N _ _ ({ ba with refs_count := ba.refs_count + 1 }) rfl hh1 hbasz
      hbacap hbaN (by show 1 ≤ ba.refs_count + 1; omega)
  have hnot1 : (ba.refs_count + 1 == 1) = false := by
    have hx : ba.refs_count + 1 ≠ 1 := by omega
    simpa using hx
  have honly_false : ∀ w : socow_vector α, w.is_small_vector_ = false →
      w.dynamic_data = a.dynamic_data →
      is_only_vector_ref (add_vector_ref (if b₀.is_small_vector_ then h else release_vector_ref h b₀) (⟨a.size_, false, a.dynamic_data, []⟩ : socow_vector α)) w = false := by
    intro w hw hwd
    rw [is_only_dyn _ w ({ ba with refs_count := ba.refs_count + 1 }) hw
      (by rw [hwd]; exact hh1)]
    exact hnot1
  have hdata : ∀ (w : socow_vector α) (x : α) (fuel : Nat),
      w.is_small_vector_ = false → w.dynamic_data = a.dynamic_data →
      Inv N (add_vector_ref (if b₀.is_small_vector_ then h else release_vector_ref h b₀) (⟨a.size_, false, a.dynamic_data, []⟩ : socow_vector α)) w →
      ∃ d : dynamic_buffer α,
        hget (insert N (add_vector_ref (if b₀.is_small_vector_ then h else release_vector_ref h b₀) (⟨a.size_, false, a.dynamic_data, []⟩ : socow_vector α)) w w.size_ x fuel).heap a.dynamic_data = some d ∧
        d.data_ = ba.data_ := by
    intro w x fuel hw hwd hvw
    have hcond : (w.size_ != capacity N (add_vector_ref (if b₀.is_small_vector_ then h else release_vector_ref h b₀) (⟨a.size_, false, a.dynamic_data, []⟩ : socow_vector α)) w &&
        is_only_vector_ref (add_vector_ref (if b₀.is_small_vector_ then h else release_vector_ref h b₀) (⟨a.size_, false, a.dynamic_data, []⟩ : socow_vector α)) w) = false := by
      rw [honly_false w hw hwd, Bool.and_false]
    have hbuf₁ : bufAt (add_vector_ref (if b₀.is_small_vector_ then h else release_vector_ref h b₀) (⟨a.size_, false, a.dynamic_data, []⟩ : socow_vector α)) a.dynamic_data =
        { ba with refs_count := ba.refs_count + 1 } := by
      simp [bufAt, hh1]
    by_cases hfuel : w.size_ + 1 ≤ fuel
    · obtain ⟨-, -, -, -, -, -, -, -, -, hsh⟩ :=
        insert_slow_ok N (add_vector_ref (if b₀.is_small_vector_ then h else release_vector_ref h b₀) (⟨a.size_, false, a.dynamic_data, []⟩ : socow_vector α)) w w.size_ x fuel hvw hcond (Nat.le_refl _) hfuel
      have hx := hsh hw (by rw [hwd, hbuf₁]; show 2 ≤ ba.refs_count + 1; omega)
      rw [hwd, hbuf₁] at hx
      exact ⟨_, hx, rfl⟩
    · have hout := insert_slow_nofuel N (add_vector_ref (if b₀.is_small_vector_ then h else release_vector_ref h b₀) (⟨a.size_, false, a.dynamic_data, []⟩ : socow_vector α)) w w.size_ x fuel hcond (by omega)
        (Nat.le_refl _)
      obtain ⟨-, hk, -⟩ := insert_err N (add_vector_ref (if b₀.is_small_vector_ then h else release_vector_ref h b₀) (⟨a.size_, false, a.dynamic_data, []⟩ : socow_vector α)) w w.size_ x fuel hout
      refine ⟨{ ba with refs_count := ba.refs_count + 1 }, ?_, rfl⟩
      rw [hk _ hlt1]
      exact hh1
  rw [heq]
  refine ⟨rfl, rfl, rfl, ?_, ?_, ?_⟩
  · show view (add_vector_ref (if b₀.is_small_vector_ then h else release_vector_ref h b₀) (⟨a.size_, false, a.dynamic_data, []⟩ : socow_vector α)) ((⟨a.size_, false, a.dynamic_data, []⟩ : socow_vector α)) = view (add_vector_ref (if b₀.is_small_vector_ then h else release_vector_ref h b₀) (⟨a.size_, false, a.dynamic_data, []⟩ : socow_vector α)) a
    rw [view_dyn_eq _ ((⟨a.size_, false, a.dynamic_data, []⟩ : socow_vector α)) ({ ba with refs_count := ba.refs_count + 1 }) rfl hh1,
      view_dyn_eq _ a ({ ba with refs_count := ba.refs_count + 1 }) hsma hh1]
  · intro x fuel
    show view (insert N (add_vector_ref (if b₀.is_small_vector_ then h else release_vector_ref h b₀) (⟨a.size_, false, a.dynamic_data, []⟩ : socow_vector α)) ((⟨a.size_, false, a.dynamic_data, []⟩ : socow_vector α)) ((⟨a.size_, false, a.dynamic_data, []⟩ : socow_vector α)).size_ x fuel).heap a = view (add_vector_ref (if b₀.is_small_vector_ then h else release_vector_ref h b₀) (⟨a.size_, false, a.dynamic_data, []⟩ : socow_vector α)) a
    obtain ⟨d, hd, hdd⟩ := hdata ((⟨a.size_, false, a.dynamic_data, []⟩ : socow_vector α)) x fuel rfl rfl hvb₁
    rw [view_dyn_eq _ a d hsma hd,
      view_dyn_eq _ a ({ ba with refs_count := ba.refs_count + 1 }) hsma hh1, hdd]
  · intro x fuel
    show view (insert N (add_vector_ref (if b₀.is_small_vector_ then h else release_vector_ref h b₀) (⟨a.size_, false, a.dynamic_data, []⟩ : socow_vector α)) a a.size_ x fuel).heap ((⟨a.size_, false, a.dynamic_data, []⟩ : socow_vector α)) = view (add_vector_ref (if b₀.is_small_vector_ then h else release_vector_ref h b₀) (⟨a.size_, false, a.dynamic_data, []⟩ : socow_vector α)) ((⟨a.size_, false, a.dynamic_data, []⟩ : socow_vector α))
    obtain ⟨d, hd, hdd⟩ := hdata a x fuel hsma rfl hva₁
    rw [view_dyn_eq _ ((⟨a.size_, false, a.dynamic_data, []⟩ : socow_vector α)) d rfl hd,
      view_dyn_eq _ ((⟨a.size_, false, a.dynamic_data, []⟩ : socow_vector α)) ({ ba with refs_count := ba.refs_count + 1 }) rfl hh1, hdd]

/-- Witness for C1: `N = 1`, `a` Dynamic `[5, 6]`, `b` initially empty Inline. After
`b = a` both see `[5, 6]`; `b.push_back(9)` leaves `a`'s view `[5, 6]`, and
`a.push_back(9)` leaves `b`'s view `[5, 6]`. -/
theorem claim_C1_cow_invisible_witness :
    (Inv 1 [some ⟨4, 1, [5, 6]⟩] (⟨2, false, 0, []⟩ : socow_vector Nat) ∧
     Inv 1 [some ⟨4, 1, [5, 6]⟩] (⟨0, true, 0, []⟩ : socow_vector Nat) ∧
     (1 : Nat) < 2 ∧
     is_same_vector (⟨0, true, 0, []⟩ : socow_vector Nat) ⟨2, false, 0, []⟩ = false) ∧
    (assign 1 [some ⟨4, 1, [5, 6]⟩] ⟨0, true, 0, []⟩ ⟨2, false, 0, []⟩ 0).out = .ok () ∧
    view (push_back 1 (assign 1 [some ⟨4, 1, [5, 6]⟩] ⟨0, true, 0, []⟩
        ⟨2, false, 0, []⟩ 0).heap
      (assign 1 [some ⟨4, 1, [5, 6]⟩] ⟨0, true, 0, []⟩ ⟨2, false, 0, []⟩ 0).vec
      9 5).heap (⟨2, false, 0, []⟩ : socow_vector Nat) = [5, 6] ∧
    view (push_back 1 (assign 1 [some ⟨4, 1, [5, 6]⟩] ⟨0, true, 0, []⟩
        ⟨2, false, 0, []⟩ 0).heap (⟨2, false, 0, []⟩ : socow_vector Nat)
      9 5).heap
      (assign 1 [some ⟨4, 1, [5, 6]⟩] ⟨0, true, 0, []⟩ ⟨2, false, 0, []⟩ 0).vec =
      [5, 6] := by
  obtain ⟨hout, -, -, -, hmb, hma⟩ :=
    claim_C1_cow_invisible 1 [some ⟨4, 1, [5, 6]⟩] (⟨2, false, 0, []⟩ : socow_vector Nat)
      (⟨0, true, 0, []⟩ : socow_vector Nat) 0 (by decide) (by decide) (by decide)
      (by decide)
  refine ⟨⟨by decide, by decide, by decide, by decide⟩, hout, ?_, ?_⟩
  · rw [hmb 9 5]
    decide
  · rw [hma 9 5]
    decide

end Socow
